import Mathlib

/-!
# ATM account server: shallow embedding of `atmLib.c` / `atm_main.c`

The operator console (`bankz/bankLib.c`) and the terminal firmware
(`firmwarez/`) are embedded in the namespaces `Bank` and `TC`.

Modelling conventions.

* A C string is the list of its bytes before the NUL terminator (`CStr`).
* `f64` values are exact rational numbers (`ℚ`): the arithmetic and the
  comparisons of the handlers are the exact ones.
* `u64` values are `Nat`, reduced modulo `2^64` where the C code computes them.
* A linked list (`nxt` chain) is a `List`; an `Acc *` is the position of the
  node in the account list (`none` is `NULL`).
* libc is a parameter: the broken-down local time, the first `rand()` after
  `srand(seed)` and `atof` are fields of `Env`.
* A handler returns `none` where the C code leaves the behaviour undefined for
  the frame it was given: a `NULL` dereference, a read past the terminator of
  the frame, or a write outside a local buffer.
-/

namespace ATM

/-- Bytes of a C string, terminator excluded. -/
abbrev CStr := List Char

/-! ## Constants of `atmLib.h` -/

def MAX_DEPOSIT : ℚ := 30000
def MAX_WITHDRAW : ℚ := 30000
def MAX_TRANSFER : ℚ := 100000
def BLOCKED : Int := 0
def ACTIVE : Int := 1
def WITHDRAW : Int := 1
def DEPOSIT : Int := 2
def TRANSFER_IN : Int := 3
def TRANSFER_OUT : Int := 4

/-- Modulus of `unsigned long long`. -/
def U64 : Nat := 2 ^ 64

/-- Modulus of `unsigned int`. -/
def U32 : Nat := 2 ^ 32

/-- Conversion of a C `int` to `unsigned long long`. -/
def toU64 (z : Int) : Nat := (z % (2 ^ 64 : Int)).toNat

/-- Conversion of a C `int` to `char` (8 bits, two's complement). -/
def toChar8 (z : Int) : Int := (z + 128) % 256 - 128

/-! ## Data model (`Tran`, `Acc`) -/

/-- The struct `Tran` without its `nxt` link. -/
structure Tran where
  amt : ℚ
  id : Nat
  type : Int
deriving DecidableEq

/-- The struct `Acc` without its `nxt` link; `tranHist` is the chain of `Tran`
nodes from the head. -/
structure Acc where
  num : Nat
  bal : ℚ
  phno : Nat
  usrName : CStr
  pass : CStr
  rfid : CStr
  pin : CStr
  cardStat : Int
  name : CStr
  tranHist : List Tran
  tranCnt : Nat
deriving DecidableEq

/-- The fields of `struct tm` read by `getTimeStamp`. -/
structure Tm where
  tm_year : Int
  tm_mon : Int
  tm_mday : Int
  tm_hour : Int
  tm_min : Int
  tm_sec : Int
deriving DecidableEq

/-- What libc answers while one request is handled: `localtime(time())`, the
first `rand()` after `srand(seed)`, and `atof`. -/
structure Env where
  tm : Tm
  rand : Nat → Nat
  atof : CStr → ℚ

/-! ## Response frames -/

/-- One constructor per frame handed to `tx_str` by the account server. -/
inductive Reply where
  /-- Frame `@OK:ACTIVE:<username>$`. -/
  | okActive (usrName : CStr)
  /-- Frame `@ERR:BLOCK$`. -/
  | errBlock
  /-- Frame `@ERR:INVALID$`. -/
  | errInvalid
  /-- Frame `@OK:MATCHED$`. -/
  | okMatched
  /-- Frame `@ERR:WRONG$`. -/
  | errWrong
  /-- Frame `@OK:DONE$`. -/
  | okDone
  /-- Frame `@ERR:NEGAMT$`. -/
  | errNegAmt
  /-- Frame `@ERR:MAXAMT$`. -/
  | errMaxAmt
  /-- Frame `@ERR:LOWBAL$`. -/
  | errLowBal
  /-- Frame `@OK:BAL=<bal>$`, the balance printed with `%.2lf`. -/
  | okBal (bal : ℚ)
  /-- Frame `@TXN:<type>:<dd>/<mon>/<yy> <hh>:<mm>:<amt>$`. -/
  | txn (type : Int) (dd mon yy hh mm : Nat) (amt : ℚ)
  /-- Frame `@TXN:7:0:0$`. -/
  | txnNone
  /-- Frame `@X:LINEOK$`. -/
  | lineOk
deriving DecidableEq

/-- What a handler does besides updating the account list, in program order. -/
inductive Event where
  /-- Call `tx_str(fd, frame)`. -/
  | tx (r : Reply)
  /-- Call `saveData(head)`: snapshot to the primary files under `dataz/`. -/
  | saveData (db : List Acc)
  /-- Call `saveFile(head)`: snapshot to the report files under `filez/`. -/
  | saveFile (db : List Acc)
deriving DecidableEq

/-- Outcome of a handler: the account list afterwards and the events, or `none`
for undefined behaviour. -/
abbrev Outcome := Option (List Acc × List Event)

/-! ## Printing of the frames (`sprintf` formats) -/

/-- Decimal digits of `n` left-padded with zeros to width `w` (`%0<w>u`). -/
def pad0 (w n : Nat) : String :=
  let s := toString n
  String.mk (List.replicate (w - s.length) '0') ++ s

/-- Nearest integer to `q` for `0 ≤ q`, ties to even. -/
def roundHalfEven (q : ℚ) : Nat :=
  let f := q.floor.toNat
  let r := q - f
  if r < 1 / 2 then f else if 1 / 2 < r then f + 1 else if f % 2 = 0 then f else f + 1

/-- Two-decimal printing of an exact amount (`%.2lf`). -/
def fmt2 (x : ℚ) : String :=
  let n := roundHalfEven (|x| * 100)
  (if x < 0 then "-" else "") ++ toString (n / 100) ++ "." ++ pad0 2 (n % 100)

/-- Text handed to `tx_str` for each reply. -/
def Reply.frame : Reply → String
  | .okActive u => "@OK:ACTIVE:" ++ String.mk u ++ "$"
  | .errBlock => "@ERR:BLOCK$"
  | .errInvalid => "@ERR:INVALID$"
  | .okMatched => "@OK:MATCHED$"
  | .errWrong => "@ERR:WRONG$"
  | .okDone => "@OK:DONE$"
  | .errNegAmt => "@ERR:NEGAMT$"
  | .errMaxAmt => "@ERR:MAXAMT$"
  | .errLowBal => "@ERR:LOWBAL$"
  | .okBal b => "@OK:BAL=" ++ fmt2 b ++ "$"
  | .txn t dd mon yy hh mm a =>
      "@TXN:" ++ toString t ++ ":" ++ pad0 2 dd ++ "/" ++ pad0 2 mon ++ "/" ++ pad0 4 yy
        ++ " " ++ pad0 2 hh ++ ":" ++ pad0 2 mm ++ ":" ++ fmt2 a ++ "$"
  | .txnNone => "@TXN:7:0:0$"
  | .lineOk => "@X:LINEOK$"

/-! ## Account lookup and pointers -/

/-- Walk of `getAcc`: position of the first account whose `rfid` equals the
argument, `none` (`NULL`) when the end of the list is reached. -/
def getAcc : List Acc → CStr → Option Nat
  | [], _ => none
  | a :: t, rfid => if rfid = a.rfid then some 0 else (getAcc t rfid).map (· + 1)

/-- The account a pointer designates. -/
def deref (head : List Acc) (p : Option Nat) : Option Acc :=
  p.bind fun i => head[i]?

/-- Store through a pointer: the node at `p` takes the value `usr`. -/
def writeBack (head : List Acc) (p : Option Nat) (usr : Option Acc) : List Acc :=
  match p, usr with
  | some i, some u => head.set i u
  | _, _ => head

/-! ## Transaction ids and the history -/

/-- Timestamp `YYYYMMDDHHMMSS` computed by `getTimeStamp`. -/
def getTimeStamp (t : Tm) : Nat :=
  (toU64 (t.tm_year + 1900) * 10000000000 + toU64 (t.tm_mon + 1) * 100000000
    + toU64 t.tm_mday * 1000000 + toU64 t.tm_hour * 10000 + toU64 t.tm_min * 100
    + toU64 t.tm_sec) % U64

/-- Id computed by `getTranId`: `srand(usr->num)`, then
`getTimeStamp()*1000 + rand()%1000`. -/
def getTranId (env : Env) (usr : Acc) : Nat :=
  (getTimeStamp env.tm * 1000 + env.rand (usr.num % U32) % 1000) % U64

/-- Prepend of `addTran`: a new node becomes the head of the history and the
counter is incremented. -/
def addTran (env : Env) (usr : Acc) (amt : ℚ) (type : Int) : Acc :=
  { usr with
    tranHist := { amt := amt, id := getTranId env usr, type := type } :: usr.tranHist
    tranCnt := (usr.tranCnt + 1) % U64 }

/-! ## Handlers on one account -/

/-- Handler `deposit(fd, usr, amt)`. -/
def deposit (env : Env) (usr : Option Acc) (amt : ℚ) : Option (Option Acc × Reply) :=
  if amt ≤ 0 then some (usr, .errNegAmt)
  else if amt < MAX_DEPOSIT then
    match usr with
    | none => none
    | some u => some (some (addTran env { u with bal := u.bal + amt } amt DEPOSIT), .okDone)
  else some (usr, .errMaxAmt)

/-- Handler `withdraw(fd, usr, amt)`. -/
def withdraw (env : Env) (usr : Option Acc) (amt : ℚ) : Option (Option Acc × Reply) :=
  if amt ≤ 0 then some (usr, .errNegAmt)
  else if amt < MAX_WITHDRAW then
    match usr with
    | none => none
    | some u =>
      if amt ≤ u.bal then
        some (some (addTran env { u with bal := u.bal - amt } (-amt) WITHDRAW), .okDone)
      else some (usr, .errLowBal)
  else some (usr, .errMaxAmt)

/-- Handler `balance(fd, usr)`. -/
def balance (usr : Option Acc) : Option Reply :=
  match usr with
  | none => none
  | some u => some (.okBal u.bal)

/-- Handler `pinChange(fd, usr, pin)`. -/
def pinChange (usr : Option Acc) (pin : CStr) : Option (Option Acc × Reply) :=
  match usr with
  | none => none
  | some u => some (some { u with pin := pin }, .okDone)

/-- The reply `miniStatement` formats for the node `t`: the id is cut down to
`YYYYMMDDHHMM`, split by repeated `%100` and `/100` into `unsigned int` fields,
and the amount is made positive. -/
def txnReply (t : Tran) : Reply :=
  let dum := t.id / 100000
  let mm := dum % 100
  let dum := dum / 100
  let hh := dum % 100
  let dum := dum / 100
  let dd := dum % 100
  let dum := dum / 100
  let mon := dum % 100
  let dum := dum / 100
  let yy := dum % U32
  let amt := t.amt
  let amt := if amt < 0 then -amt else amt
  .txn t.type dd mon yy hh mm amt

/-- Handler `miniStatement(fd, usr, txn)`: `txn` is the `char` argument. The
walk `while(--txn) t=t->nxt;` stops on the node number `txn` from the head. -/
def miniStatement (usr : Option Acc) (txn : Int) : Option Reply :=
  if 0 < txn then
    match usr with
    | none => none
    | some u =>
      if txn.toNat ≤ u.tranCnt then
        match u.tranHist[txn.toNat - 1]? with
        | none => none
        | some t => some (txnReply t)
      else some .txnNone
  else some .txnNone

/-! ## Frame decoding and the dispatcher -/

/-- Amount decoded by `extAmt`: the text from index 16 is copied into
`dup[20]`, its last byte is cut, and the rest goes to `atof`. -/
def extAmt (env : Env) (buf : CStr) : Option ℚ :=
  if buf.length < 16 then none
  else
    let dup := buf.drop 16
    if dup.length = 0 ∨ 20 ≤ dup.length then none
    else some (env.atof dup.dropLast)

/-- Test of `isMsgOk`: first byte `#`, last byte `$`. -/
def isMsgOk (buf : CStr) : Bool :=
  buf.head? = some '#' && buf.getLast? = some '$'

/-- Handler `checkRFID(head, fd, buf)`. -/
def checkRFID (head : List Acc) (buf : CStr) : Outcome :=
  if buf.length < 3 then none
  else
    let rfid := (buf.drop 3).take 8
    match deref head (getAcc head rfid) with
    | some usr =>
      if usr.cardStat ≠ 0 then some (head, [.tx (.okActive usr.usrName)])
      else some (head, [.tx .errBlock])
    | none => some (head, [.tx .errInvalid])

/-- Handler `verifyPin(head, fd, buf)`. -/
def verifyPin (head : List Acc) (buf : CStr) : Outcome :=
  if buf.length < 12 then none
  else
    let rfid := (buf.drop 3).take 8
    let pin := (buf.drop 12).take 4
    match deref head (getAcc head rfid) with
    | none => none
    | some usr =>
      if pin = usr.pin then some (head, [.tx .okMatched])
      else some (head, [.tx .errWrong])

/-- Handler `act(head, fd, buf)`. -/
def act (env : Env) (head : List Acc) (buf : CStr) : Outcome :=
  if buf.length < 7 then none
  else
    let rfid := (buf.drop 7).take 8
    let p := getAcc head rfid
    let usr := deref head p
    let req := (buf.drop 3).take 3
    if req = "WTD".toList then
      (extAmt env buf).bind fun amt =>
      (withdraw env usr amt).bind fun r =>
        let head1 := writeBack head p r.1
        some (head1, [.tx r.2, .saveData head1])
    else if req = "DEP".toList then
      (extAmt env buf).bind fun amt =>
      (deposit env usr amt).bind fun r =>
        let head1 := writeBack head p r.1
        some (head1, [.tx r.2, .saveData head1])
    else if req = "BAL".toList then
      (balance usr).bind fun r => some (head, [.tx r])
    else if req = "MST".toList then
      if buf.length < 16 then none
      else
        let txn := toChar8 ((buf.getD 16 (Char.ofNat 0)).toNat - 48)
        (miniStatement usr txn).bind fun r => some (head, [.tx r])
    else if req = "TNF".toList then some (head, [])
    else if req = "PIN".toList then
      if buf.length < 16 then none
      else
        let pin := (buf.drop 16).take 4
        (pinChange usr pin).bind fun r =>
          let head1 := writeBack head p r.1
          some (head1, [.tx r.2, .saveData head1])
    else if req = "BLK".toList then
      usr.bind fun u =>
        let head1 := writeBack head p (some { u with cardStat := BLOCKED })
        some (head1, [.tx .okDone, .saveData head1])
    else some (head, [])

/-- Body of the loop of `main` for one received line `buf`. -/
def handle (env : Env) (head : List Acc) (buf : CStr) : Outcome :=
  if ¬ isMsgOk buf then some (head, [])
  else
    match buf[1]? with
    | some 'C' => checkRFID head buf
    | some 'V' => verifyPin head buf
    | some 'A' => act env head buf
    | some 'X' => some (head, [.tx .lineOk])
    | some 'Q' => some (head, [.saveData head, .saveFile head])
    | _ => some (head, [])

/-- The loop of `main` over a sequence of received lines, each with the libc
answers in force while it is handled: the account list at the end and all the
events in order, `none` as soon as one step is undefined. -/
def run : List Acc → List (Env × CStr) → Outcome
  | head, [] => some (head, [])
  | head, (env, buf) :: rest =>
    match handle env head buf with
    | none => none
    | some (head1, evs) =>
      match run head1 rest with
      | none => none
      | some (head2, evs2) => some (head2, evs ++ evs2)

/-! ## Request frames, as documented in the handlers -/

/-- Request `#C:<rfid>$`. -/
def reqC (rfid : CStr) : CStr := "#C:".toList ++ rfid ++ "$".toList

/-- Request `#V:<rfid>:<pin>$`. -/
def reqV (rfid pin : CStr) : CStr := "#V:".toList ++ rfid ++ ":".toList ++ pin ++ "$".toList

/-- Request `#A:<req>:<rfid>$` (`BAL`, `BLK`). -/
def reqA (req rfid : CStr) : CStr :=
  "#A:".toList ++ req ++ ":".toList ++ rfid ++ "$".toList

/-- Request `#A:<req>:<rfid>:<arg>$` (`WTD`, `DEP`, `PIN`, `MST`). -/
def reqA2 (req rfid arg : CStr) : CStr :=
  "#A:".toList ++ req ++ ":".toList ++ rfid ++ ":".toList ++ arg ++ "$".toList

/-- Replies that report a rejected amount. -/
def Reply.isAmtErr (r : Reply) : Prop := r = .errNegAmt ∨ r = .errMaxAmt ∨ r = .errLowBal

/-- The card of `rfid` is found and is blocked. -/
def BlockedCard (head : List Acc) (rfid : CStr) : Prop :=
  ∃ i u, getAcc head rfid = some i ∧ head[i]? = some u ∧ u.cardStat = BLOCKED

/-- Decimal text of an index, as the terminal prints it with `%d` in
`#A:MST:<rfid>:<txNo>$`. -/
def decimal (n : Nat) : CStr := (Nat.repr n).toList

/-! ## Sample data -/

/-- Value of `atof` on plain decimal text `<digits>[.<digits>]`. -/
def atofDec (s : CStr) : ℚ :=
  let ip := s.takeWhile (· ≠ '.')
  let fp := (s.dropWhile (· ≠ '.')).drop 1
  let n : Nat := ip.foldl (fun acc c => acc * 10 + (c.toNat - 48)) 0
  let m : Nat := fp.foldl (fun acc c => acc * 10 + (c.toNat - 48)) 0
  (n : ℚ) + (m : ℚ) / (10 : ℚ) ^ fp.length

/-- A clock reading (15 May 2025, 10:30:45) with a fixed `rand` and the decimal
`atof`. -/
def env0 : Env :=
  { tm := { tm_year := 125, tm_mon := 4, tm_mday := 15, tm_hour := 10, tm_min := 30,
            tm_sec := 45 }
    rand := fun seed => seed + 123456
    atof := atofDec }

/-- An account with card `11111111`, balance 1000.00 and an empty history. -/
def alice : Acc :=
  { num := 202505151030451234, bal := 1000, phno := 9000000000, usrName := "Alice".toList,
    pass := "secret".toList, rfid := "11111111".toList, pin := "1234".toList,
    cardStat := ACTIVE, name := "Alice Example".toList, tranHist := [], tranCnt := 0 }

/-- An account with card `22222222`, blocked, balance 150.00, one deposit in its
history. -/
def bob : Acc :=
  { num := 202505151030459876, bal := 150, phno := 9111111111, usrName := "Bob".toList,
    pass := "hunter2".toList, rfid := "22222222".toList, pin := "4321".toList,
    cardStat := BLOCKED, name := "Bob Example".toList,
    tranHist := [{ amt := 150, id := 20250514093012345, type := DEPOSIT }], tranCnt := 1 }

/-! ## Replies and sub-operations of a handled line -/

/-- The frames handed to `tx_str` among the events, in order. -/
def replies : List Event → List Reply
  | [] => []
  | .tx r :: evs => r :: replies evs
  | _ :: evs => replies evs

/-- The request code `act` compares: the three bytes after `#A:`. -/
def subOp (buf : CStr) : CStr := (buf.drop 3).take 3

/-- The request codes for which `act` has a branch that transmits. -/
def actCodes : List CStr :=
  ["WTD".toList, "DEP".toList, "BAL".toList, "MST".toList, "PIN".toList, "BLK".toList]

/-- The request codes whose branch of `act` ends with `saveData(head)`. -/
def savingCodes : List CStr := ["WTD".toList, "DEP".toList, "PIN".toList, "BLK".toList]

/-! ## Operator console (`bankLib.c`)

The struct `Acc` of `bankLib.h` has the fields of the one of `atmLib.h` (its
`name` is a heap string). Console input is a list of tokens read in order:
a line for `getStr`, a number for `scanf("%llu")`, a real for `scanf("%lf")`,
a byte for `getKey`. A read that finds no token of its kind is `none`. -/

namespace Bank

def ADMIN_USRN : CStr := "admin".toList
def NAME_LEN : Nat := 30
def MAX_PASS_LEN : Nat := 20
def MAX_USRN_LEN : Nat := 20

/-- Lines the monetary operations print on the console. -/
inductive Msg where
  /-- Text `Amount cannot be negative!!`. -/
  | negative
  /-- Text `Amount Deposited.`. -/
  | deposited
  /-- Text `Amount Withdrawn.`. -/
  | withdrawn
  /-- Text `Amount Transfered.`. -/
  | transfered
  /-- Text `Low Balance!!`. -/
  | lowBalance
  /-- Text `Amount exceeds Max.Deposit limit!!`. -/
  | maxDeposit
  /-- Text `Amount exceeds Max.Withdraw limit!!`. -/
  | maxWithdraw
  /-- Text `Amount exceeds Max.Transfer limit!!`. -/
  | maxTransfer
deriving DecidableEq

/-- One item of console input. -/
inductive Tok where
  /-- A line, read by `getStr`. -/
  | line (s : CStr)
  /-- An unsigned number, read by `scanf("%llu")`. -/
  | num (n : Nat)
  /-- A real, read by `scanf("%lf")`. -/
  | real (x : ℚ)
  /-- A byte, read by `getchar` in `getKey`. -/
  | key (c : Char)
deriving DecidableEq

/-- Operation `deposit(usr)`, the amount being what `scanf("%lf")` stored. -/
def deposit (env : Env) (usr : Acc) (amt : ℚ) : Acc × Msg :=
  if amt ≤ 0 then (usr, .negative)
  else if amt < MAX_DEPOSIT then
    (addTran env { usr with bal := usr.bal + amt } amt DEPOSIT, .deposited)
  else (usr, .maxDeposit)

/-- Operation `withdraw(usr)`, the amount being what `scanf("%lf")` stored. -/
def withdraw (env : Env) (usr : Acc) (amt : ℚ) : Acc × Msg :=
  if amt ≤ 0 then (usr, .negative)
  else if amt < MAX_WITHDRAW then
    if amt ≤ usr.bal then
      (addTran env { usr with bal := usr.bal - amt } (-amt) WITHDRAW, .withdrawn)
    else (usr, .lowBalance)
  else (usr, .maxWithdraw)

/-- Update of the node a pointer designates. -/
def modifyAt (head : List Acc) (p : Nat) (f : Acc → Acc) : Option (List Acc) :=
  match head[p]? with
  | none => none
  | some a => some (head.set p (f a))

/-- Operation `transfer(from,to)`, `from` being the node at `src` and `to` the
node at `dst` (which may be the same node), in the order of the source: debit
`from`, credit `to`, then
`addTran(to,+amt,TRANSFER_IN)` under `env1` and
`addTran(from,-amt,TRANSFER_OUT)` under `env2`. -/
def transfer (env1 env2 : Env) (head : List Acc) (src dst : Nat) (amt : ℚ) :
    Option (List Acc × Msg) :=
  match head[src]?, head[dst]? with
  | some f, some _ =>
    if amt ≤ 0 then some (head, .negative)
    else if amt < MAX_TRANSFER then
      if amt ≤ f.bal then
        (modifyAt head src fun a => { a with bal := a.bal - amt }).bind fun h1 =>
        (modifyAt h1 dst fun a => { a with bal := a.bal + amt }).bind fun h2 =>
        (modifyAt h2 dst fun a => addTran env1 a amt TRANSFER_IN).bind fun h3 =>
        (modifyAt h3 src fun a => addTran env2 a (-amt) TRANSFER_OUT).bind fun h4 =>
        some (h4, .transfered)
      else some (head, .lowBalance)
    else some (head, .maxTransfer)
  | _, _ => none

/-- Test `isUnq(head,str)`. -/
def isUnq (head : List Acc) (str : CStr) : Bool :=
  str ≠ ADMIN_USRN ∧ head.all fun a => str ≠ a.usrName

/-- Test `isNewRFID(head,rf)`. -/
def isNewRFID (head : List Acc) (rf : CStr) : Bool :=
  head.all fun a => rf ≠ a.rfid

/-- Loop of `getUnqId`: one clock reading per turn, the generator re-seeded with
the same `seed` (`getpid()+(unsigned int)head`) at every turn; `none` while no
reading gives a number that no account has. -/
def getUnqId (seed : Nat) (head : List Acc) : List Env → Option Nat
  | [] => none
  | env :: rest =>
    let num := (getTimeStamp env.tm * 10000 + env.rand (seed % U32) % 10000) % U64
    if head.any fun a => num = a.num then getUnqId seed head rest else some num

/-- Macro `CAPS(ch)`: `ch &= ~(32)`. -/
def CAPS (c : Char) : Char :=
  if c.toNat.testBit 5 then Char.ofNat (c.toNat - 32) else c

/-- Body of the loop of `format`: `CAPS` on each byte that follows a space, the
space being read after its own `CAPS`. -/
def formatRest (prev : Char) : CStr → CStr
  | [] => []
  | c :: t =>
    let c1 := if prev = ' ' then CAPS c else c
    c1 :: formatRest c1 t

/-- Function `format(str)`; the result is the C string up to the first byte
that `CAPS` turned into NUL. The callers pass strings of at least 3 bytes; on
the empty string the loop of the source starts past the terminator, which is
not modelled. -/
def format : CStr → CStr
  | [] => []
  | c :: t => (CAPS c :: formatRest (CAPS c) t).takeWhile (· ≠ Char.ofNat 0)

/-- Line read by `getStr` into `buff[NAME_LEN]`: `none` when it does not fit. -/
def getStr : List Tok → Option (CStr × List Tok)
  | .line s :: rest => if s.length < NAME_LEN then some (s, rest) else none
  | _ => none

/-- Increment of the `char flag` of the prompt loops. -/
def bump (flag : Nat) : Nat := (flag + 1) % 256

/-- Phone loop of `newAcc`: returns the number left in `new->phno`. -/
def phoneLoop : Nat → List Tok → Option (Nat × List Tok)
  | flag, .num n :: rest =>
    let phno := n % U64
    if 6000000000 ≤ phno ∧ phno < 9999999999 then some (phno, rest)
    else if bump flag = 0 then some (phno, rest) else phoneLoop (bump flag) rest
  | _, _ => none

/-- Username loop of `newAcc`. -/
def usrNameLoop (head : List Acc) : List Tok → Option (CStr × List Tok)
  | .line s :: rest =>
    if s.length < NAME_LEN then
      if MAX_USRN_LEN ≤ s.length then usrNameLoop head rest
      else if isUnq head s then some (s, rest) else usrNameLoop head rest
    else none
  | _ => none

/-- Password loop of `newAcc`; `cur` is what `new->pass` holds. -/
def passLoop : Nat → CStr → List Tok → Option (CStr × List Tok)
  | flag, cur, .line s :: rest =>
    if s.length < NAME_LEN then
      if MAX_PASS_LEN ≤ s.length then passLoop 1 cur rest
      else
        match rest with
        | .line s2 :: rest2 =>
          if s2.length < NAME_LEN then
            if s2 = s then some (s, rest2)
            else if bump flag = 0 then some (s, rest2) else passLoop (bump flag) s rest2
          else none
        | _ => none
    else none
  | _, _, _ => none

/-- RFID loop of `newAcc`; the empty string is what `calloc` left in
`new->rfid` when the loop ends on `flag` reaching 0. -/
def rfidLoop (head : List Acc) : Nat → List Tok → Option (CStr × List Tok)
  | flag, .line s :: rest =>
    if s.length < NAME_LEN then
      if s.length = 8 ∧ isNewRFID head s then some (s, rest)
      else if bump flag = 0 then some ([], rest) else rfidLoop head (bump flag) rest
    else none
  | _, _ => none

/-- PIN loop of `newAcc`; `cur` is what `new->pin` holds. -/
def pinLoop : Nat → CStr → List Tok → Option (CStr × List Tok)
  | flag, cur, .line s :: rest =>
    if s.length < NAME_LEN then
      if s.length ≠ 4 then pinLoop 1 cur rest
      else
        match rest with
        | .line s2 :: rest2 =>
          if s2.length < NAME_LEN then
            if s2 = s then some (s, rest2)
            else if bump flag = 0 then some (s, rest2) else pinLoop (bump flag) s rest2
          else none
        | _ => none
    else none
  | _, _, _ => none

/-- Opening-amount loop of `newAcc`: the balance left in `new->bal`, which is
the 0 of `calloc` when the loop ends on `flag` reaching 0. -/
def amountLoop : Nat → List Tok → Option (ℚ × List Tok)
  | flag, .real d :: rest =>
    if 0 < d then some (d, rest)
    else if bump flag = 0 then some (0, rest) else amountLoop (bump flag) rest
  | _, _ => none

/-- Operation `newAcc(&head)`: `clock` are the readings of `getUnqId`, `env`
the libc answers during `addTran`; returns the list and the input left. A name
shorter than 3 bytes abandons the creation. -/
def newAcc (seed : Nat) (clock : List Env) (env : Env) (head : List Acc) (inp : List Tok) :
    Option (List Acc × List Tok) :=
  (getUnqId seed head clock).bind fun num =>
  (getStr inp).bind fun (name, inp1) =>
  if name.length < 3 then some (head, inp1)
  else
    (phoneLoop 1 inp1).bind fun (phno, inp2) =>
    (usrNameLoop head inp2).bind fun (usrName, inp3) =>
    (passLoop 1 [] inp3).bind fun (pass, inp4) =>
    (rfidLoop head 1 inp4).bind fun (rfid, inp5) =>
    (pinLoop 1 [] inp5).bind fun (pin, inp6) =>
    (amountLoop 1 inp6).bind fun (bal, inp7) =>
    let new : Acc :=
      { num := num, bal := bal, phno := phno, usrName := usrName, pass := pass, rfid := rfid,
        pin := pin, cardStat := 1, name := format name, tranHist := [], tranCnt := 0 }
    some (addTran env new new.bal DEPOSIT :: head, inp7)

end Bank

/-- One operation on the in-memory account list: a line handled by the account
server, or a console operation of `bankLib.c` on the nodes at given positions. -/
inductive Op where
  /-- A received line handled by the loop body of the account server. -/
  | link (env : Env) (buf : CStr)
  /-- Console `deposit(usr)` on node `i` with the amount read. -/
  | deposit (env : Env) (i : Nat) (amt : ℚ)
  /-- Console `withdraw(usr)` on node `i` with the amount read. -/
  | withdraw (env : Env) (i : Nat) (amt : ℚ)
  /-- Console `transfer(from,to)` on the nodes `src` and `dst` with the amount read. -/
  | transfer (env1 env2 : Env) (src dst : Nat) (amt : ℚ)
  /-- Console `newAcc(&head)`. -/
  | newAcc (seed : Nat) (clock : List Env) (env : Env) (inp : List Bank.Tok)

/-- Effect of one operation on the account list; `none` when it is undefined. -/
def applyOp (head : List Acc) : Op → Option (List Acc)
  | .link env buf => (handle env head buf).map (·.1)
  | .deposit env i amt => Bank.modifyAt head i fun a => (Bank.deposit env a amt).1
  | .withdraw env i amt => Bank.modifyAt head i fun a => (Bank.withdraw env a amt).1
  | .transfer env1 env2 src dst amt => (Bank.transfer env1 env2 head src dst amt).map (·.1)
  | .newAcc seed clock env inp => (Bank.newAcc seed clock env head inp).map (·.1)

/-- A sequence of operations, in order. -/
def applyOps : List Acc → List Op → Option (List Acc)
  | head, [] => some head
  | head, op :: ops => (applyOp head op).bind fun head1 => applyOps head1 ops

/-- Sum of the amounts over a history. -/
def histSum (h : List Tran) : ℚ := (h.map (·.amt)).sum

/-- Console input that creates the account of `carol` with an opening amount
of 500. -/
def carolInput : List Bank.Tok :=
  [.line "carol  diaz".toList, .num 123, .num 9222222222, .line "admin".toList,
   .line "carol".toList, .line "pw1".toList, .line "pw1".toList, .line "33333333".toList,
   .line "12345".toList, .line "7777".toList, .line "7777".toList, .real (-5), .real 500]

/-- A sample sequence of operations from the empty list: creation of `carol`,
a console deposit, a withdraw over the link, a transfer to herself, a rejected
console withdraw and a rejected transfer. -/
def sampleOps : List Op :=
  [.newAcc 7 [env0] env0 carolInput, .deposit env0 0 20,
   .link env0 (reqA2 "WTD".toList "33333333".toList "100".toList), .transfer env0 env0 0 0 5,
   .withdraw env0 0 1000, .transfer env0 env0 0 0 100000]

/-- The account of `carol` after `sampleOps`. -/
def carol : Acc :=
  { num := 202505151030453463, bal := 420, phno := 9222222222, usrName := "carol".toList,
    pass := "pw1".toList, rfid := "33333333".toList, pin := "7777".toList, cardStat := 1,
    name := "Carol ".toList,
    tranHist := [{ amt := -5, id := 20250515103045335, type := TRANSFER_OUT },
                 { amt := 5, id := 20250515103045335, type := TRANSFER_IN },
                 { amt := -100, id := 20250515103045335, type := WITHDRAW },
                 { amt := 20, id := 20250515103045335, type := DEPOSIT },
                 { amt := 500, id := 20250515103045335, type := DEPOSIT }],
    tranCnt := 5 }

/-! ## Primary files (`saveData`, `syncData`)

A file is the list of its bytes. `fprintf` and `fscanf` are modelled for the
conversions the two functions use. A scan is `ok` with the value and the rest
of the stream, `fail` on a matching failure or at the end of the input, and
`overrun` where C leaves the behaviour undefined (a value that does not fit its
object, a field longer than its buffer). Exponent, hexadecimal, `inf` and
`nan` forms of `%lf` input are not modelled: they scan as `fail`. -/

/-- Contents of `../dataz/`: `Db.csv` and, by account number, `<num>.csv`;
`none` is a file that does not exist. -/
structure Disk where
  db : Option CStr
  stmt : Nat → Option CStr

/-- Result of one `fscanf` conversion. -/
inductive Scan (α : Type) where
  | fail
  | overrun
  | ok (a : α) (rest : CStr)

/-- Sequencing of conversions: the first failure ends the call. -/
def Scan.bind {α β : Type} (x : Scan α) (f : α → CStr → Scan β) : Scan β :=
  match x with
  | .fail => .fail
  | .overrun => .overrun
  | .ok a rest => f a rest

/-- Output of `%llu`. -/
def printU (n : Nat) : CStr := Nat.toDigits 10 n

/-- Output of `%d`. -/
def printD (z : Int) : CStr :=
  if z < 0 then '-' :: Nat.toDigits 10 z.natAbs else Nat.toDigits 10 z.natAbs

/-- The six decimals of `%lf`. -/
def pad6 (m : Nat) : CStr :=
  List.replicate (6 - (Nat.toDigits 10 m).length) '0' ++ Nat.toDigits 10 m

/-- Output of `%lf`: the exact value rounded to six decimals. -/
def printLf (x : ℚ) : CStr :=
  let n := roundHalfEven (|x| * 1000000)
  (if x < 0 then ['-'] else []) ++ Nat.toDigits 10 (n / 1000000) ++ '.' :: pad6 (n % 1000000)

/-- Output of `%c` for a `char`. -/
def printC (t : Int) : Char := Char.ofNat (t % 256).toNat

/-- Line of `Db.csv` written for one account. -/
def accLine (a : Acc) : CStr :=
  printU a.num ++ ',' :: (a.name ++ ',' :: (printU a.phno ++ ',' :: (a.usrName ++ ',' ::
    (a.pass ++ ',' :: (a.rfid ++ ',' :: (a.pin ++ ',' :: (printD a.cardStat ++ ',' ::
    (printLf a.bal ++ ',' :: (printU a.tranCnt ++ ['\n'])))))))))

/-- Line of `<num>.csv` written for one transaction. -/
def tranLine (t : Tran) : CStr :=
  printU t.id ++ ',' :: (printLf t.amt ++ [',', printC t.type, '\n'])

/-- Content of `<num>.csv`: one line per node, from the head of the history. -/
def tranLines : List Tran → CStr
  | [] => []
  | t :: rest => tranLine t ++ tranLines rest

/-- Text that `sprintf(spName,"../dataz/%llu.csv",num)` prints. -/
def spName (num : Nat) : CStr := "../dataz/".toList ++ printU num ++ ".csv".toList

/-- Loop of `saveData` over the accounts: appends the line to `Db.csv`, prints
the file name into `spName[30]` and rewrites the file of the account. A name
that with its terminating NUL does not fit the array is written past its end:
the result is `none`. -/
def saveLoop : List Acc → Disk → Option Disk
  | [], d => some d
  | a :: rest, d =>
    if (spName a.num).length < 30 then
      saveLoop rest
        { db := some (d.db.getD [] ++ accLine a)
          stmt := fun n => if n = a.num then some (tranLines a.tranHist) else d.stmt n }
    else none

/-- Function `saveData(head)`: `Db.csv` is opened with `"w"`, hence emptied;
`none` when the save is undefined. -/
def saveData (head : List Acc) (disk : Disk) : Option Disk :=
  saveLoop head { disk with db := some [] }

/-- Test `isspace`. -/
def isSpace (c : Char) : Bool :=
  c = ' ' ∨ c = '\n' ∨ c = '\t' ∨ c = '\r' ∨ c = Char.ofNat 11 ∨ c = Char.ofNat 12

/-- Skip of white space before a numeric conversion. -/
def skipWs (s : CStr) : CStr := s.dropWhile isSpace

/-- Value of a run of decimal digits. -/
def valDigits (ds : CStr) : Nat := ds.foldl (fun acc c => acc * 10 + (c.toNat - 48)) 0

/-- A run of decimal digits, possibly empty, and what follows it. -/
def digitRun (s : CStr) : CStr × CStr := (s.takeWhile Char.isDigit, s.dropWhile Char.isDigit)

/-- Input of `%llu` into a `u64`. -/
def scanU (s : CStr) : Scan Nat :=
  match skipWs s with
  | '-' :: t =>
    let r := digitRun t
    if r.1 = [] then .fail
    else if valDigits r.1 < U64 then .ok ((U64 - valDigits r.1) % U64) r.2 else .overrun
  | '+' :: t =>
    let r := digitRun t
    if r.1 = [] then .fail
    else if valDigits r.1 < U64 then .ok (valDigits r.1) r.2 else .overrun
  | t =>
    let r := digitRun t
    if r.1 = [] then .fail
    else if valDigits r.1 < U64 then .ok (valDigits r.1) r.2 else .overrun

/-- Input of `%d` into an `int`. -/
def scanD (s : CStr) : Scan Int :=
  match skipWs s with
  | '-' :: t =>
    let r := digitRun t
    if r.1 = [] then .fail
    else if valDigits r.1 ≤ 2147483648 then .ok (-(valDigits r.1 : Int)) r.2 else .overrun
  | '+' :: t =>
    let r := digitRun t
    if r.1 = [] then .fail
    else if valDigits r.1 < 2147483648 then .ok (valDigits r.1 : Int) r.2 else .overrun
  | t =>
    let r := digitRun t
    if r.1 = [] then .fail
    else if valDigits r.1 < 2147483648 then .ok (valDigits r.1 : Int) r.2 else .overrun

/-- Decimal `<digits>[.<digits>]` with at least one digit, and what follows. -/
def scanDec (s : CStr) : Scan ℚ :=
  let i := digitRun s
  match i.2 with
  | '.' :: t =>
    let f := digitRun t
    if i.1 = [] ∧ f.1 = [] then .fail
    else .ok ((valDigits i.1 : ℚ) + (valDigits f.1 : ℚ) / (10 : ℚ) ^ f.1.length) f.2
  | rest => if i.1 = [] then .fail else .ok (valDigits i.1 : ℚ) rest

/-- Input of `%lf` into a `double`. -/
def scanLf (s : CStr) : Scan ℚ :=
  match skipWs s with
  | '-' :: t => (scanDec t).bind fun x rest => .ok (-x) rest
  | '+' :: t => scanDec t
  | t => scanDec t

/-- Input of `%[^,]` into a buffer of `cap` bytes. -/
def scanSet (cap : Nat) (s : CStr) : Scan CStr :=
  let f := s.takeWhile (· ≠ ',')
  if f = [] then .fail
  else if f.length < cap then .ok f (s.dropWhile (· ≠ ',')) else .overrun

/-- The literal `,` of a format. -/
def scanComma (s : CStr) : Scan Unit :=
  match s with
  | ',' :: rest => .ok () rest
  | _ => .fail

/-- Input of `%c` into a `char`. -/
def scanC (s : CStr) : Scan Int :=
  match s with
  | c :: rest => .ok (toChar8 c.toNat) rest
  | [] => .fail

/-- Directive `\n` at the end of the formats of `bankLib.c`: skips white space. -/
def scanTail (bank : Bool) (s : CStr) : CStr := if bank then skipWs s else s

/-- One call `fscanf(fp,"%llu,%[^,],%llu,%[^,],%[^,],%[^,],%[^,],%d,%lf,%llu")`
that returns 10, into `temp` (`nameCap` is the size of the name buffer). -/
def scanAcc (bank : Bool) (nameCap : Nat) (s : CStr) : Scan Acc :=
  (scanU s).bind fun num s =>
  (scanComma s).bind fun _ s =>
  (scanSet nameCap s).bind fun name s =>
  (scanComma s).bind fun _ s =>
  (scanU s).bind fun phno s =>
  (scanComma s).bind fun _ s =>
  (scanSet 20 s).bind fun usrName s =>
  (scanComma s).bind fun _ s =>
  (scanSet 20 s).bind fun pass s =>
  (scanComma s).bind fun _ s =>
  (scanSet 9 s).bind fun rfid s =>
  (scanComma s).bind fun _ s =>
  (scanSet 5 s).bind fun pin s =>
  (scanComma s).bind fun _ s =>
  (scanD s).bind fun cardStat s =>
  (scanComma s).bind fun _ s =>
  (scanLf s).bind fun bal s =>
  (scanComma s).bind fun _ s =>
  (scanU s).bind fun tranCnt s =>
  .ok { num := num, bal := bal, phno := phno, usrName := usrName, pass := pass, rfid := rfid,
        pin := pin, cardStat := cardStat, name := name, tranHist := [], tranCnt := tranCnt }
    (scanTail bank s)

/-- One call `fscanf(sp,"%llu,%lf,%c")` that returns 3. -/
def scanTran (bank : Bool) (s : CStr) : Scan Tran :=
  (scanU s).bind fun id s =>
  (scanComma s).bind fun _ s =>
  (scanLf s).bind fun amt s =>
  (scanComma s).bind fun _ s =>
  (scanC s).bind fun type s =>
  .ok { amt := amt, id := id, type := type } (scanTail bank s)

/-- Loop over the lines of `<num>.csv`: the nodes in file order. Every turn
consumes input, so `fuel` above the length of the stream is never used up. -/
def syncTrans (bank : Bool) : Nat → CStr → Option (List Tran)
  | 0, _ => none
  | fuel + 1, s =>
    match scanTran bank s with
    | .overrun => none
    | .fail => some []
    | .ok t rest => (syncTrans bank fuel rest).map (t :: ·)

/-- History and counter given to a loaded account. The file name is printed
into `spName[30]`: a name that with its NUL does not fit is written past the
end of the array, and the result is `none`. File absent, the history is empty
and the counter is 0 in `atmLib.c`, the one read from `Db.csv` in `bankLib.c`;
file present, the nodes read and their number (an `int`). -/
def loadHist (bank : Bool) (stmt : Nat → Option CStr) (a : Acc) : Option Acc :=
  if (spName a.num).length < 30 then
    match stmt a.num with
    | none => some { a with tranHist := [], tranCnt := if bank then a.tranCnt else 0 }
    | some f =>
      (syncTrans bank (f.length + 1) f).bind fun th =>
        if th.length < 2147483648 then some { a with tranHist := th, tranCnt := th.length }
        else none
  else none

/-- Loop over the lines of `Db.csv`: the accounts in file order. -/
def syncLoop (bank : Bool) (nameCap : Nat) (stmt : Nat → Option CStr) :
    Nat → CStr → Option (List Acc)
  | 0, _ => none
  | fuel + 1, s =>
    match scanAcc bank nameCap s with
    | .overrun => none
    | .fail => some []
    | .ok a rest =>
      (loadHist bank stmt a).bind fun new =>
        (syncLoop bank nameCap stmt fuel rest).map (new :: ·)

/-- Function `syncData(&head)` of `atmLib.c`, called with an empty list: the
list it builds, `none` when the load is undefined. -/
def syncData (disk : Disk) : Option (List Acc) :=
  match disk.db with
  | none => some []
  | some s => syncLoop false 30 disk.stmt (s.length + 1) s

/-- Function `saveData(head)` of `bankLib.c`: the same lines in the same files,
the name printed into an array `spName[30]` as well. -/
def Bank.saveData (head : List Acc) (disk : Disk) : Option Disk := ATM.saveData head disk

/-- Function `syncData(&head)` of `bankLib.c`, called with an empty list; the
name is read into `buf[100]`. -/
def Bank.syncData (disk : Disk) : Option (List Acc) :=
  match disk.db with
  | none => some []
  | some s => syncLoop true 100 disk.stmt (s.length + 1) s

/-- A disk without any file. -/
def emptyDisk : Disk := { db := none, stmt := fun _ => none }

/-! ## Stores that their primary files give back -/

/-- A list of decimal digits whose value, read after an accumulator `acc`, is
`acc * 10 ^ length + n`. -/
def IsDecimal (ds : CStr) (n : Nat) : Prop :=
  ds ≠ [] ∧ (∀ c ∈ ds, c.isDigit = true ∧ isSpace c = false ∧ c ≠ '-' ∧ c ≠ '+')
    ∧ ∀ acc, ds.foldl (fun a c => a * 10 + (c.toNat - 48)) acc = acc * 10 ^ ds.length + n

/-- Balances and amounts that `%lf` prints without loss: whole numbers of
millionths. -/
def SixDecimals (x : ℚ) : Prop := (x * 1000000).den = 1

/-- A text field that `%[^,]` reads back into a buffer of `cap` bytes. -/
def FieldOk (cap : Nat) (f : CStr) : Prop := f ≠ [] ∧ ',' ∉ f ∧ f.length < cap

/-- A transaction that its line of `<num>.csv` gives back. -/
def TranOk (t : Tran) : Prop :=
  t.id < U64 ∧ SixDecimals t.amt ∧
    (t.type = WITHDRAW ∨ t.type = DEPOSIT ∨ t.type = TRANSFER_IN ∨ t.type = TRANSFER_OUT)

/-- An account that its line of `Db.csv` and its file `<num>.csv` give back; the
number has at most 16 digits, so that the name of the file fits `spName[30]`. -/
def AccOk (a : Acc) : Prop :=
  a.num < 10 ^ 16 ∧ a.phno < U64 ∧ FieldOk 30 a.name ∧ FieldOk 20 a.usrName ∧ FieldOk 20 a.pass ∧
    FieldOk 9 a.rfid ∧ FieldOk 5 a.pin ∧ (-2147483648 ≤ a.cardStat ∧ a.cardStat < 2147483648) ∧
    SixDecimals a.bal ∧ (∀ t ∈ a.tranHist, TranOk t) ∧ a.tranHist.length < 2147483648 ∧
    a.tranCnt = a.tranHist.length

/-- A list of accounts with distinct numbers, each one given back by its files. -/
def StoreOk (head : List Acc) : Prop :=
  (head.map fun a => a.num).Nodup ∧ ∀ a ∈ head, AccOk a

/-- Content of `Db.csv` after `saveData`: one line per account. -/
def dbLines : List Acc → CStr
  | [] => []
  | a :: rest => accLine a ++ dbLines rest

/-- The files that the loop of `saveData` leaves when every file name fits
`spName[30]`. -/
def savedDisk : List Acc → Disk → Disk
  | [], d => d
  | a :: rest, d =>
    savedDisk rest
      { db := some (d.db.getD [] ++ accLine a)
        stmt := fun n => if n = a.num then some (tranLines a.tranHist) else d.stmt n }

/-- A primary store whose `Db.csv` has one account line that carries the count
3, and no file `1001.csv`. -/
def orphanDisk : Disk :=
  { db := some "1001,Ann Lee,9000000000,ann,pw,11111111,1234,1,100.000000,3\n".toList
    stmt := fun _ => none }

/-- The account of the line of `orphanDisk`, with the count of the line. -/
def ann : Acc :=
  { num := 1001, bal := 100, phno := 9000000000, usrName := "ann".toList, pass := "pw".toList,
    rfid := "11111111".toList, pin := "1234".toList, cardStat := 1, name := "Ann Lee".toList,
    tranHist := [], tranCnt := 3 }

/-! ## Line transport (`tx_str`, `rx_str`, `UART0_isr`, `getMsg`)

A serial line is the list of the bytes that arrive on it, in order. A read
that finds the line empty blocks: the routine has no result (`none`), as it
has none where the source writes outside its buffer. -/

/-- The terminator of a C string. -/
def NUL : Char := Char.ofNat 0

/-- The C string held in an array of bytes: the bytes before the first NUL. -/
def cstr (b : List Char) : CStr := b.takeWhile (· ≠ NUL)

/-- Bytes written by `tx_str(fd, str)`: the string, then CR LF. -/
def tx_str (str : CStr) : CStr := str ++ ['\r', '\n']

/-- Loop of `rx_str`, one byte per `read`: `i` is the loop index, `str` the
bytes stored at `0..i-1`. Returns the index and the bytes stored when the loop
is left, and what remains of the line. -/
def rxLoop (bound : Nat) : Nat → List Char → CStr → Option (Nat × List Char × CStr)
  | i, str, [] => if i < bound then none else some (i, str, [])
  | i, str, ch :: rest =>
    if i < bound then
      if ch = '\n' then some (i, str ++ [ch], rest)
      else rxLoop bound (i + 1) (str ++ [ch]) rest
    else some (i, str, ch :: rest)

/-- Function `rx_str(fd, str, len)` of `atmLib.c`: the C string left in `str`
and the rest of the line. The bound `len-1` is computed in `size_t`; the final
`str[i-1]='\0'` is outside the buffer when `i` is 0. -/
def rx_str (len : Nat) (line : CStr) : Option (CStr × CStr) :=
  (rxLoop ((len + U64 - 1) % U64) 0 [] line).bind fun r =>
    if r.1 = 0 then none else some (cstr (r.2.1.take (r.1 - 1)), r.2.2)

namespace TC

/-- Size of the message buffer `buf` of the terminal. -/
def BUF_MAX : Nat := 50

/-- What `UART0_isr` reads and writes: the global `buf`, `buf_index` and
`r_flag`, and the frames it hands to `sendMsg`. -/
structure Uart where
  buf : List Char
  buf_index : Nat
  r_flag : Bool
  sent : List CStr
deriving DecidableEq

/-- One run of `UART0_isr` on a received byte `ch`. The index `buf_index-1` is
computed in `u32`: with `buf_index` 0 the write is outside `buf`. -/
def UART0_isr (u : Uart) (ch : Char) : Option Uart :=
  if u.r_flag then some u
  else if ch = '\n' then
    if u.buf_index = 0 ∨ u.buf.length < u.buf_index then none
    else
      let buf := u.buf.set (u.buf_index - 1) NUL
      if cstr buf = "@Y:LINEOK$".toList then
        some { u with buf := buf, buf_index := 0, sent := u.sent ++ ["#Y:LINEOK$".toList] }
      else some { u with buf := buf, buf_index := 0, r_flag := true }
  else if u.buf_index < BUF_MAX - 1 then
    some { u with buf := u.buf.set u.buf_index ch, buf_index := u.buf_index + 1 }
  else some u

/-- The interrupt routine run on each byte of a line, in order. -/
def isrRun : Uart → CStr → Option Uart
  | u, [] => some u
  | u, ch :: rest => (UART0_isr u ch).bind fun u1 => isrRun u1 rest

/-- The state before a line arrives: `buf` of `BUF_MAX` zero bytes, index 0,
flag clear. -/
def idle : Uart :=
  { buf := List.replicate BUF_MAX NUL, buf_index := 0, r_flag := false, sent := [] }

/-- Loop of `strRx_UART`: `rx_UART` gives 0 when no byte is ready, and a byte 0
is not stored; `buf` are the bytes stored so far in a buffer of `cap` bytes.
Returns the bytes stored, the last one being the LF, and the rest of the line. -/
def strRxLoop (cap : Nat) : List Char → CStr → Option (List Char × CStr)
  | _, [] => none
  | buf, ch :: rest =>
    if ch = NUL then strRxLoop cap buf rest
    else if cap ≤ buf.length then none
    else if ch = '\n' then some (buf ++ [ch], rest)
    else strRxLoop cap (buf ++ [ch]) rest

/-- Function `strRx_UART(un, buf)`: the LF is replaced by the terminator. -/
def strRx_UART (cap : Nat) (line : CStr) : Option (CStr × CStr) :=
  (strRxLoop cap [] line).map fun r => (cstr r.1.dropLast, r.2)

/-- Function `getMsg(str)` without `DBG`: `str[strlen(str)-1]='\0'` after
`strRx_UART`; on the empty string the index is outside the buffer. -/
def getMsg (cap : Nat) (line : CStr) : Option (CStr × CStr) :=
  (strRx_UART cap line).bind fun r =>
    if r.1 = [] then none else some (r.1.dropLast, r.2)

end TC

/-! ## Requests composed by the terminal (`sprintf` calls of the firmware) -/

namespace TC

/-- Text of `sprintf(buf,"#%c:%s$",'C',rfid)` in `main`. -/
def frameC (rfid : CStr) : CStr := '#' :: 'C' :: ':' :: (rfid ++ ['$'])

/-- Text of `sprintf(buf,"#%c:%s:%s$",'V',rfid,pin)` in `main`. -/
def frameV (rfid pin : CStr) : CStr := '#' :: 'V' :: ':' :: (rfid ++ ':' :: (pin ++ ['$']))

/-- Text of `sprintf(buf,"#%c:WTD:%s:%s$",'A',rfid,amt)` in `atm_wtd`. -/
def frameWTD (rfid amt : CStr) : CStr :=
  '#' :: 'A' :: ":WTD:".toList ++ (rfid ++ ':' :: (amt ++ ['$']))

/-- Text of `sprintf(buf,"#%c:DEP:%s:%s$",'A',rfid,amt)` in `atm_dep`. -/
def frameDEP (rfid amt : CStr) : CStr :=
  '#' :: 'A' :: ":DEP:".toList ++ (rfid ++ ':' :: (amt ++ ['$']))

/-- Text of `sprintf(buf,"#%c:BAL:%s$",'A',rfid)` in `atm_bal`. -/
def frameBAL (rfid : CStr) : CStr := '#' :: 'A' :: ":BAL:".toList ++ (rfid ++ ['$'])

/-- Text of `sprintf(buf,"#%c:PIN:%s:%s$",'A',rfid,pin)` in `atm_pin`. -/
def framePIN (rfid pin : CStr) : CStr :=
  '#' :: 'A' :: ":PIN:".toList ++ (rfid ++ ':' :: (pin ++ ['$']))

/-- Text of `sprintf(buf,"#%c:MST:%s:%d$",'A',rfid,j+1)` in `atm_mst`, `n`
being the value of `j+1`. -/
def frameMST (rfid : CStr) (n : Nat) : CStr :=
  '#' :: 'A' :: ":MST:".toList ++ (rfid ++ ':' :: (decimal n ++ ['$']))

/-- Text of `sprintf(buf,"#%c:BLK:%s$",'A',rfid)` in `main`. -/
def frameBLK (rfid : CStr) : CStr := '#' :: 'A' :: ":BLK:".toList ++ (rfid ++ ['$'])

end TC

/-! ## Report files (`saveFile`): the Date and Time columns -/

/-- The `unsigned int` variables `dd`, `mon`, `yy`, `hh`, `mm` of `saveFile`. -/
structure Stamp where
  dd : Nat
  mon : Nat
  yy : Nat
  hh : Nat
  mm : Nat
deriving DecidableEq

/-- Decomposition of a transaction id in `saveFile` of `atmLib.c`: the id is
divided by 100000, then split by `%100` and `/=100`. -/
def saveFileStamp (id : Nat) : Stamp :=
  let dum := id / 100000
  let mm := dum % 100
  let dum := dum / 100
  let hh := dum % 100
  let dum := dum / 100
  let dd := dum % 100
  let dum := dum / 100
  let mon := dum % 100
  let dum := dum / 100
  { dd := dd, mon := mon, yy := dum % U32, hh := hh, mm := mm }

/-- Output of `%0<w>u`. -/
def padU (w n : Nat) : CStr := List.replicate (w - (printU n).length) '0' ++ printU n

/-- Date and Time columns of a row of `filez/<num>.csv` written by `saveFile`
of `atmLib.c`: format `%u/%u/%u,%u:%u`. -/
def saveFileCols (t : Tran) : CStr :=
  let s := saveFileStamp t.id
  printU s.dd ++ '/' :: (printU s.mon ++ '/' :: (printU s.yy ++ ',' ::
    (printU s.hh ++ ':' :: printU s.mm)))

/-- Decomposition of a transaction id in `saveFile` of `bankLib.c`: the id is
divided by 1000, then split by `%100` and `/=100`. -/
def Bank.saveFileStamp (id : Nat) : Stamp :=
  let datetime_part := id / 1000
  let mm := datetime_part % 100
  let datetime_part := datetime_part / 100
  let hh := datetime_part % 100
  let datetime_part := datetime_part / 100
  let dd := datetime_part % 100
  let datetime_part := datetime_part / 100
  let mon := datetime_part % 100
  let datetime_part := datetime_part / 100
  { dd := dd, mon := mon, yy := datetime_part % U32, hh := hh, mm := mm }

/-- Date and Time columns of a row of `filez/<num>.csv` written by `saveFile`
of `bankLib.c`: format `%02u/%02u/%04u,%02u:%02u`. -/
def Bank.saveFileCols (t : Tran) : CStr :=
  let s := Bank.saveFileStamp t.id
  padU 2 s.dd ++ '/' :: (padU 2 s.mon ++ '/' :: (padU 4 s.yy ++ ',' ::
    (padU 2 s.hh ++ ':' :: padU 2 s.mm)))

/-! ## Title case of a holder name, as the data model words it -/

/-- Title case after the byte `prev`: a byte that follows a space is
uppercased, every other byte is kept. -/
def titleRest (prev : Char) : CStr → CStr
  | [] => []
  | c :: t => (if prev = ' ' then c.toUpper else c) :: titleRest c t

/-- The first letter of each space-separated word uppercased, every other
byte unchanged. -/
def titleCase (s : CStr) : CStr := titleRest ' ' s

/-- Every byte that follows a space, `prev` being the byte before the string,
is a letter. -/
def LetterStarts (prev : Char) : CStr → Prop
  | [] => True
  | c :: t => (prev = ' ' → c.isAlpha = true) ∧ LetterStarts c t

/-! ## Change of username (`updateAcc`, case `'U'`) and the uniqueness of
ids, usernames and cards -/

namespace Bank

/-- Function `getKey()`: one byte read by `getchar`, after `CAPS`. -/
def getKey : List Tok → Option (Char × List Tok)
  | .key c :: rest => some (CAPS c, rest)
  | _ => none

/-- Loop of the case `'U'` of `updateAcc(&head, usr)`: the username to store
(`none` when the operator gives up) and the input left. A line longer than
`MAX_USRN_LEN` is asked again; a line of exactly `MAX_USRN_LEN` bytes that
passes `isUnq` is copied by `strcpy` into `usrName[MAX_USRN_LEN]` together with
its terminator, outside the array. -/
def usrNameUpdate (head : List Acc) (usr : Acc) : List Tok → Option (Option CStr × List Tok)
  | .line s :: rest =>
    if s.length < NAME_LEN then
      if MAX_USRN_LEN < s.length then usrNameUpdate head usr rest
      else if s = usr.usrName then
        match rest with
        | .key k :: rest2 =>
          if CAPS k = 'Y' then usrNameUpdate head usr rest2 else some (none, rest2)
        | _ => none
      else if isUnq head s then
        if s.length < MAX_USRN_LEN then some (some s, rest) else none
      else usrNameUpdate head usr rest
    else none
  | _ => none

/-- Case `'U'` of `updateAcc(&head, usr)`, `usr` being the node at `p`. -/
def updateAccU (head : List Acc) (p : Nat) (inp : List Tok) : Option (List Acc × List Tok) :=
  match head[p]? with
  | none => none
  | some usr =>
    (usrNameUpdate head usr inp).bind fun r =>
      match r.1 with
      | none => some (head, r.2)
      | some s => some (head.set p { usr with usrName := s }, r.2)

/-- Case `'O'` of `updateAcc(&head, usr)`, `usr` being the node at `p`: a line
of fewer than 3 bytes is refused, any other becomes the name after `format`.
The call `__fpurge(stdin)` drops what is left of the line of the menu key,
which the token stream does not hold. -/
def updateAccO (head : List Acc) (p : Nat) (inp : List Tok) : Option (List Acc × List Tok) :=
  match head[p]? with
  | none => none
  | some usr =>
    (getStr inp).bind fun r =>
      if r.1.length < 3 then some (head, r.2)
      else some (head.set p { usr with name := format r.1 }, r.2)

/-- Account ids, usernames and card numbers are each pairwise distinct, and no
username is the one of the administrator. -/
def Unique (head : List Acc) : Prop :=
  (head.map fun a => a.num).Nodup ∧ (head.map fun a => a.usrName).Nodup ∧
    (head.map fun a => a.rfid).Nodup ∧ ∀ a ∈ head, a.usrName ≠ ADMIN_USRN

/-- Console input of a creation during which 255 entries are refused at the
RFID prompt. -/
def wrapInput (name usrName : CStr) : List Tok :=
  [.line name, .num 9222222222, .line usrName, .line "pw1".toList, .line "pw1".toList] ++
    List.replicate 255 (.line "123".toList) ++
    [.line "7777".toList, .line "7777".toList, .real 500]

/-- The account created from `wrapInput "dan", "dan"` with the seed 7. -/
def dan : Acc :=
  { num := 202505151030453463, bal := 500, phno := 9222222222, usrName := "dan".toList,
    pass := "pw1".toList, rfid := [], pin := "7777".toList, cardStat := 1,
    name := "Dan".toList,
    tranHist := [{ amt := 500, id := 20250515103045335, type := DEPOSIT }], tranCnt := 1 }

/-- Console input of a creation under the holder name `doe, jane`. -/
def janeInput : List Tok :=
  [.line "doe, jane".toList, .num 9222222222, .line "jane".toList, .line "pw1".toList,
    .line "pw1".toList, .line "12345678".toList, .line "7777".toList, .line "7777".toList,
    .real 500]

/-- The account created from `janeInput` with the seed 7. -/
def jane : Acc :=
  { num := 202505151030453463, bal := 500, phno := 9222222222, usrName := "jane".toList,
    pass := "pw1".toList, rfid := "12345678".toList, pin := "7777".toList, cardStat := 1,
    name := "Doe, Jane".toList,
    tranHist := [{ amt := 500, id := 20250515103045335, type := DEPOSIT }], tranCnt := 1 }

/-- A primary store whose `Db.csv` has the line of `ann` with the count 0, and
no file `1001.csv`. -/
def annDisk : Disk :=
  { db := some "1001,Ann Lee,9000000000,ann,pw,11111111,1234,1,100.000000,0\n".toList
    stmt := fun _ => none }

/-- The account loaded from `annDisk` after the change of its holder name to
`doe, jane`. -/
def annJane : Acc := { ann with name := "Doe, Jane".toList, tranCnt := 0 }

/-- The account created from `wrapInput "eve", "eve"` with the seed 8. -/
def eve : Acc :=
  { num := 202505151030453464, bal := 500, phno := 9222222222, usrName := "eve".toList,
    pass := "pw1".toList, rfid := [], pin := "7777".toList, cardStat := 1,
    name := "Eve".toList,
    tranHist := [{ amt := 500, id := 20250515103045336, type := DEPOSIT }], tranCnt := 1 }

end Bank

/-! ## Terminal firmware (`firmwarez/atm_main.c`, `firmwarez/atmLib.c`)

The firmware is built with `UART_INT`: a wait `while(!r_flag); r_flag=0;`
ends when `UART0_isr` has completed a line in `buf`. The terminal runs against
the values `readKpm4x4` returns at its successive calls (0 when no key is
pressed) and the lines found in `buf` at its successive waits, lines being
taken to arrive only while the terminal waits. The display and the delays are
left out. -/

namespace TC

def MAX_TRYS : Nat := 3
def ATM_TIME : Nat := 30 * 120000

/-- Macro `ISNUM(ch)`. -/
def ISNUM (ch : Char) : Bool := '0' ≤ ch ∧ ch ≤ '9'

/-- What the terminal runs against and what it has done so far. -/
structure World where
  /-- Values of the coming calls of `readKpm4x4`, NUL for 0; after the last one
  no key is pressed any more. -/
  keys : List Char
  /-- Contents of `buf` at the coming waits; after the last one no line
  arrives any more. -/
  msgs : List CStr
  /-- Strings handed to `sendMsg` so far, in order. -/
  sent : List CStr
  /-- Replies to `#V` requests that `main` has compared so far, in order. -/
  replies : List CStr
  /-- The global countdown `time`. -/
  time : Nat
deriving DecidableEq

/-- Result of a routine: it returns, or it waits for ever for a line, or it
reads or writes outside an array. -/
inductive Res (α : Type) where
  | ok (a : α) (w : World)
  | hang (w : World)
  | fault
deriving DecidableEq

/-- Test `isMsgOk(str)` of the firmware: first byte `@`, last byte `$`. -/
def isMsgOk (str : CStr) : Bool := str.head? = some '@' && str.getLast? = some '$'

/-- Call `sendMsg(str)`. -/
def sendMsg (str : CStr) (w : World) : World := { w with sent := w.sent ++ [str] }

/-- Loop of `getPin(str)` from a call of `readKpm4x4` on: `i` digits are in
`str`, `time` is the local countdown. Returns the value of `getPin` (-1 for the
`u32` that `main` stores in an `s32`), the array and the calls left. -/
def getPinLoop : List Char → Nat → Nat → List Char → Int × List Char × List Char
  | [], _, _, str => (0, str, [])
  | k :: rest, i, time, str =>
    if k = NUL then
      if time ≠ 0 then getPinLoop rest i (time - 1) str else (0, str, rest)
    else if ISNUM k then
      if i + 1 < 4 then getPinLoop rest (i + 1) ATM_TIME (str.set i k)
      else (1, (str.set i k).set (i + 1) NUL, rest)
    else if k = '\x08' then getPinLoop rest (i - 1) ATM_TIME str
    else if k = 'C' then (-1, str, rest)
    else if time ≠ 0 then getPinLoop rest i time str
    else (0, str.set i NUL, rest)

/-- Function `getPin(str)`. -/
def getPin (str : List Char) (keys : List Char) : Int × List Char × List Char :=
  getPinLoop keys 0 ATM_TIME str

/-- Loop of `checkPC()`: each turn sends `#X:LINEOK$` and waits for a line. -/
def checkPCLoop (w : World) : List CStr → List CStr → Res Unit
  | [], sent => .hang { w with msgs := [], sent := sent ++ ["#X:LINEOK$".toList] }
  | m :: rest, sent =>
    if m = "@X:LINEOK$".toList then
      .ok () { w with msgs := rest, sent := sent ++ ["#X:LINEOK$".toList] }
    else checkPCLoop w rest (sent ++ ["#X:LINEOK$".toList])

/-- Function `checkPC()`. -/
def checkPC (w : World) : Res Unit := checkPCLoop w w.msgs w.sent

/-- Loop `while(1){ sprintf(buf,..); sendMsg(buf); wait; if(isMsgOk(buf))break; }`
for the request `frame`: returns the line that passed `isMsgOk`. -/
def exchangeLoop (frame : CStr) (w : World) : List CStr → List CStr → Res CStr
  | [], sent => .hang { w with msgs := [], sent := sent ++ [frame] }
  | m :: rest, sent =>
    if isMsgOk m then .ok m { w with msgs := rest, sent := sent ++ [frame] }
    else exchangeLoop frame w rest (sent ++ [frame])

/-- The exchange of a request that fits `buf`. -/
def exchange (frame : CStr) (w : World) : Res CStr :=
  if frame.length < BUF_MAX then exchangeLoop frame w w.msgs w.sent else .fault

/-- Loop that sends `#A:BLK:<rfid>$` until the line `@OK:DONE$` arrives. -/
def blockLoop (rfid : CStr) (w : World) : List CStr → List CStr → Res Unit
  | [], sent => .hang { w with msgs := [], sent := sent ++ [frameBLK rfid] }
  | m :: rest, sent =>
    if isMsgOk m ∧ m = "@OK:DONE$".toList then
      .ok () { w with msgs := rest, sent := sent ++ [frameBLK rfid] }
    else blockLoop rfid w rest (sent ++ [frameBLK rfid])

/-- Loop `while(trys)` of `main`, PIN entry: `errNo` and `pin` are the locals
of `main`. Each turn that goes on takes at least one line, so `fuel` above the
number of lines is never used up (`none`). Returns `errNo`, `trys` and `pin`
when the loop is left. -/
def pinLoop (rfid : CStr) : Nat → Nat → Int → List Char → World →
    Option (Res (Int × Nat × List Char))
  | 0, _, _, _, _ => none
  | fuel + 1, trys, errNo, pin, w =>
    if trys = 0 then some (.ok (errNo, trys, pin) w)
    else
      let r := getPin pin w.keys
      let w1 := { w with keys := r.2.2 }
      if r.1 = 0 then some (.ok (r.1, trys, r.2.1) w1)
      else if r.1 = -1 then some (.ok (r.1, trys, r.2.1) w1)
      else
        match checkPC w1 with
        | .fault => some .fault
        | .hang w2 => some (.hang w2)
        | .ok _ w2 =>
          match exchange (frameV rfid (cstr r.2.1)) w2 with
          | .fault => some .fault
          | .hang w3 => some (.hang w3)
          | .ok m w3 =>
            let w4 := { w3 with replies := w3.replies ++ [m] }
            if m = "@OK:MATCHED$".toList then some (.ok (r.1, trys, r.2.1) w4)
            else if m = "@ERR:WRONG$".toList then pinLoop rfid fuel (trys - 1) r.1 r.2.1 w4
            else pinLoop rfid fuel trys r.1 r.2.1 w4

/-- How the PIN entry of `main` ends: back to the card prompt after a
time-out or a cancel, back to it after the card was blocked, or on to the
menu. -/
inductive PinEnd where
  | idle
  | blocked
  | menu
deriving DecidableEq

/-- PIN entry of `main`, from `trys=MAX_TRYS` to the label `A`: the loop
`while(trys)`, then `if(errNo!=1)continue;` and, when `trys` is 0, the loop
that blocks the card. `errNo0` is the value the local `errNo` happens to
hold. Returns how the entry ends, `trys` and `pin`. -/
def pinPhase (rfid : CStr) (errNo0 : Int) (pin : List Char) (w : World) :
    Option (Res (PinEnd × Nat × List Char)) :=
  match pinLoop rfid (w.msgs.length + 1) MAX_TRYS errNo0 pin w with
  | none => none
  | some .fault => some .fault
  | some (.hang w1) => some (.hang w1)
  | some (.ok x w1) =>
    if x.1 ≠ 1 then some (.ok (.idle, x.2.1, x.2.2) w1)
    else if x.2.1 = 0 then
      match blockLoop rfid w1 w1.msgs w1.sent with
      | .fault => some .fault
      | .hang w2 => some (.hang w2)
      | .ok _ w2 => some (.ok (.blocked, x.2.1, x.2.2) w2)
    else some (.ok (.menu, x.2.1, x.2.2) w1)

/-- Three PIN entries (`1234`, `1235`, `1236`), each answered `@ERR:WRONG$`
after the line check, then a malformed line and `@OK:DONE$`. -/
def lockoutWorld : World :=
  { keys := "123412351236".toList
    msgs := ["@X:LINEOK$".toList, "@ERR:WRONG$".toList, "@X:LINEOK$".toList,
             "@ERR:WRONG$".toList, "@X:LINEOK$".toList, "@ERR:WRONG$".toList,
             "junk".toList, "@OK:DONE$".toList]
    sent := [], replies := [], time := ATM_TIME }

end TC

/-! ## Amount entry and PIN change of the terminal -/

namespace TC

/-- Loop of `str_KPM(str, row)` from its test `i<BUF_MAX-1 && time` on: `i`
bytes are in `str`, `time` is the global countdown. Returns the value of
`str_KPM`, the array, the calls of `readKpm4x4` left and `time`; `none` when a
byte is written outside `str`. -/
def strKpmLoop : List Char → Nat → Nat → List Char → Option (Int × List Char × List Char × Nat)
  | [], i, time, str => some (1, str, [], if i < BUF_MAX - 1 then 0 else time)
  | k :: rest, i, time, str =>
    if ¬ (i < BUF_MAX - 1 ∧ time ≠ 0) then some (1, str, k :: rest, time)
    else if k = NUL then strKpmLoop rest i (time - 1) str
    else if k = '\x08' then
      if i < str.length then strKpmLoop rest (i - 1) ATM_TIME (str.set i NUL) else none
    else if i ≠ 0 ∧ k = '\n' then
      if i < str.length then some (0, str.set i NUL, rest, ATM_TIME) else none
    else if ISNUM k then
      if i = 0 ∧ k = '0' then strKpmLoop rest i ATM_TIME str
      else if i < str.length then strKpmLoop rest (i + 1) ATM_TIME (str.set i k) else none
    else if k = 'C' then some (-1, str, rest, ATM_TIME)
    else strKpmLoop rest i ATM_TIME str

/-- Function `str_KPM(str, row)`: 0 for an entry confirmed with the key `\n`,
1 for a time-out, -1 for a cancel. -/
def str_KPM (str : List Char) (w : World) : Option (Int × List Char × World) :=
  (strKpmLoop w.keys 0 w.time str).map fun r =>
    (r.1, r.2.1, { w with keys := r.2.2.1, time := r.2.2.2 })

/-- Steps `checkPC(); sprintf(buf, ..); sendMsg(buf);` and the wait that
follows, for the request `frame`: the line found in `buf`. -/
def request (frame : CStr) (w : World) : Res CStr :=
  match checkPC w with
  | .fault => .fault
  | .hang w1 => .hang w1
  | .ok _ w1 =>
    if BUF_MAX ≤ frame.length then .fault
    else
      match w1.msgs with
      | [] => .hang (sendMsg frame w1)
      | m :: rest => .ok m { sendMsg frame w1 with msgs := rest }

/-- Function `atm_wtd(rfid, buf)`; `amt0` is what the local array `amt[20]`
happens to hold. Only the value -1 of `str_KPM` ends the function; the test on
the last two bytes reads `amt` as a C string. -/
def atm_wtd (rfid : CStr) (amt0 : List Char) (w : World) : Res Unit :=
  match str_KPM amt0 w with
  | none => .fault
  | some (ret, amt, w1) =>
    if ret = -1 then .ok () w1
    else if NUL ∉ amt then .fault
    else if (cstr amt).length < 2 then .fault
    else if (cstr amt)[(cstr amt).length - 2]? ≠ some '0'
        ∨ (cstr amt)[(cstr amt).length - 1]? ≠ some '0' then .ok () w1
    else
      match request (frameWTD rfid (cstr amt)) w1 with
      | .fault => .fault
      | .hang w2 => .hang w2
      | .ok _ w2 => .ok () w2

/-- Function `atm_dep(rfid, buf)`; `amt0` is what the local array `amt[20]`
happens to hold. Only the value -1 of `str_KPM` ends the function. -/
def atm_dep (rfid : CStr) (amt0 : List Char) (w : World) : Res Unit :=
  match str_KPM amt0 w with
  | none => .fault
  | some (ret, amt, w1) =>
    if ret = -1 then .ok () w1
    else if NUL ∉ amt then .fault
    else
      match request (frameDEP rfid (cstr amt)) w1 with
      | .fault => .fault
      | .hang w2 => .hang w2
      | .ok _ w2 => .ok () w2

/-- Call `strcpy(dst, s)` into the array `dst`: `none` when `s` and its
terminator do not fit. -/
def strcpy (dst : List Char) (s : CStr) : Option (List Char) :=
  if s.length < dst.length then some (s ++ NUL :: dst.drop (s.length + 1)) else none

/-- Function `atm_pin(rfid, pin, buf)`: the value returned and the array `pin`
of the caller afterwards. The three PINs are read by `getPin` into `buf`, `buf`
and `dum[5]={0}`. -/
def atm_pin (rfid : CStr) (pin buf : List Char) (w : World) : Res (Int × List Char) :=
  let r1 := getPin buf w.keys
  if r1.1 = 0 ∨ r1.1 = -1 then .ok (0, pin) { w with keys := r1.2.2 }
  else if cstr pin ≠ cstr r1.2.1 then .ok (0, pin) { w with keys := r1.2.2 }
  else
    let r2 := getPin r1.2.1 r1.2.2
    if r2.1 = 0 ∨ r2.1 = -1 then .ok (0, pin) { w with keys := r2.2.2 }
    else
      let r3 := getPin (List.replicate 5 NUL) r2.2.2
      if r3.1 = 0 ∨ r3.1 = -1 then .ok (0, pin) { w with keys := r3.2.2 }
      else if cstr r2.2.1 ≠ cstr r3.2.1 then .ok (0, pin) { w with keys := r3.2.2 }
      else
        match strcpy pin (cstr r3.2.1) with
        | none => .fault
        | some pin1 =>
          match checkPC { w with keys := r3.2.2 } with
          | .fault => .fault
          | .hang w1 => .hang w1
          | .ok _ w1 =>
            match exchange (framePIN rfid (cstr pin1)) w1 with
            | .fault => .fault
            | .hang w2 => .hang w2
            | .ok m w2 =>
              if m = "@OK:DONE$".toList then .ok (1, pin1) w2 else .ok (0, pin1) w2

/-- The keys `5`, `0`, `0`, then no key until the countdown runs out; the
lines `@X:LINEOK$` and `@OK:DONE$`. -/
def timeoutWorld : World :=
  { keys := "500".toList, msgs := ["@X:LINEOK$".toList, "@OK:DONE$".toList]
    sent := [], replies := [], time := ATM_TIME }

/-- The keys of the old PIN `1111` and twice the new PIN `2222`; the lines
`@X:LINEOK$` and `@ERR:WRONG$`. -/
def refusedWorld : World :=
  { keys := "111122222222".toList, msgs := ["@X:LINEOK$".toList, "@ERR:WRONG$".toList]
    sent := [], replies := [], time := ATM_TIME }

end TC

namespace TC

/-- One pass of the loop `while(trys)` that goes through, as it meets its
inputs: the values of `readKpm4x4` up to the fourth digit, the lines that
arrive during `checkPC()` before `@X:LINEOK$`, the malformed lines that arrive
after `#V` was sent, and the well-formed line that `main` then compares. -/
structure Attempt where
  keys : List Char
  pre : List CStr
  bad : List CStr
  reply : CStr

/-- The array `pin` after the keys of the pass. -/
def Attempt.arr (a : Attempt) : List Char := (getPin (List.replicate 5 NUL) a.keys).2.1

/-- The keys are those of one PIN typed in full, the lines of `pre` are not the
answer to the line check, those of `bad` fail `isMsgOk` and `reply` passes it. -/
def Attempt.Wf (a : Attempt) : Prop :=
  (getPin (List.replicate 5 NUL) a.keys).1 = 1 ∧ (getPin (List.replicate 5 NUL) a.keys).2.2 = [] ∧
    (∀ m ∈ a.pre, m ≠ "@X:LINEOK$".toList) ∧ (∀ m ∈ a.bad, isMsgOk m = false) ∧
    isMsgOk a.reply = true

/-- The lines that arrive during the pass, in order. -/
def Attempt.lines (a : Attempt) : List CStr :=
  a.pre ++ "@X:LINEOK$".toList :: (a.bad ++ [a.reply])

/-- The frames the pass is expected to send: one line check for each line up to
`@X:LINEOK$`, one `#V` request with the PIN typed for each line up to the reply. -/
def Attempt.frames (rfid : CStr) (a : Attempt) : List CStr :=
  List.replicate (a.pre.length + 1) "#X:LINEOK$".toList ++
    List.replicate (a.bad.length + 1) (frameV rfid (cstr a.arr))

/-- Keys of successive passes. -/
def keysOf : List Attempt → List Char
  | [] => []
  | a :: rest => a.keys ++ keysOf rest

/-- Lines of successive passes. -/
def linesOf : List Attempt → List CStr
  | [] => []
  | a :: rest => a.lines ++ linesOf rest

/-- Frames of successive passes. -/
def framesOf (rfid : CStr) : List Attempt → List CStr
  | [] => []
  | a :: rest => a.frames rfid ++ framesOf rfid rest

/-- Replies of successive passes. -/
def repliesOf : List Attempt → List CStr
  | [] => []
  | a :: rest => a.reply :: repliesOf rest

/-- The array `pin` after successive passes. -/
def pinAfter (pin : List Char) : List Attempt → List Char
  | [] => pin
  | a :: rest => pinAfter a.arr rest

/-- A pass in which the four keys are pressed one after the other and the
server answers `@X:LINEOK$` and `@ERR:WRONG$` at once. -/
def wrongPass (keys : List Char) : Attempt :=
  { keys := keys, pre := [], bad := [], reply := "@ERR:WRONG$".toList }

/-- A pass with calls of `readKpm4x4` that find no key, a digit taken back with
the key `\x08`, a stray line before `@X:LINEOK$`, a malformed line after `#V`
and a reply that is neither `@OK:MATCHED$` nor `@ERR:WRONG$`. -/
def busyPass : Attempt :=
  { keys := [NUL, '1', NUL, '2', '\x08', '2', '3', '5']
    pre := ["junk".toList], bad := ["noise".toList], reply := "@ERR:BUSY$".toList }

end TC

/-! ## Lookup lemmas -/

theorem getAcc_some {head : List Acc} {rfid : CStr} {i : Nat} (h : getAcc head rfid = some i) :
    ∃ a, head[i]? = some a ∧ a.rfid = rfid := by
  induction head generalizing i with
  | nil => simp [getAcc] at h
  | cons b t ih =>
    unfold getAcc at h
    split at h
    · rename_i hb
      cases h
      exact ⟨b, by simp, hb.symm⟩
    · cases hg : getAcc t rfid with
      | none => simp [hg] at h
      | some j =>
        simp [hg] at h
        subst h
        obtain ⟨a, ha, hr⟩ := ih hg
        exact ⟨a, by simpa using ha, hr⟩

theorem getAcc_eq_none_iff (head : List Acc) (rfid : CStr) :
    getAcc head rfid = none ↔ ∀ a ∈ head, a.rfid ≠ rfid := by
  induction head with
  | nil => simp [getAcc]
  | cons b t ih =>
    unfold getAcc
    by_cases hb : rfid = b.rfid
    · simp [hb]
    · have hb2 : ¬ b.rfid = rfid := fun h => hb h.symm
      simp [hb, hb2, ih]

/-- The walk of `getAcc` reads nothing but the `rfid` fields. -/
theorem getAcc_congr {head head1 : List Acc} (rfid : CStr)
    (h : head1.map (·.rfid) = head.map (·.rfid)) : getAcc head1 rfid = getAcc head rfid := by
  induction head generalizing head1 with
  | nil =>
    cases head1 with
    | nil => rfl
    | cons _ _ => simp at h
  | cons b t ih =>
    cases head1 with
    | nil => simp at h
    | cons b1 t1 =>
      simp only [List.map_cons, List.cons.injEq] at h
      unfold getAcc
      rw [h.1, ih h.2]

theorem map_rfid_set {head : List Acc} {i : Nat} {a u : Acc} (ha : head[i]? = some a)
    (hu : u.rfid = a.rfid) : (head.set i u).map (·.rfid) = head.map (·.rfid) := by
  induction head generalizing i with
  | nil => simp
  | cons b t ih =>
    cases i with
    | zero =>
      simp at ha
      subst ha
      simp [hu]
    | succ j =>
      simp at ha
      simp [ih ha]

theorem getAcc_set {head : List Acc} {i : Nat} {a u : Acc} (rfid : CStr)
    (ha : head[i]? = some a) (hu : u.rfid = a.rfid) :
    getAcc (head.set i u) rfid = getAcc head rfid :=
  getAcc_congr rfid (map_rfid_set ha hu)

theorem getElem?_set_same {head : List Acc} {i : Nat} {a u : Acc} (ha : head[i]? = some a) :
    (head.set i u)[i]? = some u := by
  have hlt : i < head.length := by
    by_contra hn
    rw [List.getElem?_eq_none (by omega)] at ha
    cases ha
  simp [List.getElem?_set, hlt]

/-! ## Decoding of the request frames -/

theorem reqA2_req (req rfid arg : CStr) (h : req.length = 3) :
    ((reqA2 req rfid arg).drop 3).take 3 = req := by
  have e : reqA2 req rfid arg
      = "#A:".toList ++ (req ++ (":".toList ++ rfid ++ ":".toList ++ arg ++ "$".toList)) := by
    simp [reqA2]
  rw [e, List.drop_left' (by rfl), List.take_left' h]

theorem reqA2_rfid (req rfid arg : CStr) (h : req.length = 3) (hr : rfid.length = 8) :
    ((reqA2 req rfid arg).drop 7).take 8 = rfid := by
  have e : reqA2 req rfid arg
      = ("#A:".toList ++ req ++ ":".toList) ++ (rfid ++ (":".toList ++ arg ++ "$".toList)) := by
    simp [reqA2]
  rw [e, List.drop_left' (by simp [h]), List.take_left' hr]

theorem reqA2_arg (req rfid arg : CStr) (h : req.length = 3) (hr : rfid.length = 8) :
    (reqA2 req rfid arg).drop 16 = arg ++ ['$'] := by
  have e : reqA2 req rfid arg
      = ("#A:".toList ++ req ++ ":".toList ++ rfid ++ ":".toList) ++ (arg ++ "$".toList) := by
    simp [reqA2]
  rw [e, List.drop_left' (by simp [h, hr])]
  rfl

theorem reqA2_length (req rfid arg : CStr) (h : req.length = 3) (hr : rfid.length = 8) :
    (reqA2 req rfid arg).length = 17 + arg.length := by
  simp [reqA2, h, hr]; omega

theorem reqA_req (req rfid : CStr) (h : req.length = 3) :
    ((reqA req rfid).drop 3).take 3 = req := by
  have e : reqA req rfid = "#A:".toList ++ (req ++ (":".toList ++ rfid ++ "$".toList)) := by
    simp [reqA]
  rw [e, List.drop_left' (by rfl), List.take_left' h]

theorem reqA_rfid (req rfid : CStr) (h : req.length = 3) (hr : rfid.length = 8) :
    ((reqA req rfid).drop 7).take 8 = rfid := by
  have e : reqA req rfid = ("#A:".toList ++ req ++ ":".toList) ++ (rfid ++ "$".toList) := by
    simp [reqA]
  rw [e, List.drop_left' (by simp [h]), List.take_left' hr]

theorem reqA_length (req rfid : CStr) (h : req.length = 3) (hr : rfid.length = 8) :
    (reqA req rfid).length = 16 := by
  simp [reqA, h, hr]

theorem reqC_rfid (rfid : CStr) (hr : rfid.length = 8) :
    ((reqC rfid).drop 3).take 8 = rfid := by
  have e : reqC rfid = "#C:".toList ++ (rfid ++ "$".toList) := by simp [reqC]
  rw [e, List.drop_left' (by rfl), List.take_left' hr]

theorem reqV_rfid (rfid pin : CStr) (hr : rfid.length = 8) :
    ((reqV rfid pin).drop 3).take 8 = rfid := by
  have e : reqV rfid pin = "#V:".toList ++ (rfid ++ (":".toList ++ pin ++ "$".toList)) := by
    simp [reqV]
  rw [e, List.drop_left' (by rfl), List.take_left' hr]

theorem reqV_pin (rfid pin : CStr) (hr : rfid.length = 8) (hp : pin.length = 4) :
    ((reqV rfid pin).drop 12).take 4 = pin := by
  have e : reqV rfid pin = ("#V:".toList ++ rfid ++ ":".toList) ++ (pin ++ "$".toList) := by
    simp [reqV]
  rw [e, List.drop_left' (by simp [hr]), List.take_left' hp]

theorem isMsgOk_of {buf : CStr} (body : CStr) (h : buf = '#' :: (body ++ ['$'])) :
    isMsgOk buf = true := by
  subst h
  have h1 : ('#' :: (body ++ ['$'])).getLast? = some '$' := by
    rw [← List.cons_append, List.getLast?_concat]
  simp [isMsgOk, h1]

theorem handle_reqA2 (env : Env) (head : List Acc) (req rfid arg : CStr) :
    handle env head (reqA2 req rfid arg) = act env head (reqA2 req rfid arg) := by
  have h0 : isMsgOk (reqA2 req rfid arg) = true :=
    isMsgOk_of ("A:".toList ++ req ++ ":".toList ++ rfid ++ ":".toList ++ arg) (by simp [reqA2])
  have h1 : (reqA2 req rfid arg)[1]? = some 'A' := by simp [reqA2]
  simp [handle, h0, h1]

theorem handle_reqA (env : Env) (head : List Acc) (req rfid : CStr) :
    handle env head (reqA req rfid) = act env head (reqA req rfid) := by
  have h0 : isMsgOk (reqA req rfid) = true :=
    isMsgOk_of ("A:".toList ++ req ++ ":".toList ++ rfid) (by simp [reqA])
  have h1 : (reqA req rfid)[1]? = some 'A' := by simp [reqA]
  simp [handle, h0, h1]

theorem handle_reqC (env : Env) (head : List Acc) (rfid : CStr) :
    handle env head (reqC rfid) = checkRFID head (reqC rfid) := by
  have h0 : isMsgOk (reqC rfid) = true := isMsgOk_of ("C:".toList ++ rfid) (by simp [reqC])
  have h1 : (reqC rfid)[1]? = some 'C' := by simp [reqC]
  simp [handle, h0, h1]

theorem handle_reqV (env : Env) (head : List Acc) (rfid pin : CStr) :
    handle env head (reqV rfid pin) = verifyPin head (reqV rfid pin) := by
  have h0 : isMsgOk (reqV rfid pin) = true :=
    isMsgOk_of ("V:".toList ++ rfid ++ ":".toList ++ pin) (by simp [reqV])
  have h1 : (reqV rfid pin)[1]? = some 'V' := by simp [reqV]
  simp [handle, h0, h1]

/-! ## The handlers on the documented frames -/

theorem extAmt_reqA2 (env : Env) (req rfid amt : CStr) (h : req.length = 3)
    (hr : rfid.length = 8) (hamt : amt.length < 19) :
    extAmt env (reqA2 req rfid amt) = some (env.atof amt) := by
  have hl := reqA2_length req rfid amt h hr
  unfold extAmt
  rw [if_neg (by omega)]
  simp only [reqA2_arg req rfid amt h hr]
  rw [if_neg (by simp; omega)]
  simp

theorem act_WTD (env : Env) (head : List Acc) (rfid amt : CStr) (hr : rfid.length = 8)
    (hamt : amt.length < 19) :
    act env head (reqA2 "WTD".toList rfid amt)
      = (withdraw env (deref head (getAcc head rfid)) (env.atof amt)).bind fun r =>
          some (writeBack head (getAcc head rfid) r.1,
            [.tx r.2, .saveData (writeBack head (getAcc head rfid) r.1)]) := by
  have h3 : ("WTD".toList).length = 3 := rfl
  have hl := reqA2_length _ rfid amt h3 hr
  unfold act
  rw [if_neg (by omega)]
  simp only [reqA2_req _ rfid amt h3, reqA2_rfid _ rfid amt h3 hr,
    extAmt_reqA2 env _ rfid amt h3 hr hamt]
  simp

theorem act_DEP (env : Env) (head : List Acc) (rfid amt : CStr) (hr : rfid.length = 8)
    (hamt : amt.length < 19) :
    act env head (reqA2 "DEP".toList rfid amt)
      = (deposit env (deref head (getAcc head rfid)) (env.atof amt)).bind fun r =>
          some (writeBack head (getAcc head rfid) r.1,
            [.tx r.2, .saveData (writeBack head (getAcc head rfid) r.1)]) := by
  have h3 : ("DEP".toList).length = 3 := rfl
  have hl := reqA2_length _ rfid amt h3 hr
  unfold act
  rw [if_neg (by omega)]
  simp only [reqA2_req _ rfid amt h3, reqA2_rfid _ rfid amt h3 hr,
    extAmt_reqA2 env _ rfid amt h3 hr hamt]
  simp

theorem act_BAL (env : Env) (head : List Acc) (rfid : CStr) (hr : rfid.length = 8) :
    act env head (reqA "BAL".toList rfid)
      = (balance (deref head (getAcc head rfid))).bind fun r => some (head, [.tx r]) := by
  have h3 : ("BAL".toList).length = 3 := rfl
  have hl := reqA_length _ rfid h3 hr
  unfold act
  rw [if_neg (by omega)]
  simp only [reqA_req _ rfid h3, reqA_rfid _ rfid h3 hr]
  simp

theorem act_BLK (env : Env) (head : List Acc) (rfid : CStr) (hr : rfid.length = 8) :
    act env head (reqA "BLK".toList rfid)
      = (deref head (getAcc head rfid)).bind fun u =>
          some (writeBack head (getAcc head rfid) (some { u with cardStat := BLOCKED }),
            [.tx .okDone,
              .saveData (writeBack head (getAcc head rfid) (some { u with cardStat := BLOCKED }))]) := by
  have h3 : ("BLK".toList).length = 3 := rfl
  have hl := reqA_length _ rfid h3 hr
  unfold act
  rw [if_neg (by omega)]
  simp only [reqA_req _ rfid h3, reqA_rfid _ rfid h3 hr]
  simp

/-! ## Monetary handlers -/

theorem writeBack_deref (head : List Acc) (p : Option Nat) :
    writeBack head p (deref head p) = head := by
  cases p with
  | none => rfl
  | some i =>
    cases h : head[i]? with
    | none => simp [writeBack, deref, h]
    | some u =>
      simp only [writeBack, deref, Option.bind, h]
      apply List.ext_getElem?
      intro j
      by_cases hj : i = j
      · subst hj
        rw [getElem?_set_same h, h]
      · simp [List.getElem?_set, hj]

/-- An amount-error reply of `withdraw` comes with the account it was given. -/
theorem withdraw_err {env : Env} {usr u1 : Option Acc} {amt : ℚ} {r : Reply}
    (h : withdraw env usr amt = some (u1, r))
    (hr : r = .errNegAmt ∨ r = .errMaxAmt ∨ r = .errLowBal) : u1 = usr := by
  unfold withdraw at h
  split_ifs at h
  · cases h; rfl
  · cases usr with
    | none => simp at h
    | some u =>
      simp only at h
      split_ifs at h
      · cases h; simp at hr
      · cases h; rfl
  · cases h; rfl

/-- An amount-error reply of `deposit` comes with the account it was given. -/
theorem deposit_err {env : Env} {usr u1 : Option Acc} {amt : ℚ} {r : Reply}
    (h : deposit env usr amt = some (u1, r))
    (hr : r = .errNegAmt ∨ r = .errMaxAmt ∨ r = .errLowBal) : u1 = usr := by
  unfold deposit at h
  split_ifs at h
  · cases h; rfl
  · cases usr with
    | none => simp at h
    | some u => simp only at h; cases h; simp at hr
  · cases h; rfl

/-- What one call of `act` can do: the list afterwards is the list before with
the node of the decoded RFID rewritten by one of the five branches. -/
theorem act_inv {env : Env} {head head1 : List Acc} {buf : CStr} {evs : List Event}
    (h : act env head buf = some (head1, evs)) :
    ∃ u1, head1 = writeBack head (getAcc head ((buf.drop 7).take 8)) u1 ∧
      ((∃ amt r, withdraw env (deref head (getAcc head ((buf.drop 7).take 8))) amt = some (u1, r)
          ∧ evs = [.tx r, .saveData head1]) ∨
       (∃ amt r, deposit env (deref head (getAcc head ((buf.drop 7).take 8))) amt = some (u1, r)
          ∧ evs = [.tx r, .saveData head1]) ∨
       (u1 = deref head (getAcc head ((buf.drop 7).take 8))
          ∧ ∀ r, Event.tx r ∈ evs → ¬ r.isAmtErr ∧ r ≠ .okDone) ∨
       (∃ pin r, pinChange (deref head (getAcc head ((buf.drop 7).take 8))) pin = some (u1, r)
          ∧ evs = [.tx r, .saveData head1]) ∨
       (∃ u, deref head (getAcc head ((buf.drop 7).take 8)) = some u
          ∧ u1 = some { u with cardStat := BLOCKED }
          ∧ evs = [.tx .okDone, .saveData head1])) := by
  by_cases hlen : buf.length < 7
  · simp only [act, hlen, if_true] at h
    cases h
  simp only [act, hlen, if_false] at h
  split_ifs at h
  · simp only [Option.bind_eq_some] at h
    obtain ⟨amt, -, ⟨u1, r⟩, hx, hh⟩ := h
    simp only [Option.some.injEq, Prod.mk.injEq] at hh
    obtain ⟨rfl, rfl⟩ := hh
    exact ⟨u1, rfl, Or.inl ⟨amt, r, hx, rfl⟩⟩
  · simp only [Option.bind_eq_some] at h
    obtain ⟨amt, -, ⟨u1, r⟩, hx, hh⟩ := h
    simp only [Option.some.injEq, Prod.mk.injEq] at hh
    obtain ⟨rfl, rfl⟩ := hh
    exact ⟨u1, rfl, Or.inr (Or.inl ⟨amt, r, hx, rfl⟩)⟩
  · simp only [Option.bind_eq_some] at h
    obtain ⟨r, hx, hh⟩ := h
    simp only [Option.some.injEq, Prod.mk.injEq] at hh
    obtain ⟨rfl, rfl⟩ := hh
    refine ⟨_, (writeBack_deref _ _).symm, Or.inr (Or.inr (Or.inl ⟨rfl, ?_⟩))⟩
    intro r1 hr1
    simp only [List.mem_singleton, Event.tx.injEq] at hr1
    subst hr1
    cases hd : deref head (getAcc head ((buf.drop 7).take 8)) with
    | none => simp [hd, balance] at hx
    | some u =>
      simp only [hd, balance, Option.some.injEq] at hx
      subst hx
      simp [Reply.isAmtErr]
  · simp only [Option.bind_eq_some] at h
    obtain ⟨r, hx, hh⟩ := h
    simp only [Option.some.injEq, Prod.mk.injEq] at hh
    obtain ⟨rfl, rfl⟩ := hh
    refine ⟨_, (writeBack_deref _ _).symm, Or.inr (Or.inr (Or.inl ⟨rfl, ?_⟩))⟩
    intro r1 hr1
    simp only [List.mem_singleton, Event.tx.injEq] at hr1
    subst hr1
    unfold miniStatement at hx
    split_ifs at hx
    · cases hd : deref head (getAcc head ((buf.drop 7).take 8)) with
      | none => simp [hd] at hx
      | some u =>
        simp only [hd] at hx
        split_ifs at hx
        · split at hx
          · cases hx
          · cases hx; simp [Reply.isAmtErr, txnReply]
        · cases hx; simp [Reply.isAmtErr]
    · cases hx; simp [Reply.isAmtErr]
  · simp only [Option.some.injEq, Prod.mk.injEq] at h
    obtain ⟨rfl, rfl⟩ := h
    exact ⟨_, (writeBack_deref _ _).symm, Or.inr (Or.inr (Or.inl ⟨rfl, by simp⟩))⟩
  · simp only [Option.bind_eq_some] at h
    obtain ⟨⟨u1, r⟩, hx, hh⟩ := h
    simp only [Option.some.injEq, Prod.mk.injEq] at hh
    obtain ⟨rfl, rfl⟩ := hh
    exact ⟨u1, rfl, Or.inr (Or.inr (Or.inr (Or.inl ⟨_, r, hx, rfl⟩)))⟩
  · simp only [Option.bind_eq_some] at h
    obtain ⟨u, hx, hh⟩ := h
    simp only [Option.some.injEq, Prod.mk.injEq] at hh
    obtain ⟨rfl, rfl⟩ := hh
    exact ⟨_, rfl, Or.inr (Or.inr (Or.inr (Or.inr ⟨u, hx, rfl, rfl⟩)))⟩
  · simp only [Option.some.injEq, Prod.mk.injEq] at h
    obtain ⟨rfl, rfl⟩ := h
    exact ⟨_, (writeBack_deref _ _).symm, Or.inr (Or.inr (Or.inl ⟨rfl, by simp⟩))⟩


/-- A line is either handled by `act`, or leaves the list alone and is not
answered with an amount error. -/
theorem handle_cases {env : Env} {head head1 : List Acc} {buf : CStr} {evs : List Event}
    (h : handle env head buf = some (head1, evs)) :
    (head1 = head ∧ ∀ r, Event.tx r ∈ evs → ¬ r.isAmtErr) ∨
      act env head buf = some (head1, evs) := by
  unfold handle at h
  split_ifs at h
  · split at h
    · left
      unfold checkRFID at h
      split_ifs at h
      dsimp only at h
      split at h
      · split_ifs at h <;> cases h <;> simp [Reply.isAmtErr]
      · cases h; simp [Reply.isAmtErr]
    · left
      unfold verifyPin at h
      split_ifs at h
      dsimp only at h
      split at h
      · cases h
      · split_ifs at h <;> cases h <;> simp [Reply.isAmtErr]
    · exact Or.inr h
    · cases h; simp [Reply.isAmtErr]
    · cases h; simp [Reply.isAmtErr]
    · cases h; simp [Reply.isAmtErr]
  · cases h; simp [Reply.isAmtErr]

theorem deref_getAcc {head : List Acc} {rfid : CStr} {i : Nat} {usr : Acc}
    (hget : getAcc head rfid = some i) (husr : head[i]? = some usr) :
    deref head (getAcc head rfid) = some usr := by
  simp [deref, hget, husr]

theorem addTran_rfid (env : Env) (u : Acc) (amt : ℚ) (type : Int) :
    (addTran env u amt type).rfid = u.rfid := rfl

theorem addTran_bal (env : Env) (u : Acc) (amt : ℚ) (type : Int) :
    (addTran env u amt type).bal = u.bal := rfl

/-- Reply of `#A:BAL:<rfid>$` once the node of `rfid` holds `u1`. -/
theorem handle_BAL_set (env : Env) {head : List Acc} {rfid : CStr} {i : Nat} {usr : Acc}
    (u1 : Acc) (hr : rfid.length = 8) (hget : getAcc head rfid = some i)
    (husr : head[i]? = some usr) (hu : u1.rfid = usr.rfid) :
    getAcc (head.set i u1) rfid = some i ∧ (head.set i u1)[i]? = some u1 ∧
    handle env (head.set i u1) (reqA "BAL".toList rfid)
      = some (head.set i u1, [.tx (.okBal u1.bal)]) := by
  have h1 : getAcc (head.set i u1) rfid = some i := by rw [getAcc_set rfid husr hu, hget]
  have h2 : (head.set i u1)[i]? = some u1 := getElem?_set_same husr
  refine ⟨h1, h2, ?_⟩
  rw [handle_reqA, act_BAL _ _ _ hr, deref_getAcc h1 h2]
  rfl

/-- C1: for an account found by its RFID and an amount `a` with `0 < a < 30000`,
the request `#A:DEP:<rfid>:<amt>$` is answered `@OK:DONE$` and leaves the
balance at the prior balance plus `a`; when moreover `a ≤ balance`, the request
`#A:WTD:<rfid>:<amt>$` is answered `@OK:DONE$` and leaves it at the prior
balance minus `a`; in both cases a following `#A:BAL:<rfid>$` reports exactly
that balance. -/
theorem deposit_withdraw_balance (env env1 : Env) (head : List Acc) (rfid amt : CStr) (i : Nat)
    (usr : Acc) (a : ℚ) (hr : rfid.length = 8) (hamt : amt.length < 19)
    (hget : getAcc head rfid = some i) (husr : head[i]? = some usr)
    (ha : env.atof amt = a) (hpos : 0 < a) (hmax : a < 30000) :
    (∃ head1 u1, handle env head (reqA2 "DEP".toList rfid amt)
          = some (head1, [.tx .okDone, .saveData head1])
        ∧ getAcc head1 rfid = some i ∧ head1[i]? = some u1 ∧ u1.bal = usr.bal + a
        ∧ handle env1 head1 (reqA "BAL".toList rfid)
            = some (head1, [.tx (.okBal (usr.bal + a))]))
    ∧ (a ≤ usr.bal → ∃ head1 u1, handle env head (reqA2 "WTD".toList rfid amt)
          = some (head1, [.tx .okDone, .saveData head1])
        ∧ getAcc head1 rfid = some i ∧ head1[i]? = some u1 ∧ u1.bal = usr.bal - a
        ∧ handle env1 head1 (reqA "BAL".toList rfid)
            = some (head1, [.tx (.okBal (usr.bal - a))])) := by
  have hd := deref_getAcc hget husr
  have hn : ¬ a ≤ 0 := not_le.mpr hpos
  constructor
  · have hdep : deposit env (some usr) a
        = some (some (addTran env { usr with bal := usr.bal + a } a DEPOSIT), .okDone) := by
      simp [deposit, hn, MAX_DEPOSIT, hmax]
    obtain ⟨h1, h2, h3⟩ := handle_BAL_set env1
      (addTran env { usr with bal := usr.bal + a } a DEPOSIT) hr hget husr rfl
    refine ⟨_, _, ?_, h1, h2, rfl, h3⟩
    rw [handle_reqA2, act_DEP _ _ _ _ hr hamt, hd, ha, hdep, hget]
    rfl
  · intro hle
    have hwtd : withdraw env (some usr) a
        = some (some (addTran env { usr with bal := usr.bal - a } (-a) WITHDRAW), .okDone) := by
      simp [withdraw, hn, MAX_WITHDRAW, hmax, hle]
    obtain ⟨h1, h2, h3⟩ := handle_BAL_set env1
      (addTran env { usr with bal := usr.bal - a } (-a) WITHDRAW) hr hget husr rfl
    refine ⟨_, _, ?_, h1, h2, rfl, h3⟩
    rw [handle_reqA2, act_WTD _ _ _ _ hr hamt, hd, ha, hwtd, hget]
    rfl

theorem deposit_withdraw_balance_witness :
    (∃ head1 u1, handle env0 [alice] (reqA2 "DEP".toList "11111111".toList "250.00".toList)
          = some (head1, [.tx .okDone, .saveData head1])
        ∧ getAcc head1 "11111111".toList = some 0 ∧ head1[0]? = some u1
        ∧ u1.bal = alice.bal + 250
        ∧ handle env0 head1 (reqA "BAL".toList "11111111".toList)
            = some (head1, [.tx (.okBal (alice.bal + 250))]))
    ∧ ((250 : ℚ) ≤ alice.bal → ∃ head1 u1,
        handle env0 [alice] (reqA2 "WTD".toList "11111111".toList "250.00".toList)
          = some (head1, [.tx .okDone, .saveData head1])
        ∧ getAcc head1 "11111111".toList = some 0 ∧ head1[0]? = some u1
        ∧ u1.bal = alice.bal - 250
        ∧ handle env0 head1 (reqA "BAL".toList "11111111".toList)
            = some (head1, [.tx (.okBal (alice.bal - 250))])) :=
  deposit_withdraw_balance env0 env0 [alice] "11111111".toList "250.00".toList 0 alice 250
    (by decide) (by decide) (by decide) (by decide) (by decide!) (by norm_num) (by norm_num)


/-- Scenario "withdraw then balance": from a balance of 1000.00 the request
`#A:WTD:11111111:250.00$` is answered `@OK:DONE$` and the following
`#A:BAL:11111111$` is answered `@OK:BAL=750.00$`. -/
theorem scenario_withdraw_then_balance :
    ∃ head1 r1 r2,
      handle env0 [alice] "#A:WTD:11111111:250.00$".toList
          = some (head1, [.tx r1, .saveData head1])
        ∧ r1.frame = "@OK:DONE$"
        ∧ handle env0 head1 "#A:BAL:11111111$".toList = some (head1, [.tx r2])
        ∧ r2.frame = "@OK:BAL=750.00$" :=
  ⟨[addTran env0 { alice with bal := 750 } (-250) WITHDRAW], .okDone, .okBal 750,
    by decide!, by decide!, by decide!, by decide!⟩

/-- C2: a withdraw or deposit request that is answered with an error frame
(`@ERR:NEGAMT$`, `@ERR:MAXAMT$` or `@ERR:LOWBAL$`) leaves the whole account
list as it was, hence the balance, the history and the transaction count of
every account: this holds for any received line answered with such a frame. -/
theorem error_reply_keeps_store (env : Env) (head head1 : List Acc) (buf : CStr)
    (evs : List Event) (r : Reply) (h : handle env head buf = some (head1, evs))
    (hmem : Event.tx r ∈ evs)
    (hr : r = .errNegAmt ∨ r = .errMaxAmt ∨ r = .errLowBal) :
    head1 = head ∧ ∀ rfid, deref head1 (getAcc head1 rfid) = deref head (getAcc head rfid) := by
  have key : head1 = head := by
    rcases handle_cases h with ⟨h1, -⟩ | h
    · exact h1
    obtain ⟨u1, rfl, hc⟩ := act_inv h
    rcases hc with ⟨amt, r1, hw, he⟩ | ⟨amt, r1, hw, he⟩ | ⟨rfl, hne⟩ | ⟨pin, r1, hp, he⟩ |
      ⟨u, hu, rfl, he⟩
    · subst he
      have : r = r1 := by simpa using hmem
      subst this
      rw [withdraw_err hw hr, writeBack_deref]
    · subst he
      have : r = r1 := by simpa using hmem
      subst this
      rw [deposit_err hw hr, writeBack_deref]
    · exact writeBack_deref _ _
    · subst he
      have : r = r1 := by simpa using hmem
      subst this
      unfold pinChange at hp
      split at hp
      · cases hp
      · cases hp
        simp at hr
    · subst he
      have : r = .okDone := by simpa using hmem
      subst this
      simp at hr
  exact ⟨key, fun rfid => by rw [key]⟩

theorem error_reply_keeps_store_witness :
    handle env0 [alice, bob] (reqA2 "WTD".toList "22222222".toList "200.00".toList)
        = some ([alice, bob], [.tx .errLowBal, .saveData [alice, bob]])
      ∧ ([alice, bob] = [alice, bob] ∧ ∀ rfid,
          deref [alice, bob] (getAcc [alice, bob] rfid) = deref [alice, bob] (getAcc [alice, bob] rfid)) :=
  ⟨by decide!, error_reply_keeps_store env0 [alice, bob] [alice, bob]
    (reqA2 "WTD".toList "22222222".toList "200.00".toList)
    [.tx .errLowBal, .saveData [alice, bob]] .errLowBal (by decide!) (by simp)
    (Or.inr (Or.inr rfl))⟩

/-- C3: whatever the account list and the balance, a withdraw or deposit request
whose amount is `≤ 0` is answered `@ERR:NEGAMT$` and one whose amount is
`≥ 30000` is answered `@ERR:MAXAMT$`, the list being left as it was; an amount
strictly between (such as 29999.99) is answered with neither of the two. -/
theorem amount_limits (env : Env) (head : List Acc) (rfid amt : CStr) (a : ℚ)
    (hr : rfid.length = 8) (hamt : amt.length < 19) (ha : env.atof amt = a) :
    (a ≤ 0 →
      handle env head (reqA2 "WTD".toList rfid amt)
          = some (head, [.tx .errNegAmt, .saveData head])
        ∧ handle env head (reqA2 "DEP".toList rfid amt)
          = some (head, [.tx .errNegAmt, .saveData head]))
    ∧ (30000 ≤ a →
      handle env head (reqA2 "WTD".toList rfid amt)
          = some (head, [.tx .errMaxAmt, .saveData head])
        ∧ handle env head (reqA2 "DEP".toList rfid amt)
          = some (head, [.tx .errMaxAmt, .saveData head]))
    ∧ (0 < a → a < 30000 → ∀ req, req = "WTD".toList ∨ req = "DEP".toList →
        ∀ head1 evs, handle env head (reqA2 req rfid amt) = some (head1, evs) →
          Event.tx .errNegAmt ∉ evs ∧ Event.tx .errMaxAmt ∉ evs) := by
  refine ⟨fun h0 => ?_, fun h1 => ?_, fun h0 h1 req hreq head1 evs h => ?_⟩
  · have hw : withdraw env (deref head (getAcc head rfid)) a
        = some (deref head (getAcc head rfid), .errNegAmt) := by simp [withdraw, h0]
    have hd : deposit env (deref head (getAcc head rfid)) a
        = some (deref head (getAcc head rfid), .errNegAmt) := by simp [deposit, h0]
    constructor
    · rw [handle_reqA2, act_WTD _ _ _ _ hr hamt, ha, hw]
      simp [writeBack_deref]
    · rw [handle_reqA2, act_DEP _ _ _ _ hr hamt, ha, hd]
      simp [writeBack_deref]
  · have hn : ¬ a ≤ 0 := by linarith
    have hm : ¬ a < 30000 := by linarith
    have hw : withdraw env (deref head (getAcc head rfid)) a
        = some (deref head (getAcc head rfid), .errMaxAmt) := by
      simp [withdraw, hn, hm, MAX_WITHDRAW]
    have hd : deposit env (deref head (getAcc head rfid)) a
        = some (deref head (getAcc head rfid), .errMaxAmt) := by
      simp [deposit, hn, hm, MAX_DEPOSIT]
    constructor
    · rw [handle_reqA2, act_WTD _ _ _ _ hr hamt, ha, hw]
      simp [writeBack_deref]
    · rw [handle_reqA2, act_DEP _ _ _ _ hr hamt, ha, hd]
      simp [writeBack_deref]
  · have hn : ¬ a ≤ 0 := not_le.mpr h0
    rcases hreq with rfl | rfl
    · rw [handle_reqA2, act_WTD _ _ _ _ hr hamt, ha] at h
      cases hu : deref head (getAcc head rfid) with
      | none => simp [hu, withdraw, hn, h1, MAX_WITHDRAW] at h
      | some u =>
        by_cases hb : a ≤ u.bal
        · simp [hu, withdraw, hn, h1, MAX_WITHDRAW, hb] at h
          obtain ⟨-, rfl⟩ := h
          simp
        · simp [hu, withdraw, hn, h1, MAX_WITHDRAW, hb] at h
          obtain ⟨-, rfl⟩ := h
          simp
    · rw [handle_reqA2, act_DEP _ _ _ _ hr hamt, ha] at h
      cases hu : deref head (getAcc head rfid) with
      | none => simp [hu, deposit, hn, h1, MAX_DEPOSIT] at h
      | some u =>
        simp [hu, deposit, hn, h1, MAX_DEPOSIT] at h
        obtain ⟨-, rfl⟩ := h
        simp

theorem amount_limits_witness :
    (handle env0 [alice] (reqA2 "WTD".toList "11111111".toList "30000".toList)
          = some ([alice], [.tx .errMaxAmt, .saveData [alice]])
        ∧ handle env0 [alice] (reqA2 "DEP".toList "11111111".toList "30000".toList)
          = some ([alice], [.tx .errMaxAmt, .saveData [alice]]))
    ∧ (handle env0 [alice] (reqA2 "WTD".toList "11111111".toList "0".toList)
          = some ([alice], [.tx .errNegAmt, .saveData [alice]])
        ∧ handle env0 [alice] (reqA2 "DEP".toList "11111111".toList "0".toList)
          = some ([alice], [.tx .errNegAmt, .saveData [alice]]))
    ∧ (∀ head1 evs,
        handle env0 [alice] (reqA2 "DEP".toList "11111111".toList "29999.99".toList)
            = some (head1, evs) →
          Event.tx .errNegAmt ∉ evs ∧ Event.tx .errMaxAmt ∉ evs) :=
  ⟨(amount_limits env0 [alice] "11111111".toList "30000".toList 30000 (by decide) (by decide)
      (by decide!)).2.1 (le_refl _),
    (amount_limits env0 [alice] "11111111".toList "0".toList 0 (by decide) (by decide)
      (by decide!)).1 (le_refl _),
    (amount_limits env0 [alice] "11111111".toList "29999.99".toList (2999999 / 100) (by decide)
      (by decide) (by decide!)).2.2 (by norm_num) (by norm_num) "DEP".toList (Or.inr rfl)⟩

/-- C4: for an account found by its RFID and an amount `a` with `0 < a < 30000`,
a withdraw request is answered `@ERR:LOWBAL$` exactly when `a` exceeds the
balance and `@OK:DONE$` exactly when `a ≤ balance`; a withdraw of the whole
balance is answered `@OK:DONE$` and leaves the balance at 0. -/
theorem withdraw_lowbal_iff (env : Env) (head : List Acc) (rfid amt : CStr) (i : Nat)
    (usr : Acc) (a : ℚ) (hr : rfid.length = 8) (hamt : amt.length < 19)
    (hget : getAcc head rfid = some i) (husr : head[i]? = some usr)
    (ha : env.atof amt = a) (hpos : 0 < a) (hmax : a < 30000) :
    (handle env head (reqA2 "WTD".toList rfid amt)
        = some (head, [.tx .errLowBal, .saveData head]) ↔ usr.bal < a)
    ∧ ((∃ head1, handle env head (reqA2 "WTD".toList rfid amt)
        = some (head1, [.tx .okDone, .saveData head1])) ↔ a ≤ usr.bal)
    ∧ (a = usr.bal → ∃ head1 u1, handle env head (reqA2 "WTD".toList rfid amt)
          = some (head1, [.tx .okDone, .saveData head1])
        ∧ getAcc head1 rfid = some i ∧ head1[i]? = some u1 ∧ u1.bal = 0) := by
  have hd := deref_getAcc hget husr
  have hn : ¬ a ≤ 0 := not_le.mpr hpos
  have hlow : usr.bal < a → handle env head (reqA2 "WTD".toList rfid amt)
      = some (head, [.tx .errLowBal, .saveData head]) := by
    intro hb
    have hw : withdraw env (some usr) a = some (some usr, .errLowBal) := by
      simp [withdraw, hn, MAX_WITHDRAW, hmax, not_le.mpr hb]
    rw [handle_reqA2, act_WTD _ _ _ _ hr hamt, hd, ha, hw]
    have := writeBack_deref head (getAcc head rfid)
    rw [hd] at this
    simp [this]
  have hok : a ≤ usr.bal → handle env head (reqA2 "WTD".toList rfid amt)
      = some (head.set i (addTran env { usr with bal := usr.bal - a } (-a) WITHDRAW),
          [.tx .okDone,
            .saveData (head.set i (addTran env { usr with bal := usr.bal - a } (-a) WITHDRAW))]) := by
    intro hb
    have hw : withdraw env (some usr) a
        = some (some (addTran env { usr with bal := usr.bal - a } (-a) WITHDRAW), .okDone) := by
      simp [withdraw, hn, MAX_WITHDRAW, hmax, hb]
    rw [handle_reqA2, act_WTD _ _ _ _ hr hamt, hd, ha, hw, hget]
    rfl
  refine ⟨⟨fun h => ?_, hlow⟩, ⟨fun h => ?_, fun h => ⟨_, hok h⟩⟩, fun h => ?_⟩
  · by_contra hb
    rw [hok (not_lt.mp hb)] at h
    simp at h
  · by_contra hb
    obtain ⟨head1, h⟩ := h
    rw [hlow (not_le.mp hb)] at h
    simp at h
  · refine ⟨_, _, hok (le_of_eq h), ?_, getElem?_set_same husr, ?_⟩
    · exact (getAcc_set (u := addTran env { usr with bal := usr.bal - a } (-a) WITHDRAW) rfid
        husr rfl).trans hget
    · rw [addTran_bal]
      simp [h]

theorem withdraw_lowbal_iff_witness :
    (handle env0 [alice, bob] (reqA2 "WTD".toList "22222222".toList "150.00".toList)
        = some ([alice, bob], [.tx .errLowBal, .saveData [alice, bob]]) ↔ bob.bal < 150)
    ∧ ((∃ head1, handle env0 [alice, bob] (reqA2 "WTD".toList "22222222".toList "150.00".toList)
        = some (head1, [.tx .okDone, .saveData head1])) ↔ (150 : ℚ) ≤ bob.bal)
    ∧ ((150 : ℚ) = bob.bal → ∃ head1 u1,
        handle env0 [alice, bob] (reqA2 "WTD".toList "22222222".toList "150.00".toList)
          = some (head1, [.tx .okDone, .saveData head1])
        ∧ getAcc head1 "22222222".toList = some 1 ∧ head1[1]? = some u1 ∧ u1.bal = 0) :=
  withdraw_lowbal_iff env0 [alice, bob] "22222222".toList "150.00".toList 1 bob 150
    (by decide) (by decide) (by decide) (by decide) (by decide!) (by norm_num) (by norm_num)

/-- The only way `withdraw` answers `@OK:DONE$`. -/
theorem withdraw_okDone {env : Env} {usr : Acc} {u1 : Option Acc} {amt : ℚ}
    (h : withdraw env (some usr) amt = some (u1, .okDone)) :
    u1 = some (addTran env { usr with bal := usr.bal - amt } (-amt) WITHDRAW) := by
  unfold withdraw at h
  split_ifs at h
  · cases h
  · simp only at h
    split_ifs at h
    · cases h; rfl
    · cases h
  · cases h

/-- The only way `deposit` answers `@OK:DONE$`. -/
theorem deposit_okDone {env : Env} {usr : Acc} {u1 : Option Acc} {amt : ℚ}
    (h : deposit env (some usr) amt = some (u1, .okDone)) :
    u1 = some (addTran env { usr with bal := usr.bal + amt } amt DEPOSIT) := by
  unfold deposit at h
  split_ifs at h
  · cases h
  · cases h; rfl
  · cases h

/-- C5: a committed withdraw (resp. deposit) of amount `a` on an account found by
its RFID puts exactly one new node in front of the unchanged prior history,
of type `WITHDRAW` and amount `-a` (resp. `DEPOSIT` and `+a`), and the
transaction counter becomes the prior counter plus one (the counter being
below the `u64` maximum). -/
theorem committed_prepends_one (env : Env) (head : List Acc) (rfid amt : CStr) (i : Nat)
    (usr : Acc) (hr : rfid.length = 8) (hamt : amt.length < 19)
    (hget : getAcc head rfid = some i) (husr : head[i]? = some usr)
    (hcnt : usr.tranCnt + 1 < U64) :
    (∀ head1 evs, handle env head (reqA2 "WTD".toList rfid amt) = some (head1, evs) →
      Event.tx .okDone ∈ evs →
      ∃ u1 t, head1[i]? = some u1 ∧ u1.tranHist = t :: usr.tranHist ∧ t.type = WITHDRAW
        ∧ t.amt = - env.atof amt ∧ u1.tranCnt = usr.tranCnt + 1)
    ∧ (∀ head1 evs, handle env head (reqA2 "DEP".toList rfid amt) = some (head1, evs) →
      Event.tx .okDone ∈ evs →
      ∃ u1 t, head1[i]? = some u1 ∧ u1.tranHist = t :: usr.tranHist ∧ t.type = DEPOSIT
        ∧ t.amt = env.atof amt ∧ u1.tranCnt = usr.tranCnt + 1) := by
  have hd := deref_getAcc hget husr
  have hc : (usr.tranCnt + 1) % U64 = usr.tranCnt + 1 := Nat.mod_eq_of_lt hcnt
  constructor
  · intro head1 evs h hmem
    rw [handle_reqA2, act_WTD _ _ _ _ hr hamt, hd] at h
    simp only [Option.bind_eq_some] at h
    obtain ⟨⟨u1, r⟩, hw, hh⟩ := h
    simp only [Option.some.injEq, Prod.mk.injEq] at hh
    obtain ⟨rfl, rfl⟩ := hh
    have : r = .okDone := by
      simp only [List.mem_cons, Event.tx.injEq, reduceCtorEq, List.mem_singleton, or_false,
        List.not_mem_nil] at hmem
      exact hmem.symm
    subst this
    rw [withdraw_okDone hw, hget]
    exact ⟨_, _, getElem?_set_same husr, rfl, rfl, rfl, hc⟩
  · intro head1 evs h hmem
    rw [handle_reqA2, act_DEP _ _ _ _ hr hamt, hd] at h
    simp only [Option.bind_eq_some] at h
    obtain ⟨⟨u1, r⟩, hw, hh⟩ := h
    simp only [Option.some.injEq, Prod.mk.injEq] at hh
    obtain ⟨rfl, rfl⟩ := hh
    have : r = .okDone := by
      simp only [List.mem_cons, Event.tx.injEq, reduceCtorEq, List.mem_singleton, or_false,
        List.not_mem_nil] at hmem
      exact hmem.symm
    subst this
    rw [deposit_okDone hw, hget]
    exact ⟨_, _, getElem?_set_same husr, rfl, rfl, rfl, hc⟩

theorem committed_prepends_one_witness :
    (∀ head1 evs,
      handle env0 [alice, bob] (reqA2 "WTD".toList "22222222".toList "100.00".toList)
        = some (head1, evs) →
      Event.tx .okDone ∈ evs →
      ∃ u1 t, head1[1]? = some u1 ∧ u1.tranHist = t :: bob.tranHist ∧ t.type = WITHDRAW
        ∧ t.amt = - env0.atof "100.00".toList ∧ u1.tranCnt = bob.tranCnt + 1)
    ∧ (∀ head1 evs,
      handle env0 [alice, bob] (reqA2 "DEP".toList "22222222".toList "100.00".toList)
        = some (head1, evs) →
      Event.tx .okDone ∈ evs →
      ∃ u1 t, head1[1]? = some u1 ∧ u1.tranHist = t :: bob.tranHist ∧ t.type = DEPOSIT
        ∧ t.amt = env0.atof "100.00".toList ∧ u1.tranCnt = bob.tranCnt + 1) :=
  committed_prepends_one env0 [alice, bob] "22222222".toList "100.00".toList 1 bob
    (by decide) (by decide) (by decide) (by decide) (by decide)

/-! ## Card check and PIN verification -/

theorem checkRFID_reqC (head : List Acc) (rfid : CStr) (hr : rfid.length = 8) :
    checkRFID head (reqC rfid)
      = match deref head (getAcc head rfid) with
        | some usr =>
          if usr.cardStat ≠ 0 then some (head, [.tx (.okActive usr.usrName)])
          else some (head, [.tx .errBlock])
        | none => some (head, [.tx .errInvalid]) := by
  have hl : (reqC rfid).length = 12 := by simp [reqC, hr]
  unfold checkRFID
  rw [if_neg (by omega)]
  simp only [reqC_rfid rfid hr]

/-- C6: on a card-check request `#C:<rfid8>$` the reply is `@ERR:INVALID$`
exactly when no account has that RFID, `@ERR:BLOCK$` exactly when the account
found for that RFID has card state `BLOCKED`, and `@OK:ACTIVE:<username>$`
with that account's username exactly when the account found is `ACTIVE`
(every card state being `ACTIVE` or `BLOCKED`); the account list is unchanged
in all cases. -/
theorem card_check_reply (env : Env) (head : List Acc) (rfid : CStr) (hr : rfid.length = 8)
    (hst : ∀ a ∈ head, a.cardStat = ACTIVE ∨ a.cardStat = BLOCKED) :
    (handle env head (reqC rfid) = some (head, [.tx .errInvalid])
        ↔ ∀ a ∈ head, a.rfid ≠ rfid)
    ∧ (handle env head (reqC rfid) = some (head, [.tx .errBlock])
        ↔ ∃ usr, deref head (getAcc head rfid) = some usr ∧ usr.cardStat = BLOCKED)
    ∧ (∀ name, handle env head (reqC rfid) = some (head, [.tx (.okActive name)])
        ↔ ∃ usr, deref head (getAcc head rfid) = some usr ∧ usr.cardStat = ACTIVE
            ∧ usr.usrName = name)
    ∧ (∃ r, handle env head (reqC rfid) = some (head, [.tx r])) := by
  rw [handle_reqC, checkRFID_reqC head rfid hr]
  cases hg : getAcc head rfid with
  | none =>
    have hnone := (getAcc_eq_none_iff head rfid).mp hg
    have hd : deref head none = none := rfl
    rw [hd]
    refine ⟨iff_of_true rfl hnone, ?_, ?_, ⟨_, rfl⟩⟩
    · simp
    · intro name; simp
  | some i =>
    obtain ⟨usr, hu, hrf⟩ := getAcc_some hg
    have hmem : usr ∈ head := List.mem_iff_getElem?.mpr ⟨i, hu⟩
    have hinv : ¬ ∀ a ∈ head, a.rfid ≠ rfid := fun h => h usr hmem hrf
    have hd : deref head (some i) = some usr := by simp [deref, hu]
    rw [hd]
    rcases hst usr hmem with hs | hs
    · have h1 : usr.cardStat ≠ 0 := by rw [hs]; decide
      simp only [if_pos h1]
      refine ⟨?_, ?_, ?_, ⟨_, rfl⟩⟩
      · simp [hinv]
      · simp [hs, ACTIVE, BLOCKED]
      · intro name; simp [hs]
    · have h1 : ¬ usr.cardStat ≠ 0 := by rw [hs]; decide
      simp only [if_neg h1]
      refine ⟨?_, ?_, ?_, ⟨_, rfl⟩⟩
      · simp [hinv]
      · simp [hs]
      · intro name; simp [hs, ACTIVE, BLOCKED]

theorem card_check_reply_witness :
    (handle env0 [alice, bob] (reqC "22222222".toList) = some ([alice, bob], [.tx .errInvalid])
        ↔ ∀ a ∈ [alice, bob], a.rfid ≠ "22222222".toList)
    ∧ (handle env0 [alice, bob] (reqC "22222222".toList) = some ([alice, bob], [.tx .errBlock])
        ↔ ∃ usr, deref [alice, bob] (getAcc [alice, bob] "22222222".toList) = some usr
            ∧ usr.cardStat = BLOCKED)
    ∧ (∀ name,
        handle env0 [alice, bob] (reqC "22222222".toList)
            = some ([alice, bob], [.tx (.okActive name)])
        ↔ ∃ usr, deref [alice, bob] (getAcc [alice, bob] "22222222".toList) = some usr
            ∧ usr.cardStat = ACTIVE ∧ usr.usrName = name)
    ∧ (∃ r, handle env0 [alice, bob] (reqC "22222222".toList) = some ([alice, bob], [.tx r])) :=
  card_check_reply env0 [alice, bob] "22222222".toList (by decide) (by decide)

/-- Reply to `#V:<rfid>:<pin>$` when the RFID is that of `usr`. -/
theorem handle_reqV_found (env : Env) {head : List Acc} {rfid : CStr} {i : Nat} {usr : Acc}
    (pin : CStr) (hr : rfid.length = 8) (hp : pin.length = 4)
    (hget : getAcc head rfid = some i) (husr : head[i]? = some usr) :
    handle env head (reqV rfid pin)
      = some (head, [.tx (if pin = usr.pin then .okMatched else .errWrong)]) := by
  have hl : (reqV rfid pin).length = 17 := by simp [reqV, hr, hp]
  rw [handle_reqV]
  unfold verifyPin
  rw [if_neg (by omega)]
  simp only [reqV_rfid rfid pin hr, reqV_pin rfid pin hr hp, deref_getAcc hget husr]
  split_ifs <;> rfl

/-- C7: on a PIN-verify request `#V:<rfid8>:<pin4>$` whose RFID is that of an
account, the reply is `@OK:MATCHED$` exactly when `<pin4>` is the stored PIN
and `@ERR:WRONG$` exactly when it is not; any sequence of such requests with
wrong PINs is answered `@ERR:WRONG$` each time and leaves the account list
unchanged. -/
theorem pin_verify_reply (env : Env) (head : List Acc) (rfid pin : CStr) (i : Nat) (usr : Acc)
    (hr : rfid.length = 8) (hp : pin.length = 4)
    (hget : getAcc head rfid = some i) (husr : head[i]? = some usr) :
    (handle env head (reqV rfid pin) = some (head, [.tx .okMatched]) ↔ pin = usr.pin)
    ∧ (handle env head (reqV rfid pin) = some (head, [.tx .errWrong]) ↔ pin ≠ usr.pin)
    ∧ (∀ reqs : List (Env × CStr),
        (∀ q ∈ reqs, ∃ p : CStr, p.length = 4 ∧ p ≠ usr.pin ∧ q.2 = reqV rfid p) →
        run head reqs = some (head, List.replicate reqs.length (.tx .errWrong))) := by
  refine ⟨?_, ?_, ?_⟩
  · rw [handle_reqV_found env pin hr hp hget husr]
    by_cases h : pin = usr.pin <;> simp [h]
  · rw [handle_reqV_found env pin hr hp hget husr]
    by_cases h : pin = usr.pin <;> simp [h]
  · intro reqs
    induction reqs with
    | nil => intro _; rfl
    | cons q rest ih =>
      intro hq
      obtain ⟨e, buf⟩ := q
      obtain ⟨p, hp4, hne, hbuf⟩ := hq (e, buf) (List.mem_cons_self _ _)
      simp only at hbuf
      subst hbuf
      have hrest := ih (fun q hq1 => hq q (List.mem_cons_of_mem _ hq1))
      simp only [run, handle_reqV_found e p hr hp4 hget husr, if_neg hne, hrest]
      rfl

theorem pin_verify_reply_witness :
    (handle env0 [alice, bob] (reqV "11111111".toList "1234".toList)
        = some ([alice, bob], [.tx .okMatched]) ↔ "1234".toList = alice.pin)
    ∧ (handle env0 [alice, bob] (reqV "11111111".toList "1234".toList)
        = some ([alice, bob], [.tx .errWrong]) ↔ "1234".toList ≠ alice.pin)
    ∧ (∀ reqs : List (Env × CStr),
        (∀ q ∈ reqs, ∃ p : CStr, p.length = 4 ∧ p ≠ alice.pin
          ∧ q.2 = reqV "11111111".toList p) →
        run [alice, bob] reqs
          = some ([alice, bob], List.replicate reqs.length (.tx .errWrong))) :=
  pin_verify_reply env0 [alice, bob] "11111111".toList "1234".toList 0 alice
    (by decide) (by decide) (by decide) (by decide)

/-! ## Card blocking -/

/-- One handled line rewrites at most one node, keeps its `rfid`, and never
takes its card state away from `BLOCKED`. -/
theorem handle_step {env : Env} {head head1 : List Acc} {buf : CStr} {evs : List Event}
    (h : handle env head buf = some (head1, evs)) :
    head1 = head ∨ ∃ j u u1, head[j]? = some u ∧ head1 = head.set j u1 ∧ u1.rfid = u.rfid
      ∧ (u.cardStat = BLOCKED → u1.cardStat = BLOCKED) := by
  rcases handle_cases h with ⟨h1, -⟩ | h
  · exact Or.inl h1
  obtain ⟨o1, rfl, hc⟩ := act_inv h
  cases hp : getAcc head ((buf.drop 7).take 8) with
  | none => exact Or.inl rfl
  | some j =>
    cases o1 with
    | none => exact Or.inl rfl
    | some u1 =>
      obtain ⟨u, hu, -⟩ := getAcc_some hp
      have hd : deref head (getAcc head ((buf.drop 7).take 8)) = some u := by
        simp [deref, hp, hu]
      rw [hd] at hc
      refine Or.inr ⟨j, u, u1, hu, rfl, ?_⟩
      rcases hc with ⟨amt, r, hw, -⟩ | ⟨amt, r, hw, -⟩ | ⟨he, -⟩ | ⟨pin, r, hw, -⟩ | ⟨v, hv, he, -⟩
      · unfold withdraw at hw
        split_ifs at hw
        · cases hw; exact ⟨rfl, id⟩
        · simp only at hw
          split_ifs at hw
          · cases hw; exact ⟨rfl, id⟩
          · cases hw; exact ⟨rfl, id⟩
        · cases hw; exact ⟨rfl, id⟩
      · unfold deposit at hw
        split_ifs at hw
        · cases hw; exact ⟨rfl, id⟩
        · cases hw; exact ⟨rfl, id⟩
        · cases hw; exact ⟨rfl, id⟩
      · cases he; exact ⟨rfl, id⟩
      · unfold pinChange at hw
        cases hw; exact ⟨rfl, id⟩
      · cases hv; cases he; exact ⟨rfl, fun _ => rfl⟩

theorem handle_keeps_blocked {env : Env} {head head1 : List Acc} {buf : CStr}
    {evs : List Event} {rfid : CStr} (h : handle env head buf = some (head1, evs))
    (hb : BlockedCard head rfid) : BlockedCard head1 rfid := by
  rcases handle_step h with rfl | ⟨j, u, u1, hu, rfl, hrf, hst⟩
  · exact hb
  obtain ⟨i, v, hg, hv, hs⟩ := hb
  by_cases hji : j = i
  · subst hji
    have : u = v := by rw [hu] at hv; exact Option.some.inj hv
    subst this
    exact ⟨j, u1, (getAcc_set rfid hu hrf).trans hg, getElem?_set_same hu, hst hs⟩
  · refine ⟨i, v, (getAcc_set rfid hu hrf).trans hg, ?_, hs⟩
    simp [List.getElem?_set, hji, hv]

theorem run_keeps_blocked {rfid : CStr} (reqs : List (Env × CStr)) :
    ∀ {head head2 : List Acc} {evs : List Event}, run head reqs = some (head2, evs) →
      BlockedCard head rfid → BlockedCard head2 rfid := by
  induction reqs with
  | nil =>
    intro head head2 evs h hb
    simp only [run, Option.some.injEq, Prod.mk.injEq] at h
    rw [← h.1]; exact hb
  | cons q rest ih =>
    intro head head2 evs h hb
    obtain ⟨e, buf⟩ := q
    unfold run at h
    split at h
    · cases h
    · rename_i head1 evs1 h1
      split at h
      · cases h
      · rename_i head3 evs3 h3
        simp only [Option.some.injEq, Prod.mk.injEq] at h
        rw [← h.1]
        exact ih h3 (handle_keeps_blocked h1 hb)

theorem blocked_reqC (env : Env) {head : List Acc} {rfid : CStr} (hr : rfid.length = 8)
    (hb : BlockedCard head rfid) :
    handle env head (reqC rfid) = some (head, [.tx .errBlock]) := by
  obtain ⟨i, u, hg, hu, hs⟩ := hb
  rw [handle_reqC, checkRFID_reqC head rfid hr, deref_getAcc hg hu]
  simp [hs, BLOCKED]

/-- C8: for an account found by its RFID, the request `#A:BLK:<rfid8>$` is
answered `@OK:DONE$` and sets the card state to `BLOCKED`; after it, whatever
sequence of lines the server handles, a request `#C:<rfid8>$` for that RFID is
answered `@ERR:BLOCK$`. -/
theorem block_is_permanent (env : Env) (head : List Acc) (rfid : CStr) (i : Nat) (usr : Acc)
    (hr : rfid.length = 8) (hget : getAcc head rfid = some i) (husr : head[i]? = some usr) :
    ∃ head1 u1, handle env head (reqA "BLK".toList rfid)
        = some (head1, [.tx .okDone, .saveData head1])
      ∧ getAcc head1 rfid = some i ∧ head1[i]? = some u1 ∧ u1.cardStat = BLOCKED
      ∧ ∀ (reqs : List (Env × CStr)) (head2 : List Acc) (evs : List Event) (env2 : Env),
          run head1 reqs = some (head2, evs) →
          handle env2 head2 (reqC rfid) = some (head2, [.tx .errBlock]) := by
  have h1 : getAcc (head.set i { usr with cardStat := BLOCKED }) rfid = some i :=
    (getAcc_set (u := { usr with cardStat := BLOCKED }) rfid husr rfl).trans hget
  have h2 : (head.set i { usr with cardStat := BLOCKED })[i]? = some { usr with cardStat := BLOCKED } :=
    getElem?_set_same husr
  refine ⟨head.set i { usr with cardStat := BLOCKED }, { usr with cardStat := BLOCKED }, ?_,
    h1, h2, rfl, ?_⟩
  · rw [handle_reqA, act_BLK _ _ _ hr, deref_getAcc hget husr, hget]
    rfl
  · intro reqs head2 evs env2 hrun
    exact blocked_reqC env2 hr (run_keeps_blocked reqs hrun ⟨i, _, h1, h2, rfl⟩)

theorem block_is_permanent_witness :
    ∃ head1 u1, handle env0 [alice, bob] (reqA "BLK".toList "11111111".toList)
        = some (head1, [.tx .okDone, .saveData head1])
      ∧ getAcc head1 "11111111".toList = some 0 ∧ head1[0]? = some u1 ∧ u1.cardStat = BLOCKED
      ∧ ∀ (reqs : List (Env × CStr)) (head2 : List Acc) (evs : List Event) (env2 : Env),
          run head1 reqs = some (head2, evs) →
          handle env2 head2 (reqC "11111111".toList) = some (head2, [.tx .errBlock]) :=
  block_is_permanent env0 [alice, bob] "11111111".toList 0 alice (by decide) (by decide)
    (by decide)

/-! ## Mini statement -/

/-- On `#A:MST:<rfid>:<arg>$` the index handed to `miniStatement` is read from
the first byte of `<arg>` alone. -/
theorem act_MST (env : Env) (head : List Acc) (rfid : CStr) (c : Char) (rest : CStr)
    (hr : rfid.length = 8) :
    act env head (reqA2 "MST".toList rfid (c :: rest))
      = (miniStatement (deref head (getAcc head rfid)) (toChar8 ((c.toNat : Int) - 48))).bind
          fun r => some (head, [.tx r]) := by
  have h3 : ("MST".toList).length = 3 := rfl
  have hl := reqA2_length _ rfid (c :: rest) h3 hr
  have h16 : (reqA2 "MST".toList rfid (c :: rest)).getD 16 (Char.ofNat 0) = c := by
    have e : reqA2 "MST".toList rfid (c :: rest)
        = ("#A:".toList ++ "MST".toList ++ ":".toList ++ rfid ++ ":".toList)
            ++ (c :: (rest ++ "$".toList)) := by
      simp [reqA2]
    rw [e, List.getD_eq_getElem?_getD, List.getElem?_append_right (by simp [hr])]
    simp [hr]
  unfold act
  rw [if_neg (by omega)]
  simp only [reqA2_req _ rfid _ h3, reqA2_rfid _ rfid _ h3 hr, h16]
  rw [if_neg (by decide), if_neg (by decide), if_neg (by decide), if_pos trivial,
    if_neg (by omega)]

theorem decimal_digit (n : Nat) (h1 : 1 ≤ n) (h9 : n ≤ 9) :
    ∃ c, decimal n = [c] ∧ toChar8 ((c.toNat : Int) - 48) = n := by
  interval_cases n <;> exact ⟨_, rfl, by decide⟩


theorem miniStatement_index (usr : Acc) (n : Nat) (h1 : 1 ≤ n)
    (hinv : usr.tranCnt = usr.tranHist.length) :
    (n ≤ usr.tranHist.length → ∃ t, usr.tranHist[n - 1]? = some t
        ∧ miniStatement (some usr) n = some (txnReply t))
    ∧ (usr.tranHist.length < n → miniStatement (some usr) n = some .txnNone) := by
  have hpos : (0 : Int) < n := by omega
  constructor
  · intro hle
    have hlt : n - 1 < usr.tranHist.length := by omega
    refine ⟨usr.tranHist[n - 1], List.getElem?_eq_getElem hlt, ?_⟩
    unfold miniStatement
    rw [if_pos hpos]
    simp only [Int.toNat_ofNat]
    rw [if_pos (by omega), List.getElem?_eq_getElem hlt]
  · intro hgt
    unfold miniStatement
    rw [if_pos hpos]
    simp only [Int.toNat_ofNat]
    rw [if_neg (by omega)]

/-- C9 (as amended): for an account found by its RFID whose transaction
counter equals the length of its history `h` (newest first), and a
mini-statement request `#A:MST:<rfid8>:<n>$` whose index `n` is a single
decimal digit `1..9`: if `n ≤ length h` the reply is the `@TXN` frame of
`h[n-1]`, and if `n > length h` the reply is the sentinel `@TXN:7:0:0$`. -/
theorem mini_statement_digit_index (env : Env) (head : List Acc) (rfid : CStr) (i : Nat)
    (usr : Acc) (n : Nat) (hr : rfid.length = 8) (hget : getAcc head rfid = some i)
    (husr : head[i]? = some usr) (hinv : usr.tranCnt = usr.tranHist.length)
    (h1 : 1 ≤ n) (h9 : n ≤ 9) :
    (n ≤ usr.tranHist.length → ∃ t, usr.tranHist[n - 1]? = some t
        ∧ handle env head (reqA2 "MST".toList rfid (decimal n))
            = some (head, [.tx (txnReply t)]))
    ∧ (usr.tranHist.length < n →
        handle env head (reqA2 "MST".toList rfid (decimal n))
          = some (head, [.tx .txnNone])) := by
  obtain ⟨c, hc, hv⟩ := decimal_digit n h1 h9
  obtain ⟨hin, hout⟩ := miniStatement_index usr n h1 hinv
  rw [handle_reqA2, hc, act_MST env head rfid c [] hr, deref_getAcc hget husr, hv]
  constructor
  · intro hle
    obtain ⟨t, ht, hm⟩ := hin hle
    exact ⟨t, ht, by rw [hm]; rfl⟩
  · intro hgt
    rw [hout hgt]; rfl

theorem mini_statement_digit_index_witness :
    (1 ≤ bob.tranHist.length → ∃ t, bob.tranHist[1 - 1]? = some t
        ∧ handle env0 [alice, bob] (reqA2 "MST".toList "22222222".toList (decimal 1))
            = some ([alice, bob], [.tx (txnReply t)]))
    ∧ (bob.tranHist.length < 1 →
        handle env0 [alice, bob] (reqA2 "MST".toList "22222222".toList (decimal 1))
          = some ([alice, bob], [.tx .txnNone])) :=
  mini_statement_digit_index env0 [alice, bob] "22222222".toList 1 bob 1 (by decide) (by decide)
    (by decide) (by decide) (by decide) (by decide)

/-- C9 (as stated) fails: the history of `bob` has one entry and the index 12
exceeds it, yet the reply to `#A:MST:22222222:12$` is the `@TXN` frame of the
newest entry and not the sentinel. -/
theorem mini_statement_index_12 :
    bob.tranHist.length < 12
    ∧ handle env0 [alice, bob] (reqA2 "MST".toList "22222222".toList (decimal 12))
        = some ([alice, bob], [.tx (.txn DEPOSIT 14 5 2025 9 30 150)])
    ∧ handle env0 [alice, bob] (reqA2 "MST".toList "22222222".toList (decimal 12))
        ≠ some ([alice, bob], [.tx .txnNone]) := by
  decide!

theorem getTimeStamp_calendar (year month day hour minute second : Nat)
    (hy : year ≤ 9999) (hm : month ≤ 12) (hd : day ≤ 31)
    (hh : hour ≤ 23) (hmi : minute ≤ 59) (hs : second ≤ 59) (hm1 : 1 ≤ month) :
    getTimeStamp { tm_year := (year : Int) - 1900, tm_mon := (month : Int) - 1, tm_mday := day,
                   tm_hour := hour, tm_min := minute, tm_sec := second }
      = year * 10000000000 + month * 100000000 + day * 1000000 + hour * 10000 + minute * 100
          + second := by
  simp only [getTimeStamp, toU64, U64]
  omega

/-- C10: for a calendar time (year 1000..9999, month 1..12, day 1..31, hour
0..23, minute 0..59, second 0..59) and any value of `rand()`, the reply that
`miniStatement` formats for a transaction whose id was made by `getTranId` at
that time carries exactly that day, month, year, hour and minute, whatever the
seconds and the random suffix, and carries the absolute value of the stored
amount. -/
theorem timestamp_decomposition (env : Env) (usr : Acc) (amt : ℚ) (type : Int)
    (year month day hour minute second : Nat)
    (hy : 1000 ≤ year ∧ year ≤ 9999) (hm : 1 ≤ month ∧ month ≤ 12) (hd : 1 ≤ day ∧ day ≤ 31)
    (hh : hour ≤ 23) (hmi : minute ≤ 59) (hs : second ≤ 59)
    (htm : env.tm = { tm_year := (year : Int) - 1900, tm_mon := (month : Int) - 1,
                      tm_mday := day, tm_hour := hour, tm_min := minute, tm_sec := second }) :
    txnReply { amt := amt, id := getTranId env usr, type := type }
      = .txn type day month year hour minute |amt| := by
  have hts := getTimeStamp_calendar year month day hour minute second hy.2 hm.2 hd.2 hh hmi hs hm.1
  have hr : env.rand (usr.num % U32) % 1000 < 1000 := Nat.mod_lt _ (by decide)
  have habs : (if amt < 0 then -amt else amt) = |amt| := by
    split_ifs with h
    · exact (abs_of_neg h).symm
    · exact (abs_of_nonneg (not_lt.mp h)).symm
  have hid : getTranId env usr / 100000
      = year * 100000000 + month * 1000000 + day * 10000 + hour * 100 + minute := by
    simp only [getTranId, htm, hts, U64]
    generalize env.rand (usr.num % U32) % 1000 = r at hr
    have hlt : (year * 10000000000 + month * 100000000 + day * 1000000 + hour * 10000
        + minute * 100 + second) * 1000 + r < 2 ^ 64 := by omega
    rw [Nat.mod_eq_of_lt hlt]
    omega
  have hfmt : ∀ (x : ℚ) (n : Nat) (ty : Int), txnReply { amt := x, id := n, type := ty }
      = .txn ty (n / 100000 / 100 / 100 % 100) (n / 100000 / 100 / 100 / 100 % 100)
          (n / 100000 / 100 / 100 / 100 / 100 % U32) (n / 100000 / 100 % 100)
          (n / 100000 % 100) (if x < 0 then -x else x) := fun _ _ _ => rfl
  have h32 : U32 = 4294967296 := by norm_num [U32]
  rw [hfmt, hid, habs, h32]
  generalize hT : year * 100000000 + month * 1000000 + day * 10000 + hour * 100 + minute = T
  have e1 : T / 100 / 100 % 100 = day := by omega
  have e2 : T / 100 / 100 / 100 % 100 = month := by omega
  have e3 : T / 100 / 100 / 100 / 100 % 4294967296 = year := by omega
  have e4 : T / 100 % 100 = hour := by omega
  have e5 : T % 100 = minute := by omega
  rw [e1, e2, e3, e4, e5]

theorem timestamp_decomposition_witness :
    txnReply { amt := -250, id := getTranId env0 alice, type := WITHDRAW }
      = .txn WITHDRAW 15 5 2025 10 30 |(-250 : ℚ)| :=
  timestamp_decomposition env0 alice (-250) WITHDRAW 2025 5 15 10 30 45 (by decide) (by decide)
    (by decide) (by decide) (by decide) (by decide) (by decide)

/-! ## PIN change -/

theorem act_PIN (env : Env) (head : List Acc) (rfid pin : CStr) (hr : rfid.length = 8)
    (hp : pin.length = 4) :
    act env head (reqA2 "PIN".toList rfid pin)
      = (pinChange (deref head (getAcc head rfid)) pin).bind fun r =>
          some (writeBack head (getAcc head rfid) r.1,
            [.tx r.2, .saveData (writeBack head (getAcc head rfid) r.1)]) := by
  have h3 : ("PIN".toList).length = 3 := rfl
  have hl := reqA2_length _ rfid pin h3 hr
  have h4 : ((reqA2 "PIN".toList rfid pin).drop 16).take 4 = pin := by
    rw [reqA2_arg _ rfid pin h3 hr, List.take_left' hp]
  unfold act
  rw [if_neg (by omega)]
  simp only [reqA2_req _ rfid pin h3, reqA2_rfid _ rfid pin h3 hr, h4]
  rw [if_neg (by decide), if_neg (by decide), if_neg (by decide), if_neg (by decide),
    if_neg (by decide), if_pos trivial, if_neg (by omega)]

/-- C11: for an account found by its RFID, the request `#A:PIN:<rfid8>:<pin4>$`
is answered `@OK:DONE$` whatever the PIN stored before; afterwards the node of
that account is the old one with only its `pin` replaced by `<pin4>`, every
other node of the list is the same, and a following `#V:<rfid8>:<pin4>$` is
answered `@OK:MATCHED$`. -/
theorem pin_change_effect (env env1 : Env) (head : List Acc) (rfid pin : CStr) (i : Nat)
    (usr : Acc) (hr : rfid.length = 8) (hp : pin.length = 4)
    (hget : getAcc head rfid = some i) (husr : head[i]? = some usr) :
    handle env head (reqA2 "PIN".toList rfid pin)
        = some (head.set i { usr with pin := pin },
            [.tx .okDone, .saveData (head.set i { usr with pin := pin })])
      ∧ (head.set i { usr with pin := pin })[i]? = some { usr with pin := pin }
      ∧ (∀ j, j ≠ i → (head.set i { usr with pin := pin })[j]? = head[j]?)
      ∧ (head.set i { usr with pin := pin }).length = head.length
      ∧ handle env1 (head.set i { usr with pin := pin }) (reqV rfid pin)
          = some (head.set i { usr with pin := pin }, [.tx .okMatched]) := by
  have h1 : getAcc (head.set i { usr with pin := pin }) rfid = some i :=
    (getAcc_set (u := { usr with pin := pin }) rfid husr rfl).trans hget
  have h2 : (head.set i { usr with pin := pin })[i]? = some { usr with pin := pin } :=
    getElem?_set_same husr
  refine ⟨?_, h2, ?_, by simp, ?_⟩
  · rw [handle_reqA2, act_PIN env head rfid pin hr hp, deref_getAcc hget husr, hget]
    rfl
  · intro j hj
    simp [List.getElem?_set, Ne.symm hj]
  · rw [handle_reqV_found env1 pin hr hp h1 h2]
    simp

theorem pin_change_effect_witness :
    handle env0 [alice, bob] (reqA2 "PIN".toList "22222222".toList "9999".toList)
        = some ([alice, bob].set 1 { bob with pin := "9999".toList },
            [.tx .okDone, .saveData ([alice, bob].set 1 { bob with pin := "9999".toList })])
      ∧ ([alice, bob].set 1 { bob with pin := "9999".toList })[1]?
          = some { bob with pin := "9999".toList }
      ∧ (∀ j, j ≠ 1 → ([alice, bob].set 1 { bob with pin := "9999".toList })[j]?
          = [alice, bob][j]?)
      ∧ ([alice, bob].set 1 { bob with pin := "9999".toList }).length = [alice, bob].length
      ∧ handle env0 ([alice, bob].set 1 { bob with pin := "9999".toList })
          (reqV "22222222".toList "9999".toList)
          = some ([alice, bob].set 1 { bob with pin := "9999".toList }, [.tx .okMatched]) :=
  pin_change_effect env0 env0 [alice, bob] "22222222".toList "9999".toList 1 bob
    (by decide) (by decide) (by decide) (by decide)

/-! ## Replies and disk writes of the dispatcher -/

/-- The events of one call of `act`, by request code. -/
theorem act_shape {env : Env} {head head1 : List Acc} {buf : CStr} {evs : List Event}
    (h : act env head buf = some (head1, evs)) :
    (subOp buf ∈ savingCodes ∧ ∃ r, evs = [.tx r, .saveData head1]) ∨
    ((subOp buf = "BAL".toList ∨ subOp buf = "MST".toList) ∧ head1 = head ∧ ∃ r, evs = [.tx r]) ∨
    (subOp buf ∉ actCodes ∧ head1 = head ∧ evs = []) := by
  by_cases hlen : buf.length < 7
  · simp only [act, hlen, if_true] at h
    cases h
  simp only [act, hlen, if_false] at h
  unfold subOp
  split_ifs at h with h1 h2 h3 h4 h5 h6 h7 h8 h9
  · simp only [Option.bind_eq_some] at h
    obtain ⟨amt, -, ⟨u1, r⟩, -, hh⟩ := h
    simp only [Option.some.injEq, Prod.mk.injEq] at hh
    obtain ⟨rfl, rfl⟩ := hh
    exact Or.inl ⟨by rw [h1]; decide, r, rfl⟩
  · simp only [Option.bind_eq_some] at h
    obtain ⟨amt, -, ⟨u1, r⟩, -, hh⟩ := h
    simp only [Option.some.injEq, Prod.mk.injEq] at hh
    obtain ⟨rfl, rfl⟩ := hh
    exact Or.inl ⟨by rw [h2]; decide, r, rfl⟩
  · simp only [Option.bind_eq_some] at h
    obtain ⟨r, -, hh⟩ := h
    simp only [Option.some.injEq, Prod.mk.injEq] at hh
    obtain ⟨rfl, rfl⟩ := hh
    exact Or.inr (Or.inl ⟨Or.inl h3, rfl, r, rfl⟩)
  · simp only [Option.bind_eq_some] at h
    obtain ⟨r, -, hh⟩ := h
    simp only [Option.some.injEq, Prod.mk.injEq] at hh
    obtain ⟨rfl, rfl⟩ := hh
    exact Or.inr (Or.inl ⟨Or.inr h4, rfl, r, rfl⟩)
  · simp only [Option.some.injEq, Prod.mk.injEq] at h
    obtain ⟨rfl, rfl⟩ := h
    exact Or.inr (Or.inr ⟨by rw [h6]; decide, rfl, rfl⟩)
  · simp only [Option.bind_eq_some] at h
    obtain ⟨⟨u1, r⟩, -, hh⟩ := h
    simp only [Option.some.injEq, Prod.mk.injEq] at hh
    obtain ⟨rfl, rfl⟩ := hh
    exact Or.inl ⟨by rw [h7]; decide, r, rfl⟩
  · simp only [Option.bind_eq_some] at h
    obtain ⟨u, -, hh⟩ := h
    simp only [Option.some.injEq, Prod.mk.injEq] at hh
    obtain ⟨rfl, rfl⟩ := hh
    exact Or.inl ⟨by rw [h9]; decide, _, rfl⟩
  · simp only [Option.some.injEq, Prod.mk.injEq] at h
    obtain ⟨rfl, rfl⟩ := h
    refine Or.inr (Or.inr ⟨?_, rfl, rfl⟩)
    simp only [actCodes, List.mem_cons, List.mem_singleton, List.not_mem_nil, or_false]
    tauto

/-- The events of one handled line, by opcode. -/
theorem handle_shape {env : Env} {head head1 : List Acc} {buf : CStr} {evs : List Event}
    (h : handle env head buf = some (head1, evs)) :
    (isMsgOk buf = false ∧ head1 = head ∧ evs = []) ∨
    (isMsgOk buf = true ∧
      (((buf[1]? = some 'C' ∨ buf[1]? = some 'V' ∨ buf[1]? = some 'X') ∧ head1 = head
          ∧ ∃ r, evs = [.tx r]) ∨
       (buf[1]? = some 'A' ∧ act env head buf = some (head1, evs)) ∨
       (buf[1]? = some 'Q' ∧ head1 = head ∧ evs = [.saveData head, .saveFile head]) ∨
       (buf[1]? ≠ some 'C' ∧ buf[1]? ≠ some 'V' ∧ buf[1]? ≠ some 'A' ∧ buf[1]? ≠ some 'X'
          ∧ buf[1]? ≠ some 'Q' ∧ head1 = head ∧ evs = []))) := by
  unfold handle at h
  split_ifs at h with hok
  · have hok1 : isMsgOk buf = true := by simpa using hok
    refine Or.inr ⟨hok1, ?_⟩
    split at h
    · rename_i hc
      unfold checkRFID at h
      split_ifs at h
      dsimp only at h
      split at h
      · split_ifs at h <;> cases h <;> exact Or.inl ⟨Or.inl hc, rfl, _, rfl⟩
      · cases h; exact Or.inl ⟨Or.inl hc, rfl, _, rfl⟩
    · rename_i hc
      unfold verifyPin at h
      split_ifs at h
      dsimp only at h
      split at h
      · cases h
      · split_ifs at h <;> cases h <;> exact Or.inl ⟨Or.inr (Or.inl hc), rfl, _, rfl⟩
    · rename_i hc
      exact Or.inr (Or.inl ⟨hc, h⟩)
    · rename_i hc
      cases h; exact Or.inl ⟨Or.inr (Or.inr hc), rfl, _, rfl⟩
    · rename_i hc
      cases h; exact Or.inr (Or.inr (Or.inl ⟨hc, rfl, rfl⟩))
    · rename_i h1 h2 h3 h4 h5
      cases h
      exact Or.inr (Or.inr (Or.inr ⟨h1, h2, h3, h4, h5, rfl, rfl⟩))
  · cases h
    exact Or.inl ⟨by simpa using hok, rfl, rfl⟩

/-- C12 (as amended): for a well-formed line (first byte `#`, last byte `$`)
whose handling is defined, the dispatcher transmits at most one frame; it
transmits exactly one when the opcode is `C`, `V` or `X`, or when the opcode is
`A` and the request code is one of `WTD`, `DEP`, `BAL`, `MST`, `PIN`, `BLK`;
a line with opcode `A` and any other request code (`TNF` included), or with
an opcode other than `C`, `V`, `A`, `X`, gets no frame and leaves the account
list unchanged. Lines with opcode `C` or `X` are always handled. -/
theorem dispatcher_replies (env : Env) (head : List Acc) (buf : CStr)
    (hok : isMsgOk buf = true) :
    (∀ head1 evs, handle env head buf = some (head1, evs) →
      (replies evs).length ≤ 1
      ∧ ((buf[1]? = some 'C' ∨ buf[1]? = some 'V' ∨ buf[1]? = some 'X'
            ∨ (buf[1]? = some 'A' ∧ subOp buf ∈ actCodes)) → (replies evs).length = 1)
      ∧ ((buf[1]? = some 'A' ∧ subOp buf ∉ actCodes) → evs = [] ∧ head1 = head)
      ∧ ((buf[1]? ≠ some 'C' ∧ buf[1]? ≠ some 'V' ∧ buf[1]? ≠ some 'A' ∧ buf[1]? ≠ some 'X')
            → replies evs = [] ∧ head1 = head))
    ∧ ((buf[1]? = some 'C' ∨ buf[1]? = some 'X') →
        ∃ r, handle env head buf = some (head, [.tx r])) := by
  constructor
  · intro head1 evs h
    rcases handle_shape h with ⟨hbad, -, -⟩ | ⟨-, hc⟩
    · rw [hok] at hbad; cases hbad
    rcases hc with ⟨hop, rfl, r, rfl⟩ | ⟨hop, hact⟩ | ⟨hop, rfl, rfl⟩ | ⟨h1, h2, h3, h4, -, rfl, rfl⟩
    · refine ⟨le_refl _, fun _ => rfl, ?_, ?_⟩
      · rintro ⟨ha, -⟩
        rcases hop with hop | hop | hop <;> rw [hop] at ha <;> cases ha
      · rintro ⟨n1, n2, -, n4⟩
        rcases hop with hop | hop | hop <;> contradiction
    · have hneq : ∀ c : Char, c ≠ 'A' → buf[1]? ≠ some c := by
        intro c hc hb
        rw [hop] at hb
        exact hc (Option.some.inj hb).symm
      rcases act_shape hact with ⟨hs, r, rfl⟩ | ⟨hs, rfl, r, rfl⟩ | ⟨hs, rfl, rfl⟩
      · have hmem : subOp buf ∈ actCodes := by
          simp only [savingCodes, List.mem_cons, List.mem_singleton, List.not_mem_nil,
            or_false] at hs
          simp only [actCodes, List.mem_cons, List.mem_singleton, List.not_mem_nil, or_false]
          tauto
        refine ⟨le_refl _, fun _ => rfl, fun hn => absurd hmem hn.2, ?_⟩
        rintro ⟨-, -, n3, -⟩
        exact absurd hop n3
      · have hmem : subOp buf ∈ actCodes := by
          simp only [actCodes, List.mem_cons, List.mem_singleton, List.not_mem_nil, or_false]
          tauto
        refine ⟨le_refl _, fun _ => rfl, fun hn => absurd hmem hn.2, ?_⟩
        rintro ⟨-, -, n3, -⟩
        exact absurd hop n3
      · refine ⟨Nat.zero_le _, ?_, fun _ => ⟨rfl, rfl⟩, fun _ => ⟨rfl, rfl⟩⟩
        rintro (hq | hq | hq | ⟨-, hq⟩)
        · exact absurd hq (hneq _ (by decide))
        · exact absurd hq (hneq _ (by decide))
        · exact absurd hq (hneq _ (by decide))
        · exact absurd hq hs
    · have hneq : ∀ c : Char, c ≠ 'Q' → buf[1]? ≠ some c := by
        intro c hc hb
        rw [hop] at hb
        exact hc (Option.some.inj hb).symm
      refine ⟨Nat.zero_le _, ?_, ?_, fun _ => ⟨rfl, rfl⟩⟩
      · rintro (hq | hq | hq | ⟨hq, -⟩) <;> exact absurd hq (hneq _ (by decide))
      · rintro ⟨hq, -⟩
        exact absurd hq (hneq _ (by decide))
    · refine ⟨Nat.zero_le _, ?_, fun _ => ⟨rfl, rfl⟩, fun _ => ⟨rfl, rfl⟩⟩
      rintro (hq | hq | hq | ⟨hq, -⟩) <;> contradiction
  · intro hop
    have hok2 : ¬ ¬ isMsgOk buf = true := not_not.mpr hok
    rcases hop with hop | hop
    · have hlen : ¬ buf.length < 3 := by
        rcases buf with _ | ⟨a, _ | ⟨b, _ | ⟨c, t⟩⟩⟩
        · simp at hop
        · simp at hop
        · simp only [List.getElem?_cons_succ, List.getElem?_cons_zero, Option.some.injEq] at hop
          subst hop
          simp [isMsgOk] at hok
        · simp
      unfold handle
      rw [if_neg hok2, hop]
      simp only
      unfold checkRFID
      rw [if_neg hlen]
      dsimp only
      split
      · split_ifs
        · exact ⟨_, rfl⟩
        · exact ⟨_, rfl⟩
      · exact ⟨_, rfl⟩
    · unfold handle
      rw [if_neg hok2, hop]
      exact ⟨_, rfl⟩

theorem dispatcher_replies_witness :
    (∀ head1 evs, handle env0 [alice, bob] (reqA "BAL".toList "11111111".toList)
        = some (head1, evs) →
      (replies evs).length ≤ 1
      ∧ (((reqA "BAL".toList "11111111".toList)[1]? = some 'C'
            ∨ (reqA "BAL".toList "11111111".toList)[1]? = some 'V'
            ∨ (reqA "BAL".toList "11111111".toList)[1]? = some 'X'
            ∨ ((reqA "BAL".toList "11111111".toList)[1]? = some 'A'
                ∧ subOp (reqA "BAL".toList "11111111".toList) ∈ actCodes))
          → (replies evs).length = 1)
      ∧ (((reqA "BAL".toList "11111111".toList)[1]? = some 'A'
            ∧ subOp (reqA "BAL".toList "11111111".toList) ∉ actCodes)
          → evs = [] ∧ head1 = [alice, bob])
      ∧ (((reqA "BAL".toList "11111111".toList)[1]? ≠ some 'C'
            ∧ (reqA "BAL".toList "11111111".toList)[1]? ≠ some 'V'
            ∧ (reqA "BAL".toList "11111111".toList)[1]? ≠ some 'A'
            ∧ (reqA "BAL".toList "11111111".toList)[1]? ≠ some 'X')
          → replies evs = [] ∧ head1 = [alice, bob]))
    ∧ (((reqA "BAL".toList "11111111".toList)[1]? = some 'C'
          ∨ (reqA "BAL".toList "11111111".toList)[1]? = some 'X') →
        ∃ r, handle env0 [alice, bob] (reqA "BAL".toList "11111111".toList)
          = some ([alice, bob], [.tx r])) :=
  dispatcher_replies env0 [alice, bob] (reqA "BAL".toList "11111111".toList) (by decide)

/-- C12 (as stated) fails: the line `#A:TNF:11111111$` is well formed and has
the recognized opcode `A`, yet it is handled without any frame being sent. -/
theorem tnf_gets_no_reply :
    isMsgOk "#A:TNF:11111111$".toList = true
    ∧ "#A:TNF:11111111$".toList[1]? = some 'A'
    ∧ handle env0 [alice, bob] "#A:TNF:11111111$".toList = some ([alice, bob], []) := by
  decide

/-- The walk of `getAcc` ends on `NULL` and `verifyPin` reads `usr->pin` through
it: the handling of the request is undefined. -/
theorem verifyPin_unknown_rfid (env : Env) (head : List Acc) (rfid pin : CStr)
    (hr : rfid.length = 8) (hno : ∀ a ∈ head, a.rfid ≠ rfid) :
    handle env head (reqV rfid pin) = none := by
  have hl : ¬ (reqV rfid pin).length < 12 := by simp [reqV, hr]; omega
  rw [handle_reqV]
  unfold verifyPin
  rw [if_neg hl]
  simp only [reqV_rfid rfid pin hr, (getAcc_eq_none_iff head rfid).mpr hno]
  rfl

/-- C13 (code bug): the RFID `99999999` matches no account of the list, and the
PIN-verify request `#V:99999999:1234$` is not answered: `verifyPin` reads the
PIN through the `NULL` that `getAcc` returned, whereas `checkRFID` tests the
same pointer and answers `@ERR:INVALID$`. -/
theorem verify_unknown_card_undefined :
    getAcc [alice, bob] "99999999".toList = none
    ∧ handle env0 [alice, bob] (reqV "99999999".toList "1234".toList) = none
    ∧ handle env0 [alice, bob] (reqC "99999999".toList)
        = some ([alice, bob], [.tx .errInvalid]) := by
  decide

/-- Two calls of `getTranId` for one account under the same clock reading
return the same id: `srand(usr->num)` restarts the generator each time. -/
theorem getTranId_addTran (env : Env) (usr : Acc) (amt : ℚ) (type : Int) :
    getTranId env (addTran env usr amt type) = getTranId env usr := rfl

/-- C17 (code bug): two deposits on the account of `alice` handled within the
same second (same clock reading) leave two history entries, of amounts 20 and
10, with the same id 20250515103045106. -/
theorem same_second_ids_collide :
    (run [alice] [(env0, reqA2 "DEP".toList "11111111".toList "10".toList),
                  (env0, reqA2 "DEP".toList "11111111".toList "20".toList)]).map
        (fun r => r.1.map fun a => a.tranHist.map fun t => (t.id, t.amt))
      = some [[(20250515103045106, 20), (20250515103045106, 10)]] := by
  decide!

/-! ## Transfer -/

theorem modifyAt_eq {head : List Acc} {p : Nat} {a : Acc} (f : Acc → Acc)
    (h : head[p]? = some a) : Bank.modifyAt head p f = some (head.set p (f a)) := by
  simp [Bank.modifyAt, h]

/-- The list `transfer` leaves when it commits. -/
theorem transfer_commit (env1 env2 : Env) {head : List Acc} {i j : Nat} {f t : Acc} (amt : ℚ)
    (hf : head[i]? = some f) (ht : head[j]? = some t)
    (h0 : 0 < amt) (h1 : amt < 100000) (h2 : amt ≤ f.bal) :
    Bank.transfer env1 env2 head i j amt
      = some (if i = j then
          head.set i (addTran env2
            (addTran env1 { f with bal := f.bal - amt + amt } amt TRANSFER_IN)
            (-amt) TRANSFER_OUT)
        else
          (head.set i (addTran env2 { f with bal := f.bal - amt } (-amt) TRANSFER_OUT)).set j
            (addTran env1 { t with bal := t.bal + amt } amt TRANSFER_IN),
        .transfered) := by
  have hn : ¬ amt ≤ 0 := not_le.mpr h0
  have hm : amt < MAX_TRANSFER := by simpa [MAX_TRANSFER] using h1
  unfold Bank.transfer
  rw [hf, ht]
  dsimp only
  rw [if_neg hn, if_pos hm, if_pos h2]
  rw [modifyAt_eq _ hf]
  simp only [Option.some_bind]
  by_cases hij : i = j
  · subst hij
    have e1 := getElem?_set_same (u := { f with bal := f.bal - amt }) hf
    rw [modifyAt_eq _ e1]
    simp only [Option.some_bind, List.set_set]
    have e2 := getElem?_set_same (u := { f with bal := f.bal - amt + amt }) hf
    rw [modifyAt_eq _ e2]
    simp only [Option.some_bind, List.set_set]
    have e3 := getElem?_set_same
      (u := addTran env1 { f with bal := f.bal - amt + amt } amt TRANSFER_IN) hf
    rw [modifyAt_eq _ e3]
    simp only [Option.some_bind, List.set_set, if_true]
  · have e1 : (head.set i { f with bal := f.bal - amt })[j]? = some t := by
      simp [List.getElem?_set, hij, ht]
    rw [modifyAt_eq _ e1]
    simp only [Option.some_bind]
    have e2 := getElem?_set_same (u := { t with bal := t.bal + amt }) e1
    rw [modifyAt_eq _ e2]
    simp only [Option.some_bind, List.set_set]
    have e3 : ((head.set i { f with bal := f.bal - amt }).set j
        (addTran env1 { t with bal := t.bal + amt } amt TRANSFER_IN))[i]?
          = some { f with bal := f.bal - amt } := by
      rw [List.getElem?_set, if_neg (Ne.symm hij)]
      exact getElem?_set_same hf
    rw [modifyAt_eq _ e3]
    simp only [Option.some_bind, if_neg hij]
    rw [List.set_comm _ _ (n := j) (m := i) _ (fun h => hij h.symm), List.set_set]

/-- What `transfer` does when it does not commit. -/
theorem transfer_reject (env1 env2 : Env) {head : List Acc} {i j : Nat} {f t : Acc} (amt : ℚ)
    (hf : head[i]? = some f) (ht : head[j]? = some t)
    (h : ¬ (0 < amt ∧ amt < 100000 ∧ amt ≤ f.bal)) :
    ∃ m, Bank.transfer env1 env2 head i j amt = some (head, m) ∧ m ≠ .transfered := by
  unfold Bank.transfer
  rw [hf, ht]
  dsimp only
  by_cases h0 : amt ≤ 0
  · rw [if_pos h0]
    exact ⟨_, rfl, by decide⟩
  · rw [if_neg h0]
    by_cases h1 : amt < MAX_TRANSFER
    · rw [if_pos h1]
      have h2 : ¬ amt ≤ f.bal := fun h2 =>
        h ⟨not_le.mp h0, by simpa [MAX_TRANSFER] using h1, h2⟩
      rw [if_neg h2]
      exact ⟨_, rfl, by decide⟩
    · rw [if_neg h1]
      exact ⟨_, rfl, by decide⟩

/-- C20 (as amended): for two distinct accounts (sender at `i`, receiver at `j`)
and every amount `a`, `transfer` commits exactly when `0 < a < 100000` and
`a ≤` sender balance; when it commits, the sender balance decreases by `a`, the
receiver balance increases by `a`, the sender history gets a new head entry
`TRANSFER_OUT` of amount `-a`, the receiver history a new head entry
`TRANSFER_IN` of amount `+a`, and both counters grow by one (being below the
`u64` maximum); when it does not commit, the account list is unchanged. -/
theorem transfer_between_distinct (env1 env2 : Env) (head : List Acc) (i j : Nat) (f t : Acc)
    (amt : ℚ) (hij : i ≠ j) (hf : head[i]? = some f) (ht : head[j]? = some t)
    (hcf : f.tranCnt + 1 < U64) (hct : t.tranCnt + 1 < U64) :
    ((∃ head1, Bank.transfer env1 env2 head i j amt = some (head1, .transfered))
        ↔ (0 < amt ∧ amt < 100000 ∧ amt ≤ f.bal))
    ∧ ((0 < amt ∧ amt < 100000 ∧ amt ≤ f.bal) →
        ∃ head1 f1 t1 nf nt, Bank.transfer env1 env2 head i j amt = some (head1, .transfered)
          ∧ head1[i]? = some f1 ∧ head1[j]? = some t1
          ∧ (∀ k, k ≠ i → k ≠ j → head1[k]? = head[k]?)
          ∧ f1.bal = f.bal - amt ∧ t1.bal = t.bal + amt
          ∧ f1.tranHist = nf :: f.tranHist ∧ nf.type = TRANSFER_OUT ∧ nf.amt = -amt
          ∧ t1.tranHist = nt :: t.tranHist ∧ nt.type = TRANSFER_IN ∧ nt.amt = amt
          ∧ f1.tranCnt = f.tranCnt + 1 ∧ t1.tranCnt = t.tranCnt + 1)
    ∧ (¬ (0 < amt ∧ amt < 100000 ∧ amt ≤ f.bal) →
        ∃ m, Bank.transfer env1 env2 head i j amt = some (head, m) ∧ m ≠ .transfered) := by
  have hcommit : (0 < amt ∧ amt < 100000 ∧ amt ≤ f.bal) →
      Bank.transfer env1 env2 head i j amt
        = some ((head.set i (addTran env2 { f with bal := f.bal - amt } (-amt) TRANSFER_OUT)).set j
            (addTran env1 { t with bal := t.bal + amt } amt TRANSFER_IN), .transfered) := by
    rintro ⟨h0, h1, h2⟩
    rw [transfer_commit env1 env2 amt hf ht h0 h1 h2, if_neg hij]
  refine ⟨⟨?_, fun hc => ⟨_, hcommit hc⟩⟩, ?_, transfer_reject env1 env2 amt hf ht⟩
  · rintro ⟨head1, h⟩
    by_contra hc
    obtain ⟨m, hm, hne⟩ := transfer_reject env1 env2 amt hf ht hc
    rw [hm] at h
    simp only [Option.some.injEq, Prod.mk.injEq] at h
    exact hne h.2
  · intro hc
    have hi : i < head.length := by
      by_contra hn
      rw [List.getElem?_eq_none (by omega)] at hf
      cases hf
    have hj : j < head.length := by
      by_contra hn
      rw [List.getElem?_eq_none (by omega)] at ht
      cases ht
    refine ⟨_, addTran env2 { f with bal := f.bal - amt } (-amt) TRANSFER_OUT,
      addTran env1 { t with bal := t.bal + amt } amt TRANSFER_IN, _, _, hcommit hc, ?_, ?_, ?_,
      rfl, rfl, rfl, rfl, rfl, rfl, rfl, rfl, Nat.mod_eq_of_lt hcf, Nat.mod_eq_of_lt hct⟩
    · simp [List.getElem?_set, hij, Ne.symm hij, hi]
    · simp [List.getElem?_set, hj]
    · intro k hki hkj
      simp [List.getElem?_set, Ne.symm hki, Ne.symm hkj]

theorem transfer_between_distinct_witness :
    ((∃ head1, Bank.transfer env0 env0 [alice, bob] 0 1 100 = some (head1, .transfered))
        ↔ ((0 : ℚ) < 100 ∧ (100 : ℚ) < 100000 ∧ 100 ≤ alice.bal))
    ∧ (((0 : ℚ) < 100 ∧ (100 : ℚ) < 100000 ∧ 100 ≤ alice.bal) →
        ∃ head1 f1 t1 nf nt,
          Bank.transfer env0 env0 [alice, bob] 0 1 100 = some (head1, .transfered)
          ∧ head1[0]? = some f1 ∧ head1[1]? = some t1
          ∧ (∀ k, k ≠ 0 → k ≠ 1 → head1[k]? = [alice, bob][k]?)
          ∧ f1.bal = alice.bal - 100 ∧ t1.bal = bob.bal + 100
          ∧ f1.tranHist = nf :: alice.tranHist ∧ nf.type = TRANSFER_OUT ∧ nf.amt = -100
          ∧ t1.tranHist = nt :: bob.tranHist ∧ nt.type = TRANSFER_IN ∧ nt.amt = 100
          ∧ f1.tranCnt = alice.tranCnt + 1 ∧ t1.tranCnt = bob.tranCnt + 1)
    ∧ (¬ ((0 : ℚ) < 100 ∧ (100 : ℚ) < 100000 ∧ 100 ≤ alice.bal) →
        ∃ m, Bank.transfer env0 env0 [alice, bob] 0 1 100 = some ([alice, bob], m)
          ∧ m ≠ .transfered) :=
  transfer_between_distinct env0 env0 [alice, bob] 0 1 alice bob 100 (by decide) (by decide)
    (by decide) (by decide) (by decide)

/-- C20 (as stated) fails when sender and receiver are the same account: the
transfer of 100 from `alice` to `alice` commits, her balance stays 1000 instead
of decreasing by 100, and her counter grows by 2. -/
theorem transfer_to_self :
    Bank.transfer env0 env0 [alice, bob] 0 0 100
      = some ([{ alice with
                  bal := 1000
                  tranHist := [{ amt := -100, id := 20250515103045106, type := TRANSFER_OUT },
                               { amt := 100, id := 20250515103045106, type := TRANSFER_IN }]
                  tranCnt := 2 }, bob], .transfered) := by
  decide!

/-! ## Invariants of the balance and of the history -/

theorem modifyAt_some {head head1 : List Acc} {p : Nat} {f : Acc → Acc}
    (h : Bank.modifyAt head p f = some head1) :
    ∃ a, head[p]? = some a ∧ head1 = head.set p (f a) := by
  unfold Bank.modifyAt at h
  split at h
  · cases h
  · rename_i a ha
    cases h
    exact ⟨a, ha, rfl⟩

theorem mem_of_getElem?_eq {head : List Acc} {i : Nat} {a : Acc} (h : head[i]? = some a) :
    a ∈ head := List.mem_iff_getElem?.mpr ⟨i, h⟩

theorem forall_mem_set {P : Acc → Prop} {head : List Acc} {i : Nat} {u : Acc}
    (hP : ∀ a ∈ head, P a) (hu : P u) : ∀ a ∈ head.set i u, P a := by
  intro a ha
  rcases List.mem_or_eq_of_mem_set ha with h | h
  · exact hP a h
  · rw [h]; exact hu

theorem amountLoop_nonneg : ∀ (inp : List Bank.Tok) (flag : Nat) (d : ℚ) (rest : List Bank.Tok),
    Bank.amountLoop flag inp = some (d, rest) → 0 ≤ d := by
  intro inp
  induction inp with
  | nil => intro flag d rest h; simp [Bank.amountLoop] at h
  | cons tok inp ih =>
    intro flag d rest h
    cases tok with
    | line s => simp [Bank.amountLoop] at h
    | num n => simp [Bank.amountLoop] at h
    | key c => simp [Bank.amountLoop] at h
    | real x =>
      unfold Bank.amountLoop at h
      split_ifs at h with h0 h1
      · simp only [Option.some.injEq, Prod.mk.injEq] at h
        rw [← h.1]; exact le_of_lt h0
      · simp only [Option.some.injEq, Prod.mk.injEq] at h
        rw [← h.1]
      · exact ih _ _ _ h

/-- The list `newAcc` returns is the one it was given, or that list with one
new node in front whose history is the single entry of its balance. -/
theorem newAcc_shape {seed : Nat} {clock : List Env} {env : Env} {head head1 : List Acc}
    {inp rest : List Bank.Tok} (h : Bank.newAcc seed clock env head inp = some (head1, rest)) :
    head1 = head ∨ ∃ new : Acc, head1 = addTran env new new.bal DEPOSIT :: head
      ∧ 0 ≤ new.bal ∧ new.tranHist = [] ∧ new.tranCnt = 0 := by
  unfold Bank.newAcc at h
  simp only [Option.bind_eq_some] at h
  obtain ⟨num, -, ⟨name, inp1⟩, -, h⟩ := h
  dsimp only at h
  split_ifs at h
  · simp only [Option.some.injEq, Prod.mk.injEq] at h
    exact Or.inl h.1.symm
  · simp only [Option.bind_eq_some] at h
    obtain ⟨⟨phno, inp2⟩, -, ⟨usrName, inp3⟩, -, ⟨pass, inp4⟩, -, ⟨rfid, inp5⟩, -, ⟨pin, inp6⟩, -,
      ⟨bal, inp7⟩, hbal, h⟩ := h
    simp only [Option.some.injEq, Prod.mk.injEq] at h
    exact Or.inr ⟨_, h.1.symm, amountLoop_nonneg _ _ _ _ hbal, rfl, rfl⟩

/-- A property of single accounts that the credit and the debit of an amount
with its history entry, the self-transfer, the change of PIN or card state and
the creation keep, is kept by every operation on the list. -/
theorem applyOp_preserves (P : Acc → Prop)
    (hcredit : ∀ (env : Env) (a : Acc) (amt : ℚ) (ty : Int), P a → 0 < amt →
      P (addTran env { a with bal := a.bal + amt } amt ty))
    (hdebit : ∀ (env : Env) (a : Acc) (amt : ℚ) (ty : Int), P a → 0 < amt → amt ≤ a.bal →
      P (addTran env { a with bal := a.bal - amt } (-amt) ty))
    (hself : ∀ (env1 env2 : Env) (a : Acc) (amt : ℚ), P a → 0 < amt → amt ≤ a.bal →
      P (addTran env2 (addTran env1 { a with bal := a.bal - amt + amt } amt TRANSFER_IN)
          (-amt) TRANSFER_OUT))
    (hpin : ∀ (a : Acc) (pin : CStr), P a → P { a with pin := pin })
    (hblk : ∀ a : Acc, P a → P { a with cardStat := BLOCKED })
    (hnew : ∀ (env : Env) (a : Acc), 0 ≤ a.bal → a.tranHist = [] →
      P (addTran env a a.bal DEPOSIT))
    {head head1 : List Acc} {op : Op} (h : applyOp head op = some head1)
    (hP : ∀ a ∈ head, P a) : ∀ a ∈ head1, P a := by
  cases op with
  | link env buf =>
    simp only [applyOp, Option.map_eq_some', Prod.exists, exists_and_right, exists_eq_right] at h
    obtain ⟨evs, h⟩ := h
    rcases handle_cases h with ⟨rfl, -⟩ | h
    · exact hP
    obtain ⟨o1, rfl, hc⟩ := act_inv h
    cases hp : getAcc head ((buf.drop 7).take 8) with
    | none => exact hP
    | some i =>
      cases o1 with
      | none => exact hP
      | some u1 =>
        obtain ⟨u, hu, -⟩ := getAcc_some hp
        have hd : deref head (getAcc head ((buf.drop 7).take 8)) = some u := by
          simp [deref, hp, hu]
        have hPu : P u := hP u (mem_of_getElem?_eq hu)
        rw [hd] at hc
        apply forall_mem_set hP
        rcases hc with ⟨amt, r, hw, -⟩ | ⟨amt, r, hw, -⟩ | ⟨he, -⟩ | ⟨pin, r, hw, -⟩ |
          ⟨v, hv, he, -⟩
        · unfold withdraw at hw
          split_ifs at hw with h0 h1
          · cases hw; exact hPu
          · simp only at hw
            split_ifs at hw with h2
            · cases hw; exact hdebit _ _ _ _ hPu (not_le.mp h0) h2
            · cases hw; exact hPu
          · cases hw; exact hPu
        · unfold deposit at hw
          split_ifs at hw with h0 h1
          · cases hw; exact hPu
          · cases hw; exact hcredit _ _ _ _ hPu (not_le.mp h0)
          · cases hw; exact hPu
        · cases he; exact hPu
        · unfold pinChange at hw
          cases hw; exact hpin _ _ hPu
        · cases hv; cases he; exact hblk _ hPu
  | deposit env i amt =>
    obtain ⟨a, ha, rfl⟩ := modifyAt_some h
    have hPa : P a := hP a (mem_of_getElem?_eq ha)
    apply forall_mem_set hP
    unfold Bank.deposit
    split_ifs with h0 h1
    · exact hPa
    · exact hcredit _ _ _ _ hPa (not_le.mp h0)
    · exact hPa
  | withdraw env i amt =>
    obtain ⟨a, ha, rfl⟩ := modifyAt_some h
    have hPa : P a := hP a (mem_of_getElem?_eq ha)
    apply forall_mem_set hP
    unfold Bank.withdraw
    split_ifs with h0 h1 h2
    · exact hPa
    · exact hdebit _ _ _ _ hPa (not_le.mp h0) h2
    · exact hPa
    · exact hPa
  | transfer env1 env2 src dst amt =>
    simp only [applyOp, Option.map_eq_some', Prod.exists, exists_and_right, exists_eq_right] at h
    obtain ⟨m, h⟩ := h
    cases hf : head[src]? with
    | none => simp [Bank.transfer, hf] at h
    | some f =>
      cases ht : head[dst]? with
      | none => simp [Bank.transfer, hf, ht] at h
      | some t =>
        have hPf : P f := hP f (mem_of_getElem?_eq hf)
        have hPt : P t := hP t (mem_of_getElem?_eq ht)
        by_cases hc : 0 < amt ∧ amt < 100000 ∧ amt ≤ f.bal
        · obtain ⟨h0, h1, h2⟩ := hc
          rw [transfer_commit env1 env2 amt hf ht h0 h1 h2] at h
          simp only [Option.some.injEq, Prod.mk.injEq] at h
          rw [← h.1]
          split_ifs with hij
          · exact forall_mem_set hP (hself _ _ _ _ hPf h0 h2)
          · exact forall_mem_set (forall_mem_set hP (hdebit _ _ _ _ hPf h0 h2))
              (hcredit _ _ _ _ hPt h0)
        · obtain ⟨m1, hm, -⟩ := transfer_reject env1 env2 amt hf ht hc
          rw [hm] at h
          simp only [Option.some.injEq, Prod.mk.injEq] at h
          rw [← h.1]; exact hP
  | newAcc seed clock env inp =>
    simp only [applyOp, Option.map_eq_some', Prod.exists, exists_and_right, exists_eq_right] at h
    obtain ⟨rest, h⟩ := h
    rcases newAcc_shape h with rfl | ⟨new, rfl, hb, hh, -⟩
    · exact hP
    · intro a ha
      rcases List.mem_cons.mp ha with rfl | ha
      · exact hnew env new hb hh
      · exact hP a ha

theorem applyOps_preserves (P : Acc → Prop)
    (hstep : ∀ {head head1 : List Acc} {op : Op}, applyOp head op = some head1 →
      (∀ a ∈ head, P a) → ∀ a ∈ head1, P a) :
    ∀ (ops : List Op) (head head1 : List Acc), applyOps head ops = some head1 →
      (∀ a ∈ head, P a) → ∀ a ∈ head1, P a := by
  intro ops
  induction ops with
  | nil =>
    intro head head1 h hP
    simp only [applyOps, Option.some.injEq] at h
    rw [← h]; exact hP
  | cons op ops ih =>
    intro head head1 h hP
    simp only [applyOps, Option.bind_eq_some] at h
    obtain ⟨head2, h2, h3⟩ := h
    exact ih head2 head1 h3 (hstep h2 hP)

theorem sampleOps_result : applyOps [] sampleOps = some [carol] := by
  decide!

/-- C18: starting from an account list whose balances are all `≥ 0` (the empty
list, or accounts opened with a positive amount), after any sequence of
operations - lines handled by the account server, console deposits,
withdraws and transfers with arbitrary amounts, committed or rejected, and
account creations - the balance of every account is `≥ 0`. -/
theorem balance_never_negative (head : List Acc) (ops : List Op) (head1 : List Acc)
    (hP : ∀ a ∈ head, 0 ≤ a.bal) (h : applyOps head ops = some head1) :
    ∀ a ∈ head1, 0 ≤ a.bal := by
  refine applyOps_preserves (fun a => 0 ≤ a.bal) ?_ ops head head1 h hP
  intro head head1 op h1 hP1
  refine applyOp_preserves (fun a => 0 ≤ a.bal) ?_ ?_ ?_ ?_ ?_ ?_ h1 hP1
  · intro env a amt ty ha h0
    show 0 ≤ a.bal + amt
    linarith
  · intro env a amt ty ha h0 h2
    show 0 ≤ a.bal - amt
    linarith
  · intro env1 env2 a amt ha h0 h2
    show 0 ≤ a.bal - amt + amt
    linarith
  · intro a pin ha; exact ha
  · intro a ha; exact ha
  · intro env a hb _; exact hb

theorem balance_never_negative_witness :
    (∀ a ∈ ([] : List Acc), 0 ≤ a.bal) ∧ applyOps [] sampleOps = some [carol]
      ∧ ∀ a ∈ [carol], 0 ≤ a.bal :=
  ⟨by simp, by decide!, balance_never_negative [] sampleOps [carol] (by simp) (by decide!)⟩

theorem histSum_cons (t : Tran) (h : List Tran) : histSum (t :: h) = t.amt + histSum h := by
  simp [histSum]

/-- C19: starting from an account list in which the amounts of every history
sum to the balance (the empty list, or accounts as `newAcc` creates them, with
the opening amount as first entry), after any sequence of operations - account
creations, lines handled by the account server, console deposits, withdraws
and transfers - the sum of the amounts over the history of every account
equals its balance, amounts being exact numbers. -/
theorem history_sums_to_balance (head : List Acc) (ops : List Op) (head1 : List Acc)
    (hP : ∀ a ∈ head, histSum a.tranHist = a.bal) (h : applyOps head ops = some head1) :
    ∀ a ∈ head1, histSum a.tranHist = a.bal := by
  refine applyOps_preserves (fun a => histSum a.tranHist = a.bal) ?_ ops head head1 h hP
  intro head head1 op h1 hP1
  refine applyOp_preserves (fun a => histSum a.tranHist = a.bal) ?_ ?_ ?_ ?_ ?_ ?_ h1 hP1
  · intro env a amt ty ha h0
    show histSum (_ :: a.tranHist) = a.bal + amt
    rw [histSum_cons, ha]
    exact add_comm _ _
  · intro env a amt ty ha h0 h2
    show histSum (_ :: a.tranHist) = a.bal - amt
    rw [histSum_cons, ha]
    show -amt + a.bal = a.bal - amt
    ring
  · intro env1 env2 a amt ha h0 h2
    show histSum (_ :: _ :: a.tranHist) = a.bal - amt + amt
    rw [histSum_cons, histSum_cons, ha]
    show -amt + (amt + a.bal) = a.bal - amt + amt
    ring
  · intro a pin ha; exact ha
  · intro a ha; exact ha
  · intro env a hb hh
    show histSum (_ :: a.tranHist) = a.bal
    rw [histSum_cons, hh]
    show a.bal + histSum [] = a.bal
    simp [histSum]

theorem history_sums_to_balance_witness :
    (∀ a ∈ ([] : List Acc), histSum a.tranHist = a.bal) ∧ applyOps [] sampleOps = some [carol]
      ∧ ∀ a ∈ [carol], histSum a.tranHist = a.bal :=
  ⟨by simp, by decide!, history_sums_to_balance [] sampleOps [carol] (by simp) (by decide!)⟩

/-! ## Load after save (`syncData` after `saveData`) -/

theorem digitChar_spec (d : Nat) (h : d < 10) :
    (Nat.digitChar d).isDigit = true ∧ (Nat.digitChar d).toNat - 48 = d
      ∧ isSpace (Nat.digitChar d) = false ∧ Nat.digitChar d ≠ '-' ∧ Nat.digitChar d ≠ '+' := by
  interval_cases d <;> decide

theorem toDigitsCore_spec : ∀ (fuel n : Nat) (acc : CStr), n < fuel →
    ∃ ds, Nat.toDigitsCore 10 fuel n acc = ds ++ acc ∧ IsDecimal ds n := by
  intro fuel
  induction fuel with
  | zero => intro n acc h; omega
  | succ fuel ih =>
    intro n acc hn
    obtain ⟨hd1, hd2, hd3, hd4, hd5⟩ := digitChar_spec (n % 10) (Nat.mod_lt _ (by decide))
    unfold Nat.toDigitsCore
    by_cases hq : n / 10 = 0
    · simp only [hq, if_true]
      refine ⟨[Nat.digitChar (n % 10)], rfl, by simp, ?_, ?_⟩
      · intro c hc
        rw [List.mem_singleton] at hc
        subst hc
        exact ⟨hd1, hd3, hd4, hd5⟩
      · intro a
        simp only [List.foldl_cons, List.foldl_nil, List.length_singleton, pow_one, hd2]
        omega
    · simp only [hq, if_false]
      obtain ⟨ds, hds, hne, hall, hval⟩ := ih (n / 10) (Nat.digitChar (n % 10) :: acc) (by omega)
      refine ⟨ds ++ [Nat.digitChar (n % 10)], by rw [hds]; simp, by simp, ?_, ?_⟩
      · intro c hc
        rcases List.mem_append.mp hc with hc | hc
        · exact hall c hc
        · rw [List.mem_singleton] at hc
          subst hc
          exact ⟨hd1, hd3, hd4, hd5⟩
      · intro a
        rw [List.foldl_append, hval a]
        simp only [List.foldl_cons, List.foldl_nil, hd2, List.length_append,
          List.length_singleton, pow_succ]
        have := Nat.div_add_mod n 10
        nlinarith [this]

theorem printU_spec (n : Nat) : IsDecimal (printU n) n := by
  obtain ⟨ds, hds, h⟩ := toDigitsCore_spec (n + 1) n [] (Nat.lt_succ_self n)
  unfold printU Nat.toDigits
  rw [hds, List.append_nil]
  exact h

theorem IsDecimal.val {ds : CStr} {n : Nat} (h : IsDecimal ds n) : valDigits ds = n := by
  have := h.2.2 0
  simpa [valDigits] using this

theorem digitRun_append {ds : CStr} {n : Nat} (h : IsDecimal ds n) (c : Char) (rest : CStr)
    (hc : c.isDigit = false) : digitRun (ds ++ c :: rest) = (ds, c :: rest) := by
  have hall : ∀ a ∈ ds, a.isDigit = true := fun a ha => (h.2.1 a ha).1
  unfold digitRun
  rw [List.takeWhile_append_of_pos hall, List.dropWhile_append_of_pos hall]
  simp [List.takeWhile_cons, List.dropWhile_cons, hc]

theorem skipWs_decimal {ds : CStr} {n : Nat} (h : IsDecimal ds n) (rest : CStr) :
    skipWs (ds ++ rest) = ds ++ rest := by
  obtain ⟨hne, hall, -⟩ := h
  cases ds with
  | nil => exact absurd rfl hne
  | cons d ds =>
    have := (hall d (List.mem_cons_self _ _)).2.1
    simp [skipWs, List.dropWhile_cons, this]

/-- Reading `%llu` on what `%llu` printed, when a non-digit follows. -/
theorem scanU_printU (n : Nat) (c : Char) (rest : CStr) (hn : n < U64)
    (hc : c.isDigit = false) : scanU (printU n ++ c :: rest) = .ok n (c :: rest) := by
  have h := printU_spec n
  have hrun := digitRun_append h c rest hc
  obtain ⟨hne, hall, -⟩ := id h
  unfold scanU
  rw [skipWs_decimal h]
  cases hp : printU n with
  | nil => exact absurd hp hne
  | cons d ds =>
    rw [hp] at hrun h
    have hd := hall d (by rw [hp]; exact List.mem_cons_self _ _)
    have e1 : d ≠ '-' := hd.2.2.1
    have e2 : d ≠ '+' := hd.2.2.2
    simp only [List.cons_append] at hrun ⊢
    split
    · rename_i heq
      simp only [List.cons.injEq] at heq
      exact absurd heq.1 e1
    · rename_i heq
      simp only [List.cons.injEq] at heq
      exact absurd heq.1 e2
    · simp only [hrun, h.val, if_pos hn]
      simp

theorem scanD_printD (z : Int) (rest : CStr) (h1 : -2147483648 ≤ z) (h2 : z < 2147483648) :
    scanD (printD z ++ ',' :: rest) = .ok z (',' :: rest) := by
  have h := printU_spec z.natAbs
  have hrun := digitRun_append h ',' rest (by decide)
  obtain ⟨hne, hall, -⟩ := id h
  have hv := h.val
  unfold printU at h hrun hne hall hv
  unfold scanD printD
  by_cases hz : z < 0
  · rw [if_pos hz]
    have hs : skipWs ('-' :: Nat.toDigits 10 z.natAbs ++ ',' :: rest)
        = '-' :: (Nat.toDigits 10 z.natAbs ++ ',' :: rest) := by
      simp [skipWs, List.dropWhile_cons, isSpace]
    rw [hs]
    simp only [hrun, hv]
    rw [if_neg hne, if_pos (by omega)]
    congr 1
    omega
  · rw [if_neg hz, skipWs_decimal h]
    cases hp : Nat.toDigits 10 z.natAbs with
    | nil => exact absurd hp hne
    | cons d ds =>
      rw [hp] at hrun hv
      have hd := hall d (by rw [hp]; exact List.mem_cons_self _ _)
      have e1 : d ≠ '-' := hd.2.2.1
      have e2 : d ≠ '+' := hd.2.2.2
      simp only [List.cons_append] at hrun ⊢
      split
      · rename_i heq
        simp only [List.cons.injEq] at heq
        exact absurd heq.1 e1
      · rename_i heq
        simp only [List.cons.injEq] at heq
        exact absurd heq.1 e2
      · simp only [hrun, hv]
        rw [if_neg (by simp), if_pos (by omega)]
        congr 1
        omega

theorem roundHalfEven_natCast (m : Nat) : roundHalfEven (m : ℚ) = m := by
  have hf : (m : ℚ).floor = (m : Int) := by
    show ⌊(m : ℚ)⌋ = (m : Int)
    exact Int.floor_natCast m
  unfold roundHalfEven
  simp only [hf, Int.toNat_natCast, sub_self]
  rw [if_pos (by norm_num)]

theorem pad6_spec (m : Nat) (hm : m < 1000000) : IsDecimal (pad6 m) m ∧ (pad6 m).length = 6 := by
  obtain ⟨hne, hall, hval⟩ := printU_spec m
  unfold printU at hne hall hval
  have hlen : (Nat.toDigits 10 m).length ≤ 6 :=
    Nat.toDigitsCore_length 10 (by decide) (m + 1) m 6 (by simpa using hm) (by decide)
  have hz : ∀ (k acc : Nat) (l : CStr),
      (List.replicate k '0' ++ l).foldl (fun a c => a * 10 + (c.toNat - 48)) acc
        = l.foldl (fun a c => a * 10 + (c.toNat - 48)) (acc * 10 ^ k) := by
    intro k
    induction k with
    | zero => intro acc l; simp
    | succ k ih =>
      intro acc l
      rw [List.replicate_succ, List.cons_append, List.foldl_cons, ih]
      congr 1
      have : ('0' : Char).toNat - 48 = 0 := by decide
      rw [this, pow_succ]
      ring
  have hl : (pad6 m).length = 6 := by
    unfold pad6
    rw [List.length_append, List.length_replicate]
    omega
  refine ⟨⟨?_, ?_, ?_⟩, hl⟩
  · intro h0
    rw [h0] at hl
    exact absurd hl (by decide)
  · intro c hc
    unfold pad6 at hc
    rcases List.mem_append.mp hc with hc | hc
    · rw [List.eq_of_mem_replicate hc]
      decide
    · exact hall c hc
  · intro acc
    rw [hl]
    unfold pad6
    rw [hz, hval]
    have e : 6 = (6 - (Nat.toDigits 10 m).length) + (Nat.toDigits 10 m).length := by omega
    conv_rhs => rw [e, pow_add]
    ring

theorem digitRun_decimal {ds : CStr} {n : Nat} (h : IsDecimal ds n) (c : Char) (rest : CStr)
    (hc : c.isDigit = false) :
    (digitRun (ds ++ c :: rest)).1 = ds ∧ (digitRun (ds ++ c :: rest)).2 = c :: rest := by
  rw [digitRun_append h c rest hc]
  exact ⟨rfl, rfl⟩

theorem scanDec_print (m : Nat) (c : Char) (rest : CStr) (hc : c.isDigit = false) :
    scanDec (Nat.toDigits 10 (m / 1000000) ++ '.' :: (pad6 (m % 1000000) ++ c :: rest))
      = .ok ((m : ℚ) / 1000000) (c :: rest) := by
  have hD := printU_spec (m / 1000000)
  unfold printU at hD
  obtain ⟨hP, hPl⟩ := pad6_spec (m % 1000000) (Nat.mod_lt _ (by decide))
  have h1 := digitRun_append hD '.' (pad6 (m % 1000000) ++ c :: rest) (by decide)
  have h2 := digitRun_append hP c rest hc
  unfold scanDec
  simp only [h1, h2]
  rw [if_neg (fun h => hD.1 h.1), hD.val, hP.val, hPl]
  congr 1
  have := Nat.div_add_mod m 1000000
  have e : (m : ℚ) = ((1000000 * (m / 1000000) + m % 1000000 : Nat) : ℚ) := by rw [this]
  rw [e]
  push_cast
  field_simp
  ring

theorem scanLf_printLf (x : ℚ) (rest : CStr) (hx : SixDecimals x) :
    scanLf (printLf x ++ ',' :: rest) = .ok x (',' :: rest) := by
  have hk : ((x * 1000000).num : ℚ) = x * 1000000 := Rat.coe_int_num_of_den_eq_one hx
  obtain ⟨m, hm⟩ : ∃ m : Nat, |x| * 1000000 = (m : ℚ) := by
    refine ⟨(x * 1000000).num.natAbs, ?_⟩
    have : |x| * 1000000 = |x * 1000000| := by rw [abs_mul]; norm_num
    rw [this, Nat.cast_natAbs, Int.cast_abs, hk]
  have hxm : |x| = (m : ℚ) / 1000000 := by
    rw [← hm]; field_simp
  have hD := printU_spec (m / 1000000)
  unfold printU at hD
  have hdec := scanDec_print m ',' rest (by decide)
  unfold printLf scanLf
  simp only [hm, roundHalfEven_natCast]
  by_cases hneg : x < 0
  · rw [if_pos hneg]
    have hs : skipWs (['-'] ++ Nat.toDigits 10 (m / 1000000)
          ++ '.' :: pad6 (m % 1000000) ++ ',' :: rest)
        = '-' :: (Nat.toDigits 10 (m / 1000000)
          ++ '.' :: (pad6 (m % 1000000) ++ ',' :: rest)) := by
      simp [skipWs, List.dropWhile_cons, isSpace]
    rw [hs]
    simp only [hdec, Scan.bind]
    congr 1
    rw [← hxm, abs_of_neg hneg, neg_neg]
  · rw [if_neg hneg]
    have hs : [] ++ Nat.toDigits 10 (m / 1000000) ++ '.' :: pad6 (m % 1000000) ++ ',' :: rest
        = Nat.toDigits 10 (m / 1000000) ++ '.' :: (pad6 (m % 1000000) ++ ',' :: rest) := by
      simp
    rw [hs, skipWs_decimal hD]
    obtain ⟨hne, hall, -⟩ := id hD
    cases hp : Nat.toDigits 10 (m / 1000000) with
    | nil => exact absurd hp hne
    | cons d ds =>
      have hd := hall d (by rw [hp]; exact List.mem_cons_self _ _)
      have e1 : d ≠ '-' := hd.2.2.1
      have e2 : d ≠ '+' := hd.2.2.2
      rw [hp] at hdec
      simp only [List.cons_append] at hdec ⊢
      split
      · rename_i heq
        simp only [List.cons.injEq] at heq
        exact absurd heq.1 e1
      · rename_i heq
        simp only [List.cons.injEq] at heq
        exact absurd heq.1 e2
      · rw [hdec]
        congr 1
        rw [← hxm]
        exact abs_of_nonneg (not_lt.mp hneg)

theorem scanSet_field (cap : Nat) (f rest : CStr) (h : FieldOk cap f) :
    scanSet cap (f ++ ',' :: rest) = .ok f (',' :: rest) := by
  obtain ⟨hne, hc, hl⟩ := h
  have hall : ∀ a ∈ f, (decide (a ≠ ',')) = true := by
    intro a ha
    simp only [decide_eq_true_eq]
    intro e
    exact hc (e ▸ ha)
  have h1 : (f ++ ',' :: rest).takeWhile (fun c => decide (c ≠ ',')) = f := by
    rw [List.takeWhile_append_of_pos hall]
    simp [List.takeWhile_cons]
  have h2 : (f ++ ',' :: rest).dropWhile (fun c => decide (c ≠ ',')) = ',' :: rest := by
    rw [List.dropWhile_append_of_pos hall]
    simp [List.dropWhile_cons]
  unfold scanSet
  simp only [h1, h2]
  rw [if_neg hne, if_pos hl]

theorem skipWs_newline (s : CStr) : skipWs ('\n' :: s) = skipWs s := by
  simp [skipWs, List.dropWhile_cons, isSpace]

theorem skipWs_skipWs (s : CStr) : skipWs (skipWs s) = skipWs s :=
  List.dropWhile_idempotent _ _

theorem skipWs_scanTail (bank : Bool) (s : CStr) :
    skipWs (scanTail bank ('\n' :: s)) = skipWs s := by
  cases bank
  · simp only [scanTail, Bool.false_eq_true, if_false]
    exact skipWs_newline s
  · simp only [scanTail, if_true]
    rw [skipWs_skipWs, skipWs_newline]

theorem scanU_skipWs (s : CStr) : scanU (skipWs s) = scanU s := by
  unfold scanU
  rw [skipWs_skipWs]

theorem scanAcc_skipWs (bank : Bool) (cap : Nat) (s : CStr) :
    scanAcc bank cap (skipWs s) = scanAcc bank cap s := by
  unfold scanAcc
  rw [scanU_skipWs]

theorem scanTran_skipWs (bank : Bool) (s : CStr) : scanTran bank (skipWs s) = scanTran bank s := by
  unfold scanTran
  rw [scanU_skipWs]

theorem syncTrans_skipWs (bank : Bool) (fuel : Nat) (s : CStr) :
    syncTrans bank fuel (skipWs s) = syncTrans bank fuel s := by
  cases fuel with
  | zero => rfl
  | succ fuel => simp only [syncTrans, scanTran_skipWs]

theorem syncLoop_skipWs (bank : Bool) (cap : Nat) (stmt : Nat → Option CStr) (fuel : Nat)
    (s : CStr) : syncLoop bank cap stmt fuel (skipWs s) = syncLoop bank cap stmt fuel s := by
  cases fuel with
  | zero => rfl
  | succ fuel => simp only [syncLoop, scanAcc_skipWs]

theorem syncTrans_scanTail (bank : Bool) (fuel : Nat) (s : CStr) :
    syncTrans bank fuel (scanTail bank ('\n' :: s)) = syncTrans bank fuel s := by
  rw [← syncTrans_skipWs, skipWs_scanTail, syncTrans_skipWs]

theorem syncLoop_scanTail (bank : Bool) (cap : Nat) (stmt : Nat → Option CStr) (fuel : Nat)
    (s : CStr) :
    syncLoop bank cap stmt fuel (scanTail bank ('\n' :: s)) = syncLoop bank cap stmt fuel s := by
  rw [← syncLoop_skipWs, skipWs_scanTail, syncLoop_skipWs]

theorem FieldOk.mono {cap cap1 : Nat} {f : CStr} (h : FieldOk cap f) (hc : cap ≤ cap1) :
    FieldOk cap1 f :=
  ⟨h.1, h.2.1, lt_of_lt_of_le h.2.2 hc⟩

/-- One line of `Db.csv` read back by one call of `fscanf`. -/
theorem scanAcc_accLine (bank : Bool) (cap : Nat) (a : Acc) (rest : CStr) (h : AccOk a)
    (hcap : 30 ≤ cap) :
    scanAcc bank cap (accLine a ++ rest)
      = .ok { a with tranHist := [] } (scanTail bank ('\n' :: rest)) := by
  obtain ⟨h1, h2, h3, h4, h5, h6, h7, h8, h9, -, h11, h12⟩ := h
  replace h1 : a.num < U64 := lt_trans h1 (by decide)
  have hcnt : a.tranCnt < U64 := by
    rw [h12]
    exact lt_trans h11 (by decide)
  have e : accLine a ++ rest
      = printU a.num ++ ',' :: (a.name ++ ',' :: (printU a.phno ++ ',' :: (a.usrName ++ ',' ::
        (a.pass ++ ',' :: (a.rfid ++ ',' :: (a.pin ++ ',' :: (printD a.cardStat ++ ',' ::
        (printLf a.bal ++ ',' :: (printU a.tranCnt ++ '\n' :: rest))))))))) := by
    simp [accLine, List.append_assoc]
  rw [e]
  unfold scanAcc
  simp only [scanU_printU a.num ',' _ h1 (by decide), Scan.bind, scanComma,
    scanSet_field _ _ _ (h3.mono hcap), scanU_printU a.phno ',' _ h2 (by decide),
    scanSet_field _ _ _ h4, scanSet_field _ _ _ h5, scanSet_field _ _ _ h6,
    scanSet_field _ _ _ h7, scanD_printD _ _ h8.1 h8.2, scanLf_printLf _ _ h9,
    scanU_printU a.tranCnt '\n' _ hcnt (by decide)]

/-- One line of `<num>.csv` read back by one call of `fscanf`. -/
theorem scanTran_tranLine (bank : Bool) (t : Tran) (rest : CStr) (h : TranOk t) :
    scanTran bank (tranLine t ++ rest) = .ok t (scanTail bank ('\n' :: rest)) := by
  obtain ⟨h1, h2, h3⟩ := h
  have e : tranLine t ++ rest
      = printU t.id ++ ',' :: (printLf t.amt ++ ',' :: printC t.type :: '\n' :: rest) := by
    simp [tranLine, List.append_assoc]
  have hc : toChar8 (printC t.type).toNat = t.type := by
    rcases h3 with h3 | h3 | h3 | h3 <;> rw [h3] <;> decide
  rw [e]
  unfold scanTran
  simp only [scanU_printU t.id ',' _ h1 (by decide), Scan.bind, scanComma,
    scanLf_printLf _ _ h2, scanC, hc]

theorem tranLine_ne_nil (t : Tran) : tranLine t ≠ [] := by
  unfold tranLine
  cases printU t.id <;> simp

theorem tranLines_length (h : List Tran) : h.length ≤ (tranLines h).length := by
  induction h with
  | nil => simp
  | cons t h ih =>
    have := List.length_pos.mpr (tranLine_ne_nil t)
    simp only [tranLines, List.length_cons, List.length_append]
    omega

theorem accLine_ne_nil (a : Acc) : accLine a ≠ [] := by
  unfold accLine
  cases printU a.num <;> simp

theorem dbLines_length (l : List Acc) : l.length ≤ (dbLines l).length := by
  induction l with
  | nil => simp
  | cons a l ih =>
    have := List.length_pos.mpr (accLine_ne_nil a)
    simp only [dbLines, List.length_cons, List.length_append]
    omega

/-- The file `<num>.csv` of a history read back: the loop returns and gives the
same nodes in the same order. -/
theorem syncTrans_tranLines (bank : Bool) : ∀ (h : List Tran) (fuel : Nat),
    (∀ t ∈ h, TranOk t) → h.length < fuel → syncTrans bank fuel (tranLines h) = some h := by
  intro h
  induction h with
  | nil =>
    intro fuel _ hf
    cases fuel with
    | zero => omega
    | succ fuel => rfl
  | cons t h ih =>
    intro fuel hall hf
    cases fuel with
    | zero => omega
    | succ fuel =>
      simp only [syncTrans, tranLines,
        scanTran_tranLine bank t _ (hall t (List.mem_cons_self _ _)), syncTrans_scanTail]
      rw [ih fuel (fun u hu => hall u (List.mem_cons_of_mem _ hu))
        (by simpa using hf)]
      rfl

/-- The file name of an account number of at most 16 digits fits `spName[30]`
with its terminator. -/
theorem spName_fits (n : Nat) (h : n < 10 ^ 16) : (spName n).length < 30 := by
  have hlen : (Nat.toDigits 10 n).length ≤ 16 :=
    Nat.toDigitsCore_length 10 (by decide) (n + 1) n 16 (by simpa using h) (by decide)
  unfold spName printU
  simp only [List.length_append]
  have e1 : "../dataz/".toList.length = 9 := by decide
  have e2 : ".csv".toList.length = 4 := by decide
  omega

theorem loadHist_saved (bank : Bool) (stmt : Nat → Option CStr) (a : Acc) (h : AccOk a)
    (hs : stmt a.num = some (tranLines a.tranHist)) :
    loadHist bank stmt { a with tranHist := [] } = some a := by
  obtain ⟨h1, -, -, -, -, -, -, -, -, h10, h11, h12⟩ := h
  unfold loadHist
  simp only [hs, if_pos (spName_fits a.num h1)]
  rw [syncTrans_tranLines bank a.tranHist _ h10
    (Nat.lt_succ_of_le (tranLines_length a.tranHist))]
  simp only [Option.some_bind]
  rw [if_pos h11, ← h12]

/-- The file `Db.csv` of a list read back, the files `<num>.csv` being those of
its accounts: the loop returns and gives the same accounts in the same order. -/
theorem syncLoop_dbLines (bank : Bool) (cap : Nat) (stmt : Nat → Option CStr) (hcap : 30 ≤ cap) :
    ∀ (l : List Acc) (fuel : Nat),
    (∀ a ∈ l, AccOk a ∧ stmt a.num = some (tranLines a.tranHist)) → l.length < fuel →
    syncLoop bank cap stmt fuel (dbLines l) = some l := by
  intro l
  induction l with
  | nil =>
    intro fuel _ hf
    cases fuel with
    | zero => omega
    | succ fuel => rfl
  | cons a l ih =>
    intro fuel hall hf
    obtain ⟨ha, hs⟩ := hall a (List.mem_cons_self _ _)
    cases fuel with
    | zero => omega
    | succ fuel =>
      simp only [syncLoop, dbLines, scanAcc_accLine bank cap a _ ha hcap, syncLoop_scanTail,
        loadHist_saved bank stmt a ha hs, Option.some_bind]
      rw [ih fuel (fun u hu => hall u (List.mem_cons_of_mem _ hu)) (by simpa using hf)]
      rfl

theorem saveLoop_savedDisk : ∀ (l : List Acc) (d : Disk), (∀ a ∈ l, a.num < 10 ^ 16) →
    saveLoop l d = some (savedDisk l d) := by
  intro l
  induction l with
  | nil => intro d _; rfl
  | cons a l ih =>
    intro d h
    simp only [saveLoop, savedDisk]
    rw [if_pos (spName_fits a.num (h a (List.mem_cons_self _ _)))]
    exact ih _ fun b hb => h b (List.mem_cons_of_mem _ hb)

theorem savedDisk_db : ∀ (l : List Acc) (d : Disk) (s : CStr), d.db = some s →
    (savedDisk l d).db = some (s ++ dbLines l) := by
  intro l
  induction l with
  | nil => intro d s h; simpa [savedDisk, dbLines] using h
  | cons a l ih =>
    intro d s h
    simp only [savedDisk, dbLines]
    rw [ih _ (s ++ accLine a) (by simp [h]), List.append_assoc]

theorem savedDisk_stmt_other : ∀ (l : List Acc) (d : Disk) (n : Nat),
    n ∉ l.map (fun a => a.num) → (savedDisk l d).stmt n = d.stmt n := by
  intro l
  induction l with
  | nil => intro d n _; rfl
  | cons a l ih =>
    intro d n h
    simp only [List.map_cons, List.mem_cons, not_or] at h
    simp only [savedDisk]
    rw [ih _ n h.2]
    simp only [if_neg h.1]

theorem savedDisk_stmt : ∀ (l : List Acc) (d : Disk), (l.map fun a => a.num).Nodup →
    ∀ a ∈ l, (savedDisk l d).stmt a.num = some (tranLines a.tranHist) := by
  intro l
  induction l with
  | nil => intro d _ a ha; exact absurd ha (List.not_mem_nil a)
  | cons b l ih =>
    intro d hn a ha
    simp only [List.map_cons, List.nodup_cons] at hn
    simp only [savedDisk]
    rcases List.mem_cons.mp ha with rfl | ha
    · rw [savedDisk_stmt_other l _ _ hn.1]
      simp
    · exact ih _ hn.2 a ha

/-- Load after save for either program: `cap` is the size of the name buffer. -/
theorem syncLoop_saveData (bank : Bool) (cap : Nat) (hcap : 30 ≤ cap) (head : List Acc)
    (disk : Disk) (h : StoreOk head) :
    ∃ d s, saveData head disk = some d ∧ d.db = some s ∧
      syncLoop bank cap d.stmt (s.length + 1) s = some head := by
  refine ⟨savedDisk head { disk with db := some [] }, dbLines head, ?_, ?_, ?_⟩
  · exact saveLoop_savedDisk head _ fun a ha => (h.2 a ha).1
  · rw [savedDisk_db head _ [] rfl, List.nil_append]
  · refine syncLoop_dbLines bank cap _ hcap head _ ?_ (Nat.lt_succ_of_le (dbLines_length head))
    intro a ha
    exact ⟨h.2 a ha, savedDisk_stmt head _ h.1 a ha⟩

/-- Where the code does give the store back: for a list of accounts with
distinct numbers of at most 16 digits, counters that fit 64 bits, text fields
that are non-empty, free of commas and shorter than their buffers, a card state
in the range of `int`, balances and amounts that are whole numbers of
millionths, transaction types among the four of the data model and counters
equal to the lengths of the histories, `saveData` is defined and the load of
`atmLib.c` and the load of `bankLib.c` after it both return, with the same
accounts in the same order, every field equal, and every history equal node by
node in the same order. -/
theorem load_after_save (head : List Acc) (disk : Disk) (h : StoreOk head) :
    (saveData head disk).bind syncData = some head ∧
      (Bank.saveData head disk).bind Bank.syncData = some head := by
  obtain ⟨d1, s1, hs1, hd1, hl1⟩ := syncLoop_saveData false 30 (le_refl _) head disk h
  obtain ⟨d2, s2, hs2, hd2, hl2⟩ := syncLoop_saveData true 100 (by decide) head disk h
  constructor
  · rw [hs1, Option.some_bind]
    unfold syncData
    rw [hd1]
    exact hl1
  · unfold Bank.saveData
    rw [hs2, Option.some_bind]
    unfold Bank.syncData
    rw [hd2]
    exact hl2

theorem storeOk_sample :
    StoreOk [{ carol with num := 1003 }, { alice with num := 1001 }, { bob with num := 1002 }] := by
  unfold StoreOk
  constructor
  · decide
  · intro a ha
    simp only [List.mem_cons, List.mem_singleton, List.not_mem_nil, or_false] at ha
    rcases ha with rfl | rfl | rfl <;>
      simp [AccOk, FieldOk, TranOk, SixDecimals, carol, alice, bob, U64, WITHDRAW, DEPOSIT,
        TRANSFER_IN, TRANSFER_OUT, ACTIVE, BLOCKED] <;> norm_num

theorem load_after_save_sample :
    (saveData [{ carol with num := 1003 }, { alice with num := 1001 }, { bob with num := 1002 }]
        emptyDisk).bind syncData
      = some [{ carol with num := 1003 }, { alice with num := 1001 }, { bob with num := 1002 }] :=
  (load_after_save _ emptyDisk storeOk_sample).1

/-- C14 (code bug): the console loads the account 1001 from `annDisk`; the operator
changes its holder name to `doe, jane`, which `updateAcc` accepts and stores as
`Doe, Jane`. `saveData` of that store is defined and writes the name, comma
included, into the line of `Db.csv`; the load of `bankLib.c` and the load of
`atmLib.c` after it both give back an empty list: the account is lost. The
same name is accepted by `newAcc`; the account it creates has a number of 18
digits, whose file name has 31 bytes and with its terminator does not fit
`spName[30]`, so that `saveData` of it is undefined. -/
theorem comma_in_name_lost :
    Bank.syncData Bank.annDisk = some [{ ann with tranCnt := 0 }] ∧
      Bank.updateAccO [{ ann with tranCnt := 0 }] 0 [.line "doe, jane".toList]
        = some ([Bank.annJane], []) ∧
      Bank.annJane.name = "Doe, Jane".toList ∧
      (Bank.saveData [Bank.annJane] Bank.annDisk).map (fun d => d.db)
        = some (some
            "1001,Doe, Jane,9000000000,ann,pw,11111111,1234,1,100.000000,0\n".toList) ∧
      (Bank.saveData [Bank.annJane] Bank.annDisk).bind Bank.syncData = some [] ∧
      (saveData [Bank.annJane] Bank.annDisk).bind syncData = some [] ∧
      Bank.newAcc 7 [env0] env0 [] Bank.janeInput = some ([Bank.jane], []) ∧
      (spName Bank.jane.num).length = 31 ∧
      (Bank.saveData [Bank.jane] emptyDisk).isSome = false := by
  decide!

theorem loadHist_atm_count (stmt : Nat → Option CStr) (a b : Acc)
    (h : loadHist false stmt a = some b) : b.tranCnt = b.tranHist.length := by
  unfold loadHist at h
  by_cases hf : (spName a.num).length < 30
  swap
  · rw [if_neg hf] at h
    exact absurd h (by simp)
  rw [if_pos hf] at h
  split at h
  · simp only [Bool.false_eq_true, if_false, Option.some.injEq] at h
    rw [← h]
    rfl
  · cases hs : syncTrans false _ _ with
    | none => rw [hs] at h; exact absurd h (by simp)
    | some th =>
      rw [hs] at h
      simp only [Option.some_bind] at h
      split_ifs at h
      simp only [Option.some.injEq] at h
      rw [← h]

/-- The load of `atmLib.c` gives every account a count equal to the length of
its history, whatever `Db.csv` and the files `<num>.csv` hold. -/
theorem syncLoop_atm_count (cap : Nat) (stmt : Nat → Option CStr) :
    ∀ (fuel : Nat) (s : CStr) (l : List Acc), syncLoop false cap stmt fuel s = some l →
      ∀ b ∈ l, b.tranCnt = b.tranHist.length := by
  intro fuel
  induction fuel with
  | zero => intro s l h; exact absurd h (by simp [syncLoop])
  | succ fuel ih =>
    intro s l h
    simp only [syncLoop] at h
    split at h
    · exact absurd h (by simp)
    · simp only [Option.some.injEq] at h
      subst h
      intro b hb
      exact absurd hb (List.not_mem_nil b)
    · rename_i a rest _
      cases hl : loadHist false stmt a with
      | none => rw [hl] at h; exact absurd h (by simp)
      | some new =>
        rw [hl] at h
        simp only [Option.some_bind] at h
        cases hr : syncLoop false cap stmt fuel rest with
        | none => rw [hr] at h; exact absurd h (by simp)
        | some l1 =>
          rw [hr] at h
          simp only [Option.map_some', Option.some.injEq] at h
          subst h
          intro b hb
          rcases List.mem_cons.mp hb with rfl | hb
          · exact loadHist_atm_count stmt a _ hl
          · exact ih rest l1 hr b hb

/-- Every append keeps the count equal to the length of the history, below the
maximum of the counter. -/
theorem addTran_count (env : Env) (a : Acc) (amt : ℚ) (ty : Int)
    (h : a.tranCnt = a.tranHist.length) (hlt : a.tranCnt + 1 < U64) :
    (addTran env a amt ty).tranCnt = (addTran env a amt ty).tranHist.length := by
  simp only [addTran, List.length_cons]
  rw [Nat.mod_eq_of_lt hlt, h]

/-- C15 (code bug): the load of `bankLib.c` on a `Db.csv` line that carries the count 3,
with no file `1001.csv`, gives the account an empty history and the count 3;
the load of `atmLib.c` on the same files gives the count 0. -/
theorem bank_load_keeps_file_count :
    Bank.syncData orphanDisk = some [ann] ∧ ann.tranHist.length = 0 ∧ ann.tranCnt = 3 ∧
      syncData orphanDisk = some [{ ann with tranCnt := 0 }] := by
  decide!

/-! ## Receive after transmit -/

theorem cstr_of_no_nul {p : CStr} (h : NUL ∉ p) : cstr p = p := by
  unfold cstr
  rw [List.takeWhile_eq_self_iff]
  intro c hc
  simp only [decide_eq_true_eq]
  intro e
  exact h (e ▸ hc)

theorem rxLoop_line (bound : Nat) : ∀ (p : CStr) (i : Nat) (str : List Char) (rest : CStr),
    '\n' ∉ p → i + p.length < bound →
    rxLoop bound i str (p ++ '\n' :: rest) = some (i + p.length, str ++ p ++ ['\n'], rest) := by
  intro p
  induction p with
  | nil =>
    intro i str rest _ hb
    simp only [List.nil_append, List.length_nil, Nat.add_zero, List.append_nil] at hb ⊢
    simp [rxLoop, hb]
  | cons c p ih =>
    intro i str rest hn hb
    have hc : c ≠ '\n' := fun e => hn (e ▸ List.mem_cons_self _ _)
    have hp : '\n' ∉ p := fun h => hn (List.mem_cons_of_mem _ h)
    simp only [List.length_cons] at hb
    rw [List.cons_append]
    simp only [rxLoop, if_pos (show i < bound by omega), if_neg hc]
    rw [ih (i + 1) (str ++ [c]) rest hp (by omega)]
    simp only [List.length_cons, List.append_assoc, List.singleton_append]
    congr 2
    omega

/-- C22: for every payload `p` of at most 97 bytes without LF (a C string, so
without NUL), `rx_str` with a buffer of 100 bytes run on the bytes `tx_str`
writes for `p` returns, leaves nothing unread and yields exactly `p`. -/
theorem rx_after_tx (p : CStr) (hlen : p.length ≤ 97) (hlf : '\n' ∉ p) (hnul : NUL ∉ p) :
    rx_str 100 (tx_str p) = some (p, []) := by
  have hb : (100 + U64 - 1) % U64 = 99 := by decide
  have hcr : '\n' ∉ p ++ ['\r'] := by
    intro h
    rcases List.mem_append.mp h with h | h
    · exact hlf h
    · exact absurd (List.mem_singleton.mp h) (by decide)
  have e : tx_str p = (p ++ ['\r']) ++ '\n' :: [] := by simp [tx_str]
  unfold rx_str
  rw [hb, e, rxLoop_line 99 (p ++ ['\r']) 0 [] [] hcr (by simp; omega)]
  simp only [Option.some_bind, List.length_append, List.length_singleton, Nat.zero_add,
    List.nil_append]
  rw [if_neg (by omega), Nat.add_sub_cancel, List.append_assoc, List.take_left' rfl,
    cstr_of_no_nul hnul]

theorem rx_after_tx_witness :
    rx_str 100 (tx_str "@OK:BAL=750.00$".toList) = some ("@OK:BAL=750.00$".toList, []) :=
  rx_after_tx "@OK:BAL=750.00$".toList (by decide) (by decide) (by decide)

/-- On a line that ends with LF alone, `rx_str` cuts the last byte of the
payload. -/
theorem rx_str_lf_only (p : CStr) (hne : p ≠ []) (hlen : p.length ≤ 98) (hlf : '\n' ∉ p)
    (hnul : NUL ∉ p) : rx_str 100 (p ++ ['\n']) = some (p.dropLast, []) := by
  have hb : (100 + U64 - 1) % U64 = 99 := by decide
  have hpos : 0 < p.length := List.length_pos.mpr hne
  have hd : NUL ∉ p.dropLast := fun h => hnul (List.dropLast_subset p h)
  unfold rx_str
  rw [hb, rxLoop_line 99 p 0 [] [] hlf (by omega)]
  simp only [Option.some_bind, Nat.zero_add, List.nil_append]
  rw [if_neg (by omega), List.take_append_of_le_length (by omega),
    ← List.dropLast_eq_take, cstr_of_no_nul hd]

theorem strRxLoop_line (cap : Nat) : ∀ (p : CStr) (buf : List Char) (rest : CStr),
    '\n' ∉ p → NUL ∉ p → buf.length + p.length < cap →
    TC.strRxLoop cap buf (p ++ '\n' :: rest) = some (buf ++ p ++ ['\n'], rest) := by
  intro p
  induction p with
  | nil =>
    intro buf rest _ _ hb
    simp only [List.length_nil, Nat.add_zero] at hb
    simp only [List.nil_append, List.append_nil, TC.strRxLoop]
    rw [if_neg (by decide), if_neg (by omega)]
    simp
  | cons c p ih =>
    intro buf rest hn hz hb
    have hc : c ≠ '\n' := fun e => hn (e ▸ List.mem_cons_self _ _)
    have hc0 : c ≠ NUL := fun e => hz (e ▸ List.mem_cons_self _ _)
    simp only [List.length_cons] at hb
    rw [List.cons_append]
    simp only [TC.strRxLoop, if_neg hc, if_neg hc0, if_neg (show ¬ cap ≤ buf.length by omega)]
    rw [ih (buf ++ [c]) rest (fun h => hn (List.mem_cons_of_mem _ h))
      (fun h => hz (List.mem_cons_of_mem _ h)) (by simp; omega)]
    simp

/-- What `getMsg` leaves in the buffer for a line `p` LF: `p` without its last
byte, whatever that byte is. -/
theorem getMsg_line (cap : Nat) (p rest : CStr) (hne : p ≠ []) (hlen : p.length < cap)
    (hlf : '\n' ∉ p) (hnul : NUL ∉ p) :
    TC.getMsg cap (p ++ '\n' :: rest) = some (p.dropLast, rest) := by
  unfold TC.getMsg TC.strRx_UART
  rw [strRxLoop_line cap p [] rest hlf hnul (by simpa using hlen)]
  simp only [Option.map_some', Option.some_bind, List.nil_append, List.dropLast_concat,
    cstr_of_no_nul hnul]
  rw [if_neg hne]

/-- C23 (code bug): on a line that ends with LF alone, every receive routine
loses the last byte of the payload: `rx_str` yields `#X:LINEOK` for
`#X:LINEOK$` LF, `getMsg` and `UART0_isr` yield `@OK:DONE` for `@OK:DONE$` LF,
whereas with CR LF the three yield the payload. -/
theorem lf_only_line_loses_byte :
    rx_str 100 "#X:LINEOK$\n".toList = some ("#X:LINEOK".toList, []) ∧
    rx_str 100 "#X:LINEOK$\r\n".toList = some ("#X:LINEOK$".toList, []) ∧
    TC.getMsg TC.BUF_MAX "@OK:DONE$\n".toList = some ("@OK:DONE".toList, []) ∧
    TC.getMsg TC.BUF_MAX "@OK:DONE$\r\n".toList = some ("@OK:DONE$".toList, []) ∧
    (TC.isrRun TC.idle "@OK:DONE$\n".toList).map (fun u => (cstr u.buf, u.r_flag))
      = some ("@OK:DONE".toList, true) ∧
    (TC.isrRun TC.idle "@OK:DONE$\r\n".toList).map (fun u => (cstr u.buf, u.r_flag))
      = some ("@OK:DONE$".toList, true) := by
  decide

/-! ## The account server on the frames of the terminal -/

theorem frameV_eq (r p : CStr) : TC.frameV r p = reqV r p := by simp [TC.frameV, reqV]

theorem frameWTD_eq (r a : CStr) : TC.frameWTD r a = reqA2 "WTD".toList r a := by
  simp [TC.frameWTD, reqA2]

theorem frameDEP_eq (r a : CStr) : TC.frameDEP r a = reqA2 "DEP".toList r a := by
  simp [TC.frameDEP, reqA2]

theorem framePIN_eq (r p : CStr) : TC.framePIN r p = reqA2 "PIN".toList r p := by
  simp [TC.framePIN, reqA2]

theorem frameMST_eq (r : CStr) (n : Nat) :
    TC.frameMST r n = reqA2 "MST".toList r (decimal n) := by
  simp [TC.frameMST, reqA2]

theorem frameBLK_eq (r : CStr) : TC.frameBLK r = reqA "BLK".toList r := by
  simp [TC.frameBLK, reqA]

theorem frameBAL_eq (r : CStr) : TC.frameBAL r = reqA "BAL".toList r := by
  simp [TC.frameBAL, reqA]

theorem isMsgOk_reqA2 (req r x : CStr) : isMsgOk (reqA2 req r x) = true :=
  isMsgOk_of ("A:".toList ++ req ++ ":".toList ++ r ++ ":".toList ++ x) (by simp [reqA2])

theorem isMsgOk_reqA (req r : CStr) : isMsgOk (reqA req r) = true :=
  isMsgOk_of ("A:".toList ++ req ++ ":".toList ++ r) (by simp [reqA])

theorem isMsgOk_reqV (r p : CStr) : isMsgOk (reqV r p) = true :=
  isMsgOk_of ("V:".toList ++ r ++ ":".toList ++ p) (by simp [reqV])

theorem verifyPin_reqV (head : List Acc) (r p : CStr) (hr : r.length = 8) (hp : p.length = 4) :
    verifyPin head (reqV r p)
      = (deref head (getAcc head r)).bind fun usr =>
          some (head, [.tx (if p = usr.pin then .okMatched else .errWrong)]) := by
  have hl : (reqV r p).length = 17 := by simp [reqV, hr, hp]
  unfold verifyPin
  rw [if_neg (by omega)]
  simp only [reqV_rfid r p hr, reqV_pin r p hr hp]
  cases deref head (getAcc head r) with
  | none => rfl
  | some usr =>
    simp only [Option.some_bind]
    split_ifs <;> rfl

/-- C25: for every RFID `r` of 8 bytes, PIN `p` of 4 bytes, amount text `a` of
at most 18 bytes and index `n` in `1..3`, the frames the terminal composes are
well formed for the account server, carry their opcode in byte 1, for the
opcode `A` their request code in bytes 3..5 and `r` in bytes 7..14, and are
handled as the PIN check of `p` against the card `r`, the withdraw and the
deposit of `atof(a)` on `r`, the PIN change of `r` to `p`, the mini statement
of `r` at index `n`, and the block of `r`. -/
theorem server_decodes_terminal_frames (env : Env) (head : List Acc) (r p a : CStr) (n : Nat)
    (hr : r.length = 8) (hp : p.length = 4) (ha : a.length ≤ 18) (hn : 1 ≤ n ∧ n ≤ 3) :
    (isMsgOk (TC.frameV r p) = true ∧ (TC.frameV r p)[1]? = some 'V' ∧
      handle env head (TC.frameV r p)
        = (deref head (getAcc head r)).bind fun usr =>
            some (head, [.tx (if p = usr.pin then .okMatched else .errWrong)])) ∧
    (isMsgOk (TC.frameWTD r a) = true ∧ (TC.frameWTD r a)[1]? = some 'A' ∧
      subOp (TC.frameWTD r a) = "WTD".toList ∧ ((TC.frameWTD r a).drop 7).take 8 = r ∧
      extAmt env (TC.frameWTD r a) = some (env.atof a) ∧
      handle env head (TC.frameWTD r a)
        = (withdraw env (deref head (getAcc head r)) (env.atof a)).bind fun x =>
            some (writeBack head (getAcc head r) x.1,
              [.tx x.2, .saveData (writeBack head (getAcc head r) x.1)])) ∧
    (isMsgOk (TC.frameDEP r a) = true ∧ (TC.frameDEP r a)[1]? = some 'A' ∧
      subOp (TC.frameDEP r a) = "DEP".toList ∧ ((TC.frameDEP r a).drop 7).take 8 = r ∧
      extAmt env (TC.frameDEP r a) = some (env.atof a) ∧
      handle env head (TC.frameDEP r a)
        = (deposit env (deref head (getAcc head r)) (env.atof a)).bind fun x =>
            some (writeBack head (getAcc head r) x.1,
              [.tx x.2, .saveData (writeBack head (getAcc head r) x.1)])) ∧
    (isMsgOk (TC.framePIN r p) = true ∧ (TC.framePIN r p)[1]? = some 'A' ∧
      subOp (TC.framePIN r p) = "PIN".toList ∧ ((TC.framePIN r p).drop 7).take 8 = r ∧
      handle env head (TC.framePIN r p)
        = (pinChange (deref head (getAcc head r)) p).bind fun x =>
            some (writeBack head (getAcc head r) x.1,
              [.tx x.2, .saveData (writeBack head (getAcc head r) x.1)])) ∧
    (isMsgOk (TC.frameMST r n) = true ∧ (TC.frameMST r n)[1]? = some 'A' ∧
      subOp (TC.frameMST r n) = "MST".toList ∧ ((TC.frameMST r n).drop 7).take 8 = r ∧
      handle env head (TC.frameMST r n)
        = (miniStatement (deref head (getAcc head r)) n).bind fun x =>
            some (head, [.tx x])) ∧
    (isMsgOk (TC.frameBLK r) = true ∧ (TC.frameBLK r)[1]? = some 'A' ∧
      subOp (TC.frameBLK r) = "BLK".toList ∧ ((TC.frameBLK r).drop 7).take 8 = r ∧
      handle env head (TC.frameBLK r)
        = (deref head (getAcc head r)).bind fun u =>
            some (writeBack head (getAcc head r) (some { u with cardStat := BLOCKED }),
              [.tx .okDone,
                .saveData
                  (writeBack head (getAcc head r) (some { u with cardStat := BLOCKED }))])) := by
  obtain ⟨c, hc, hcn⟩ := decimal_digit n hn.1 (by omega)
  refine ⟨⟨?_, ?_, ?_⟩, ⟨?_, ?_, ?_, ?_, ?_, ?_⟩, ⟨?_, ?_, ?_, ?_, ?_, ?_⟩, ⟨?_, ?_, ?_, ?_, ?_⟩,
    ⟨?_, ?_, ?_, ?_, ?_⟩, ⟨?_, ?_, ?_, ?_, ?_⟩⟩
  · rw [frameV_eq]; exact isMsgOk_reqV r p
  · rfl
  · rw [frameV_eq, handle_reqV, verifyPin_reqV head r p hr hp]
  · rw [frameWTD_eq]; exact isMsgOk_reqA2 _ r a
  · rfl
  · rw [frameWTD_eq]; exact reqA2_req _ r a rfl
  · rw [frameWTD_eq]; exact reqA2_rfid _ r a rfl hr
  · rw [frameWTD_eq]; exact extAmt_reqA2 env _ r a rfl hr (by omega)
  · rw [frameWTD_eq, handle_reqA2, act_WTD env head r a hr (by omega)]
  · rw [frameDEP_eq]; exact isMsgOk_reqA2 _ r a
  · rfl
  · rw [frameDEP_eq]; exact reqA2_req _ r a rfl
  · rw [frameDEP_eq]; exact reqA2_rfid _ r a rfl hr
  · rw [frameDEP_eq]; exact extAmt_reqA2 env _ r a rfl hr (by omega)
  · rw [frameDEP_eq, handle_reqA2, act_DEP env head r a hr (by omega)]
  · rw [framePIN_eq]; exact isMsgOk_reqA2 _ r p
  · rfl
  · rw [framePIN_eq]; exact reqA2_req _ r p rfl
  · rw [framePIN_eq]; exact reqA2_rfid _ r p rfl hr
  · rw [framePIN_eq, handle_reqA2, act_PIN env head r p hr hp]
  · rw [frameMST_eq]; exact isMsgOk_reqA2 _ r _
  · rfl
  · rw [frameMST_eq]; exact reqA2_req _ r _ rfl
  · rw [frameMST_eq]; exact reqA2_rfid _ r _ rfl hr
  · rw [frameMST_eq, handle_reqA2, hc, act_MST env head r c [] hr, hcn]
  · rw [frameBLK_eq]; exact isMsgOk_reqA _ r
  · rfl
  · rw [frameBLK_eq]; exact reqA_req _ r rfl
  · rw [frameBLK_eq]; exact reqA_rfid _ r rfl hr
  · rw [frameBLK_eq, handle_reqA, act_BLK env head r hr]

theorem server_decodes_terminal_frames_witness :
    isMsgOk (TC.frameV "11111111".toList "1234".toList) = true ∧
      extAmt env0 (TC.frameWTD "11111111".toList "500".toList) = some 500 ∧
      handle env0 [alice, bob] (TC.frameMST "22222222".toList 1)
        = some ([alice, bob], [.tx (.txn DEPOSIT 14 5 2025 9 30 150)]) :=
  have h := server_decodes_terminal_frames env0 [alice, bob] "11111111".toList "1234".toList
    "500".toList 1 (by decide) (by decide) (by decide) (by decide)
  have h2 := server_decodes_terminal_frames env0 [alice, bob] "22222222".toList "1234".toList
    "500".toList 1 (by decide) (by decide) (by decide) (by decide)
  ⟨h.1.1, h.2.1.2.2.2.2.1.trans (by decide!), h2.2.2.2.2.1.2.2.2.2.trans (by decide!)⟩

/-! ## Requests for a card that no account has -/

/-- On the requests of opcode `A` whose RFID matches no account, `act` goes
through the `NULL` that `getAcc` returned: balance, block, PIN change, mini
statement of a positive index, and withdraw or deposit of an amount within
the limits are undefined. -/
theorem act_unknown_rfid (env : Env) (head : List Acc) (r p a : CStr) (n : Nat)
    (hr : r.length = 8) (hp : p.length = 4) (ha : a.length ≤ 18) (hn : 1 ≤ n ∧ n ≤ 3)
    (hamt : 0 < env.atof a ∧ env.atof a < 30000) (hno : ∀ u ∈ head, u.rfid ≠ r) :
    handle env head (TC.frameBAL r) = none ∧ handle env head (TC.frameBLK r) = none ∧
    handle env head (TC.framePIN r p) = none ∧ handle env head (TC.frameMST r n) = none ∧
    handle env head (TC.frameWTD r a) = none ∧ handle env head (TC.frameDEP r a) = none := by
  have hg : getAcc head r = none := (getAcc_eq_none_iff head r).mpr hno
  have hd : deref head (none : Option Nat) = none := rfl
  obtain ⟨c, hc, hcn⟩ := decimal_digit n hn.1 (by omega)
  have hpos : (0 : Int) < n := by omega
  refine ⟨?_, ?_, ?_, ?_, ?_, ?_⟩
  · rw [frameBAL_eq, handle_reqA, act_BAL env head r hr, hg, hd]
    rfl
  · rw [frameBLK_eq, handle_reqA, act_BLK env head r hr, hg, hd]
    rfl
  · rw [framePIN_eq, handle_reqA2, act_PIN env head r p hr hp, hg, hd]
    rfl
  · rw [frameMST_eq, handle_reqA2, hc, act_MST env head r c [] hr, hcn, hg, hd]
    simp [miniStatement, hpos]
  · rw [frameWTD_eq, handle_reqA2, act_WTD env head r a hr (by omega), hg, hd]
    simp [withdraw, MAX_WITHDRAW, not_le.mpr hamt.1, hamt.2]
  · rw [frameDEP_eq, handle_reqA2, act_DEP env head r a hr (by omega), hg, hd]
    simp [deposit, MAX_DEPOSIT, not_le.mpr hamt.1, hamt.2]

/-- C29 (code bug): the RFID `99999999` matches no account of the list, and
none of the six requests of opcode `A` for it is handled in a defined way:
`act` reads or writes the balance, the card state, the PIN or the history
through the `NULL` that `getAcc` returned, whereas `checkRFID` tests the same
pointer and answers `@ERR:INVALID$`. -/
theorem act_unknown_card_undefined :
    handle env0 [alice, bob] "#A:BAL:99999999$".toList = none ∧
    handle env0 [alice, bob] "#A:BLK:99999999$".toList = none ∧
    handle env0 [alice, bob] "#A:PIN:99999999:0000$".toList = none ∧
    handle env0 [alice, bob] "#A:MST:99999999:1$".toList = none ∧
    handle env0 [alice, bob] "#A:WTD:99999999:500$".toList = none ∧
    handle env0 [alice, bob] "#A:DEP:99999999:500$".toList = none ∧
    handle env0 [alice, bob] "#C:99999999$".toList = some ([alice, bob], [.tx .errInvalid]) := by
  decide!

/-! ## Date and time in the report files -/

/-- The decomposition of `atmLib.c` gives back the calendar fields of an id
`timestamp14*1000 + r`. -/
theorem saveFileStamp_calendar (year month day hour minute second r : Nat)
    (hy : year ≤ 9999) (hm : month ≤ 99) (hd : day ≤ 99) (hh : hour ≤ 99) (hmi : minute ≤ 99)
    (hs : second ≤ 99) (hr : r < 1000) :
    saveFileStamp ((year * 10000000000 + month * 100000000 + day * 1000000 + hour * 10000
        + minute * 100 + second) * 1000 + r)
      = { dd := day, mon := month, yy := year, hh := hour, mm := minute } := by
  have e : ((year * 10000000000 + month * 100000000 + day * 1000000 + hour * 10000
        + minute * 100 + second) * 1000 + r) / 100000
      = year * 100000000 + month * 1000000 + day * 10000 + hour * 100 + minute := by omega
  simp only [saveFileStamp, e, U32]
  congr 1 <;> omega

/-- C27 (code bug): for the id 20250515103045106 (15 May 2025, 10:30:45) the row
of `atmLib.c` shows `15/5/2025,10:30`, and the row of `bankLib.c` shows
`10/15/202505,30:45`: the hour as day, the day as month, year and month as
year, the minutes as hour and the seconds as minutes. -/
theorem report_dates_differ :
    saveFileStamp 20250515103045106 = { dd := 15, mon := 5, yy := 2025, hh := 10, mm := 30 } ∧
    Bank.saveFileStamp 20250515103045106
      = { dd := 10, mon := 15, yy := 202505, hh := 30, mm := 45 } ∧
    saveFileCols { amt := 20, id := 20250515103045106, type := DEPOSIT }
      = "15/5/2025,10:30".toList ∧
    Bank.saveFileCols { amt := 20, id := 20250515103045106, type := DEPOSIT }
      = "10/15/202505,30:45".toList := by
  decide

/-! ## Title case of the holder name (`format`) -/

theorem CAPS_letter (c : Char) (h : c.isAlpha = true) :
    Bank.CAPS c = c.toUpper ∧ c ≠ ' ' ∧ c.toUpper ≠ ' ' ∧ c.toUpper ≠ NUL := by
  have hc : c = Char.ofNat c.toNat := (Char.ofNat_toNat c).symm
  have hb : (65 ≤ c.toNat ∧ c.toNat ≤ 90) ∨ (97 ≤ c.toNat ∧ c.toNat ≤ 122) := by
    simp only [Char.isAlpha, Char.isUpper, Char.isLower, Bool.or_eq_true, Bool.and_eq_true,
      decide_eq_true_eq] at h
    rcases h with h | h
    · exact Or.inl ⟨h.1, h.2⟩
    · exact Or.inr ⟨h.1, h.2⟩
  generalize c.toNat = n at hc hb
  subst hc
  rcases hb with ⟨h1, h2⟩ | ⟨h1, h2⟩ <;> interval_cases n <;> decide

theorem formatRest_title : ∀ (t : CStr) (prev prev1 : Char), (prev1 = ' ' ↔ prev = ' ') →
    LetterStarts prev t → Bank.formatRest prev1 t = titleRest prev t := by
  intro t
  induction t with
  | nil => intro _ _ _ _; rfl
  | cons c t ih =>
    intro prev prev1 hp hl
    obtain ⟨hl1, hl2⟩ := hl
    simp only [Bank.formatRest, titleRest]
    by_cases h : prev = ' '
    · obtain ⟨e1, e2, e3, -⟩ := CAPS_letter c (hl1 h)
      rw [if_pos (hp.mpr h), if_pos h, e1]
      congr 1
      exact ih c c.toUpper ⟨fun x => absurd x e3, fun x => absurd x e2⟩ hl2
    · rw [if_neg (fun x => h (hp.mp x)), if_neg h]
      congr 1
      exact ih c c Iff.rfl hl2

theorem titleRest_no_nul : ∀ (t : CStr) (prev : Char), NUL ∉ t → LetterStarts prev t →
    NUL ∉ titleRest prev t := by
  intro t
  induction t with
  | nil => intro _ _ _; simp [titleRest]
  | cons c t ih =>
    intro prev hz hl
    obtain ⟨hl1, hl2⟩ := hl
    have hc : c ≠ NUL := fun e => hz (e ▸ List.mem_cons_self _ _)
    have ht := ih c (fun h => hz (List.mem_cons_of_mem _ h)) hl2
    simp only [titleRest, List.mem_cons, not_or]
    refine ⟨?_, ht⟩
    by_cases h : prev = ' '
    · rw [if_pos h]
      exact fun e => (CAPS_letter c (hl1 h)).2.2.2 e.symm
    · rw [if_neg h]
      exact fun e => hc e.symm

theorem titleRest_length : ∀ (t : CStr) (prev : Char), (titleRest prev t).length = t.length := by
  intro t
  induction t with
  | nil => intro _; rfl
  | cons c t ih => intro prev; simp [titleRest, ih]

/-- C26 (as amended): for every holder name (a C string) whose first byte and
whose every byte after a space are letters, `format` returns the name with the
first letter of each space-separated word uppercased and every other byte
unchanged; the length is preserved. -/
theorem format_title_case (s : CStr) (hz : NUL ∉ s) (hl : LetterStarts ' ' s) :
    Bank.format s = titleCase s ∧ (Bank.format s).length = s.length := by
  have key : Bank.format s = titleCase s := by
    cases s with
    | nil => rfl
    | cons c t =>
      obtain ⟨hl1, hl2⟩ := hl
      obtain ⟨e1, e2, e3, e4⟩ := CAPS_letter c (hl1 rfl)
      have hrest := formatRest_title t c c.toUpper ⟨fun x => absurd x e3, fun x => absurd x e2⟩ hl2
      have hno : NUL ∉ titleRest ' ' (c :: t) :=
        titleRest_no_nul (c :: t) ' ' hz ⟨hl1, hl2⟩
      have e : c.toUpper :: titleRest c t = titleRest ' ' (c :: t) := by simp [titleRest]
      simp only [Bank.format, titleCase]
      rw [e1, hrest, e]
      exact cstr_of_no_nul hno
  exact ⟨key, by rw [key]; exact titleRest_length s ' '⟩

theorem format_title_case_witness :
    Bank.format "mary-ann mc.neil jr2".toList = "Mary-ann Mc.neil Jr2".toList ∧
      (Bank.format "mary-ann mc.neil jr2".toList).length = 20 :=
  have h := format_title_case "mary-ann mc.neil jr2".toList (by decide)
    (by simp [LetterStarts])
  ⟨h.1.trans (by decide), h.2.trans (by decide)⟩

/-- C26 (as stated) fails: in `unit 7` the digit after the space is changed
into the byte 23, and `carol  diaz`, with two spaces, comes back as `Carol `:
the second space becomes the terminator and the length drops from 11 to 6. -/
theorem format_changes_other_bytes :
    Bank.format "unit 7".toList = ['U', 'n', 'i', 't', ' ', Char.ofNat 23] ∧
      Bank.format "carol  diaz".toList = "Carol ".toList := by
  decide

/-! ## Uniqueness of ids, usernames and cards under the console operations -/

theorem getUnqId_new (seed : Nat) (head : List Acc) : ∀ (clock : List Env) (num : Nat),
    Bank.getUnqId seed head clock = some num → ∀ a ∈ head, a.num ≠ num := by
  intro clock
  induction clock with
  | nil => intro num h; simp [Bank.getUnqId] at h
  | cons env clock ih =>
    intro num h
    simp only [Bank.getUnqId] at h
    split_ifs at h with hany
    · exact ih num h
    · simp only [Option.some.injEq] at h
      subst h
      intro a ha e
      exact hany (List.any_eq_true.mpr ⟨a, ha, by simp [e]⟩)

theorem isUnq_spec {head : List Acc} {s : CStr} (h : Bank.isUnq head s = true) :
    s ≠ Bank.ADMIN_USRN ∧ ∀ a ∈ head, a.usrName ≠ s := by
  simp only [Bank.isUnq, Bool.decide_and, Bool.and_eq_true, decide_eq_true_eq,
    List.all_eq_true] at h
  exact ⟨h.1, fun a ha e => h.2 a ha e.symm⟩

theorem isNewRFID_spec {head : List Acc} {s : CStr} (h : Bank.isNewRFID head s = true) :
    ∀ a ∈ head, a.rfid ≠ s := by
  simp only [Bank.isNewRFID, List.all_eq_true, decide_eq_true_eq] at h
  exact fun a ha e => h a ha e.symm

theorem usrNameLoop_unq (head : List Acc) : ∀ (inp : List Bank.Tok) (s : CStr)
    (rest : List Bank.Tok), Bank.usrNameLoop head inp = some (s, rest) →
    Bank.isUnq head s = true := by
  intro inp
  induction inp with
  | nil => intro s rest h; simp [Bank.usrNameLoop] at h
  | cons tok inp ih =>
    intro s rest h
    cases tok with
    | num n => simp [Bank.usrNameLoop] at h
    | real x => simp [Bank.usrNameLoop] at h
    | key c => simp [Bank.usrNameLoop] at h
    | line l =>
      unfold Bank.usrNameLoop at h
      split_ifs at h with h1 h2 h3
      · exact ih s rest h
      · simp only [Option.some.injEq, Prod.mk.injEq] at h
        rw [← h.1]; exact h3
      · exact ih s rest h

theorem rfidLoop_new (head : List Acc) : ∀ (inp : List Bank.Tok) (flag : Nat) (s : CStr)
    (rest : List Bank.Tok), Bank.rfidLoop head flag inp = some (s, rest) →
    s = [] ∨ (s.length = 8 ∧ Bank.isNewRFID head s = true) := by
  intro inp
  induction inp with
  | nil => intro flag s rest h; simp [Bank.rfidLoop] at h
  | cons tok inp ih =>
    intro flag s rest h
    cases tok with
    | num n => simp [Bank.rfidLoop] at h
    | real x => simp [Bank.rfidLoop] at h
    | key c => simp [Bank.rfidLoop] at h
    | line l =>
      unfold Bank.rfidLoop at h
      split_ifs at h with h1 h2 h3
      · simp only [Option.some.injEq, Prod.mk.injEq] at h
        rw [← h.1]; exact Or.inr ⟨h2.1, h2.2⟩
      · simp only [Option.some.injEq, Prod.mk.injEq] at h
        exact Or.inl h.1.symm
      · exact ih _ s rest h

theorem unique_cons {head : List Acc} {new : Acc} (hU : Bank.Unique head)
    (h1 : ∀ a ∈ head, a.num ≠ new.num) (h2 : ∀ a ∈ head, a.usrName ≠ new.usrName)
    (h3 : ∀ a ∈ head, a.rfid ≠ new.rfid) (h4 : new.usrName ≠ Bank.ADMIN_USRN) :
    Bank.Unique (new :: head) := by
  obtain ⟨u1, u2, u3, u4⟩ := hU
  refine ⟨?_, ?_, ?_, ?_⟩
  · rw [List.map_cons, List.nodup_cons]
    refine ⟨?_, u1⟩
    intro hm
    obtain ⟨a, ha, e⟩ := List.mem_map.mp hm
    exact h1 a ha e
  · rw [List.map_cons, List.nodup_cons]
    refine ⟨?_, u2⟩
    intro hm
    obtain ⟨a, ha, e⟩ := List.mem_map.mp hm
    exact h2 a ha e
  · rw [List.map_cons, List.nodup_cons]
    refine ⟨?_, u3⟩
    intro hm
    obtain ⟨a, ha, e⟩ := List.mem_map.mp hm
    exact h3 a ha e
  · intro a ha
    rcases List.mem_cons.mp ha with rfl | ha
    · exact h4
    · exact u4 a ha

/-- The creation keeps ids, usernames and cards pairwise distinct when every
account of the list has a card number (a non-empty `rfid`). -/
theorem newAcc_unique {seed : Nat} {clock : List Env} {env : Env} {head head1 : List Acc}
    {inp rest : List Bank.Tok} (hU : Bank.Unique head) (hR : ∀ a ∈ head, a.rfid ≠ [])
    (h : Bank.newAcc seed clock env head inp = some (head1, rest)) : Bank.Unique head1 := by
  unfold Bank.newAcc at h
  simp only [Option.bind_eq_some] at h
  obtain ⟨num, hnum, ⟨name, inp1⟩, -, h⟩ := h
  dsimp only at h
  split_ifs at h
  · simp only [Option.some.injEq, Prod.mk.injEq] at h
    rw [← h.1]; exact hU
  · simp only [Option.bind_eq_some] at h
    obtain ⟨⟨phno, inp2⟩, -, ⟨usrName, inp3⟩, husr, ⟨pass, inp4⟩, -, ⟨rfid, inp5⟩, hrf,
      ⟨pin, inp6⟩, -, ⟨bal, inp7⟩, -, h⟩ := h
    simp only [Option.some.injEq, Prod.mk.injEq] at h
    rw [← h.1]
    obtain ⟨ha1, ha2⟩ := isUnq_spec (usrNameLoop_unq head _ _ _ husr)
    refine unique_cons hU (getUnqId_new seed head clock num hnum) ha2 ?_ ha1
    rcases rfidLoop_new head _ _ _ _ hrf with e | ⟨-, e⟩
    · intro a ha
      show a.rfid ≠ rfid
      rw [e]; exact hR a ha
    · exact isNewRFID_spec e

theorem usrNameUpdate_unq (head : List Acc) (usr : Acc) : ∀ (n : Nat) (inp : List Bank.Tok)
    (s : CStr) (rest : List Bank.Tok), inp.length ≤ n →
    Bank.usrNameUpdate head usr inp = some (some s, rest) → Bank.isUnq head s = true := by
  intro n
  induction n with
  | zero =>
    intro inp s rest hl h
    cases inp with
    | nil => simp [Bank.usrNameUpdate] at h
    | cons t inp => simp at hl
  | succ n ih =>
    intro inp s rest hl h
    cases inp with
    | nil => simp [Bank.usrNameUpdate] at h
    | cons tok inp =>
      simp only [List.length_cons] at hl
      cases tok with
      | num n => simp [Bank.usrNameUpdate] at h
      | real x => simp [Bank.usrNameUpdate] at h
      | key c => simp [Bank.usrNameUpdate] at h
      | line l =>
        unfold Bank.usrNameUpdate at h
        split_ifs at h with h1 h2 h3 h4 h5
        · exact ih inp s rest (by omega) h
        · split at h
          · rename_i k rest2
            split_ifs at h
            · exact ih rest2 s rest (by simp at hl ⊢; omega) h
            · simp at h
          · simp at h
        · simp only [Option.some.injEq, Prod.mk.injEq] at h
          rw [← h.1]; exact h4
        · exact ih inp s rest (by omega) h

theorem nodup_map_set {β : Type} (f : Acc → β) : ∀ (head : List Acc) (p : Nat) (u : Acc),
    (head.map f).Nodup → (∀ a ∈ head, f a ≠ f u) → ((head.set p u).map f).Nodup := by
  intro head
  induction head with
  | nil => intro p u h _; simp
  | cons b t ih =>
    intro p u h hne
    rw [List.map_cons, List.nodup_cons] at h
    cases p with
    | zero =>
      rw [List.set_cons_zero, List.map_cons, List.nodup_cons]
      refine ⟨?_, h.2⟩
      intro hm
      obtain ⟨a, ha, e⟩ := List.mem_map.mp hm
      exact hne a (List.mem_cons_of_mem _ ha) e
    | succ p =>
      rw [List.set_cons_succ, List.map_cons, List.nodup_cons]
      refine ⟨?_, ih p u h.2 fun a ha => hne a (List.mem_cons_of_mem _ ha)⟩
      intro hm
      obtain ⟨a, ha, e⟩ := List.mem_map.mp hm
      rcases List.mem_or_eq_of_mem_set ha with ha | ha
      · exact h.1 (List.mem_map.mpr ⟨a, ha, e⟩)
      · rw [ha] at e
        exact hne b (List.mem_cons_self _ _) e.symm

theorem map_set_eq {β : Type} (f : Acc → β) : ∀ (head : List Acc) (p : Nat) (a u : Acc),
    head[p]? = some a → f u = f a → (head.set p u).map f = head.map f := by
  intro head
  induction head with
  | nil => intro p a u _ _; rfl
  | cons b t ih =>
    intro p a u ha hu
    cases p with
    | zero =>
      simp only [List.getElem?_cons_zero, Option.some.injEq] at ha
      subst ha
      simp [hu]
    | succ p =>
      simp only [List.getElem?_cons_succ] at ha
      simp [ih p a u ha hu]

/-- The change of username keeps ids, usernames and cards pairwise distinct,
and stores no administrator username. -/
theorem updateAccU_unique {head head1 : List Acc} {p : Nat} {inp rest : List Bank.Tok}
    (hU : Bank.Unique head) (h : Bank.updateAccU head p inp = some (head1, rest)) :
    Bank.Unique head1 := by
  unfold Bank.updateAccU at h
  split at h
  · simp at h
  · rename_i usr husr
    simp only [Option.bind_eq_some] at h
    obtain ⟨⟨r1, r2⟩, hr, h⟩ := h
    dsimp only at h
    split at h
    · simp only [Option.some.injEq, Prod.mk.injEq] at h
      rw [← h.1]; exact hU
    · rename_i _ s
      simp only [Option.some.injEq, Prod.mk.injEq] at h
      rw [← h.1]
      obtain ⟨ha1, ha2⟩ := isUnq_spec (usrNameUpdate_unq head usr inp.length inp s r2 le_rfl hr)
      obtain ⟨u1, u2, u3, u4⟩ := hU
      refine ⟨?_, ?_, ?_, ?_⟩
      · rw [map_set_eq (fun a => a.num) head p usr { usr with usrName := s } husr rfl]; exact u1
      · exact nodup_map_set (fun a => a.usrName) head p _ u2 ha2
      · rw [map_set_eq (fun a => a.rfid) head p usr { usr with usrName := s } husr rfl]; exact u3
      · intro a ha
        rcases List.mem_or_eq_of_mem_set ha with ha | ha
        · exact u4 a ha
        · rw [ha]; exact ha1

/-- C21 (code bug): two creations during each of which 255 entries are refused
at the RFID prompt. The first, from the empty list, gives the account `dan`
with an empty card number, and ids, usernames and cards are pairwise distinct;
the second gives `eve` with an empty card number too, so that two accounts have
the same `rfid`. -/
theorem wrapped_rfid_prompt_breaks_uniqueness :
    Bank.newAcc 7 [env0] env0 [] (Bank.wrapInput "dan".toList "dan".toList)
      = some ([Bank.dan], []) ∧
    Bank.Unique [Bank.dan] ∧
    Bank.newAcc 8 [env0] env0 [Bank.dan] (Bank.wrapInput "eve".toList "eve".toList)
      = some ([Bank.eve, Bank.dan], []) ∧
    Bank.eve.rfid = Bank.dan.rfid ∧ ¬ Bank.Unique [Bank.eve, Bank.dan] := by
  refine ⟨by decide!, ?_, by decide!, rfl, ?_⟩
  · unfold Bank.Unique
    decide
  · unfold Bank.Unique
    decide

/-! ## PIN entry of the terminal -/

theorem getPinLoop_spec : ∀ (keys : List Char) (i time : Nat) (str : List Char),
    ((TC.getPinLoop keys i time str).1 = 0 ∨ (TC.getPinLoop keys i time str).1 = 1
        ∨ (TC.getPinLoop keys i time str).1 = -1)
      ∧ (TC.getPinLoop keys i time str).2.1.length = str.length := by
  intro keys
  induction keys with
  | nil => intro i time str; simp [TC.getPinLoop]
  | cons k rest ih =>
    intro i time str
    unfold TC.getPinLoop
    split_ifs
    · exact ih _ _ _
    · simp
    · have := ih (i + 1) TC.ATM_TIME (str.set i k)
      simpa using this
    · simp
    · exact ih _ _ _
    · simp
    · exact ih _ _ _
    · simp

theorem cstr_length_le (b : List Char) : (cstr b).length ≤ b.length :=
  (List.takeWhile_prefix _).length_le

theorem checkPCLoop_spec (w : TC.World) : ∀ (msgs sent : List CStr),
    ∃ w1 S, (TC.checkPCLoop w msgs sent = .hang w1
        ∨ (TC.checkPCLoop w msgs sent = .ok () w1 ∧ w1.msgs.length < msgs.length))
      ∧ w1.sent = sent ++ S ∧ (∀ f ∈ S, f = "#X:LINEOK$".toList)
      ∧ w1.keys = w.keys ∧ w1.replies = w.replies ∧ w1.msgs.length ≤ msgs.length := by
  intro msgs
  induction msgs with
  | nil =>
    intro sent
    exact ⟨_, ["#X:LINEOK$".toList], Or.inl rfl, rfl, by simp, rfl, rfl, by simp⟩
  | cons m rest ih =>
    intro sent
    unfold TC.checkPCLoop
    split_ifs
    · exact ⟨_, ["#X:LINEOK$".toList], Or.inr ⟨rfl, by simp⟩, rfl, by simp, rfl, rfl, by simp⟩
    · obtain ⟨w1, S, h1, h2, h3, h4, h5, h6⟩ := ih (sent ++ ["#X:LINEOK$".toList])
      refine ⟨w1, "#X:LINEOK$".toList :: S, ?_, by simp [h2], ?_, h4, h5, ?_⟩
      · rcases h1 with h1 | ⟨h1, h7⟩
        · exact Or.inl h1
        · exact Or.inr ⟨h1, by simp; omega⟩
      · intro f hf
        rcases List.mem_cons.mp hf with rfl | hf
        · rfl
        · exact h3 f hf
      · simp; omega

theorem exchangeLoop_spec (frame : CStr) (w : TC.World) : ∀ (msgs sent : List CStr),
    ∃ w1 S, (TC.exchangeLoop frame w msgs sent = .hang w1
        ∨ ∃ m, TC.exchangeLoop frame w msgs sent = .ok m w1 ∧ w1.msgs.length < msgs.length)
      ∧ w1.sent = sent ++ S ∧ (∀ f ∈ S, f = frame)
      ∧ w1.keys = w.keys ∧ w1.replies = w.replies ∧ w1.msgs.length ≤ msgs.length := by
  intro msgs
  induction msgs with
  | nil =>
    intro sent
    exact ⟨_, [frame], Or.inl rfl, rfl, by simp, rfl, rfl, by simp⟩
  | cons m rest ih =>
    intro sent
    unfold TC.exchangeLoop
    split_ifs
    · exact ⟨_, [frame], Or.inr ⟨m, rfl, by simp⟩, rfl, by simp, rfl, rfl, by simp⟩
    · obtain ⟨w1, S, h1, h2, h3, h4, h5, h6⟩ := ih (sent ++ [frame])
      refine ⟨w1, frame :: S, ?_, by simp [h2], ?_, h4, h5, ?_⟩
      · rcases h1 with h1 | ⟨m1, h1, h7⟩
        · exact Or.inl h1
        · exact Or.inr ⟨m1, h1, by simp; omega⟩
      · intro f hf
        rcases List.mem_cons.mp hf with rfl | hf
        · rfl
        · exact h3 f hf
      · simp; omega

theorem blockLoop_spec (rfid : CStr) (w : TC.World) : ∀ (msgs sent : List CStr),
    ∃ w1 S, (TC.blockLoop rfid w msgs sent = .hang w1 ∨ TC.blockLoop rfid w msgs sent = .ok () w1)
      ∧ w1.sent = sent ++ S ∧ TC.frameBLK rfid ∈ S
      ∧ w1.keys = w.keys ∧ w1.replies = w.replies := by
  intro msgs
  induction msgs with
  | nil =>
    intro sent
    exact ⟨_, [TC.frameBLK rfid], Or.inl rfl, rfl, by simp, rfl, rfl⟩
  | cons m rest ih =>
    intro sent
    unfold TC.blockLoop
    split_ifs
    · exact ⟨_, [TC.frameBLK rfid], Or.inr rfl, rfl, by simp, rfl, rfl⟩
    · obtain ⟨w1, S, h1, h2, h3, h4, h5⟩ := ih (sent ++ [TC.frameBLK rfid])
      exact ⟨w1, TC.frameBLK rfid :: S, h1, by simp [h2], by simp, h4, h5⟩

theorem frameV_ne_frameBLK (rfid p : CStr) : TC.frameV rfid p ≠ TC.frameBLK rfid := by
  simp [TC.frameV, TC.frameBLK]

theorem lineok_ne_frameBLK (rfid : CStr) : "#X:LINEOK$".toList ≠ TC.frameBLK rfid := by
  simp [TC.frameBLK]

theorem not_mem_of_all_eq {S : List CStr} {f b : CStr} (h : ∀ x ∈ S, x = f) (hne : f ≠ b) :
    b ∉ S := fun hb => hne (h b hb).symm

/-- The loop `while(trys)` returns or waits for a line; the count of
`@ERR:WRONG$` among the replies it compared is what `trys` lost, and no block
request is sent inside the loop. -/
theorem pinLoop_spec (rfid : CStr) (hr : rfid.length = 8) :
    ∀ (fuel trys : Nat) (errNo : Int) (pin : List Char) (w : TC.World),
    w.msgs.length < fuel → pin.length = 5 →
    ∃ w1 S R,
      ((TC.pinLoop rfid fuel trys errNo pin w = some (.hang w1)
          ∧ R.count "@ERR:WRONG$".toList < trys ∧ "@OK:MATCHED$".toList ∉ R)
        ∨ ∃ e t p, TC.pinLoop rfid fuel trys errNo pin w = some (.ok (e, t, p) w1)
          ∧ t + R.count "@ERR:WRONG$".toList = trys
          ∧ ((t = 0 ∧ "@OK:MATCHED$".toList ∉ R ∧ (e = 1 ∨ (trys = 0 ∧ e = errNo)))
            ∨ (e ≠ 1 ∧ 0 < t ∧ "@OK:MATCHED$".toList ∉ R)
            ∨ (e = 1 ∧ 0 < t ∧ "@OK:MATCHED$".toList ∈ R)))
      ∧ w1.sent = w.sent ++ S ∧ w1.replies = w.replies ++ R ∧ TC.frameBLK rfid ∉ S := by
  intro fuel
  induction fuel with
  | zero => intro trys errNo pin w h; omega
  | succ fuel ih =>
    intro trys errNo pin w hfuel hpin
    unfold TC.pinLoop
    by_cases ht : trys = 0
    · rw [if_pos ht]
      exact ⟨w, [], [], Or.inr ⟨errNo, trys, pin, rfl, by simp [ht],
        Or.inl ⟨ht, by simp, Or.inr ⟨ht, rfl⟩⟩⟩, by simp, by simp, by simp⟩
    · rw [if_neg ht]
      have htpos : 0 < trys := Nat.pos_of_ne_zero ht
      obtain ⟨hret, hlen⟩ := getPinLoop_spec w.keys 0 TC.ATM_TIME pin
      dsimp only
      by_cases h0 : (TC.getPin pin w.keys).1 = 0
      · rw [if_pos h0]
        exact ⟨_, [], [], Or.inr ⟨_, trys, _, rfl, by simp,
          Or.inr (Or.inl ⟨by rw [h0]; decide, htpos, by simp⟩)⟩, by simp, by simp, by simp⟩
      · rw [if_neg h0]
        by_cases h1 : (TC.getPin pin w.keys).1 = -1
        · rw [if_pos h1]
          exact ⟨_, [], [], Or.inr ⟨_, trys, _, rfl, by simp,
            Or.inr (Or.inl ⟨by rw [h1]; decide, htpos, by simp⟩)⟩, by simp, by simp, by simp⟩
        · rw [if_neg h1]
          have he : (TC.getPin pin w.keys).1 = 1 := by
            rcases hret with h | h | h
            · exact absurd h h0
            · exact h
            · exact absurd h h1
          have hplen : (TC.getPin pin w.keys).2.1.length = 5 := by
            rw [← hpin]; exact hlen
          obtain ⟨w2, S1, hc, hs1, hx1, hk1, hr1, hm1⟩ :=
            checkPCLoop_spec { w with keys := (TC.getPin pin w.keys).2.2 } w.msgs w.sent
          have hb1 : TC.frameBLK rfid ∉ S1 := not_mem_of_all_eq hx1 (lineok_ne_frameBLK rfid)
          rcases hc with hc | ⟨hc, hlt1⟩
          · have hc2 : TC.checkPC { w with keys := (TC.getPin pin w.keys).2.2 } = .hang w2 := hc
            rw [hc2]
            exact ⟨w2, S1, [], Or.inl ⟨rfl, by simpa using htpos, by simp⟩, hs1, by simp [hr1], hb1⟩
          · have hc2 : TC.checkPC { w with keys := (TC.getPin pin w.keys).2.2 } = .ok () w2 := hc
            rw [hc2]
            dsimp only
            have hfl : (TC.frameV rfid (cstr (TC.getPin pin w.keys).2.1)).length < TC.BUF_MAX := by
              have := cstr_length_le (TC.getPin pin w.keys).2.1
              simp only [TC.frameV, TC.BUF_MAX, List.length_cons, List.length_append, hr,
                List.length_nil]
              omega
            obtain ⟨w3, S2, hx, hs2, hx2, hk2, hr2, hm2⟩ :=
              exchangeLoop_spec (TC.frameV rfid (cstr (TC.getPin pin w.keys).2.1)) w2 w2.msgs w2.sent
            have hb2 : TC.frameBLK rfid ∉ S2 := not_mem_of_all_eq hx2 (frameV_ne_frameBLK rfid _)
            have hb12 : TC.frameBLK rfid ∉ S1 ++ S2 := by
              simp only [List.mem_append, not_or]; exact ⟨hb1, hb2⟩
            have hsent : w3.sent = w.sent ++ (S1 ++ S2) := by
              rw [hs2, hs1, List.append_assoc]
            have hrep : w3.replies = w.replies := by rw [hr2, hr1]
            unfold TC.exchange
            rw [if_pos hfl]
            rcases hx with hx | ⟨m, hx, hlt2⟩
            · rw [hx]
              exact ⟨w3, S1 ++ S2, [], Or.inl ⟨rfl, by simpa using htpos, by simp⟩, hsent,
                by simp [hrep], hb12⟩
            · rw [hx]
              dsimp only
              by_cases hM : m = "@OK:MATCHED$".toList
              · rw [if_pos hM]
                refine ⟨_, S1 ++ S2, [m], Or.inr ⟨_, trys, _, rfl, ?_,
                  Or.inr (Or.inr ⟨he, htpos, by simp [hM]⟩)⟩, hsent, by simp [hrep], hb12⟩
                have hcM : List.count "@ERR:WRONG$".toList ["@OK:MATCHED$".toList] = 0 := by decide
                rw [hM, hcM]
                rfl
              · rw [if_neg hM]
                have hfuel2 : w3.msgs.length < fuel := by
                  have hl1 : w2.msgs.length < w.msgs.length := hlt1
                  omega
                by_cases hW : m = "@ERR:WRONG$".toList
                · rw [if_pos hW]
                  obtain ⟨w5, S3, R3, hres, hs5, hr5, hb5⟩ :=
                    ih (trys - 1) (TC.getPin pin w.keys).1 (TC.getPin pin w.keys).2.1
                      { w3 with replies := w3.replies ++ [m] } hfuel2 hplen
                  have hcnt : (m :: R3).count "@ERR:WRONG$".toList
                      = R3.count "@ERR:WRONG$".toList + 1 := by
                    rw [hW]; simp
                  have hMn : "@OK:MATCHED$".toList ∉ m :: R3 ↔ "@OK:MATCHED$".toList ∉ R3 := by
                    simp only [List.mem_cons, not_or]
                    exact ⟨fun h => h.2, fun h => ⟨fun e => hM e.symm, h⟩⟩
                  refine ⟨w5, S1 ++ S2 ++ S3, m :: R3, ?_, ?_, ?_, ?_⟩
                  · rcases hres with ⟨h1, h2, h3⟩ | ⟨e, t, p, h1, h2, h3⟩
                    · exact Or.inl ⟨h1, by rw [hcnt]; omega, hMn.mpr h3⟩
                    · refine Or.inr ⟨e, t, p, h1, by rw [hcnt]; omega, ?_⟩
                      rcases h3 with ⟨a, b, c⟩ | ⟨a, b, c⟩ | ⟨a, b, c⟩
                      · refine Or.inl ⟨a, hMn.mpr b, Or.inl ?_⟩
                        rcases c with c | ⟨-, c⟩
                        · exact c
                        · rw [c]; exact he
                      · exact Or.inr (Or.inl ⟨a, b, hMn.mpr c⟩)
                      · exact Or.inr (Or.inr ⟨a, b, List.mem_cons_of_mem _ c⟩)
                  · rw [hs5]; simp only [hsent, List.append_assoc]
                  · rw [hr5]; simp only [hrep, List.append_assoc, List.singleton_append]
                  · simp only [List.mem_append, not_or] at hb12 ⊢
                    exact ⟨⟨hb12.1, hb12.2⟩, hb5⟩
                · rw [if_neg hW]
                  obtain ⟨w5, S3, R3, hres, hs5, hr5, hb5⟩ :=
                    ih trys (TC.getPin pin w.keys).1 (TC.getPin pin w.keys).2.1
                      { w3 with replies := w3.replies ++ [m] } hfuel2 hplen
                  have hcnt : (m :: R3).count "@ERR:WRONG$".toList
                      = R3.count "@ERR:WRONG$".toList := by
                    rw [List.count_cons, if_neg (by simpa using hW)]
                    rfl
                  have hMn : "@OK:MATCHED$".toList ∉ m :: R3 ↔ "@OK:MATCHED$".toList ∉ R3 := by
                    simp only [List.mem_cons, not_or]
                    exact ⟨fun h => h.2, fun h => ⟨fun e => hM e.symm, h⟩⟩
                  refine ⟨w5, S1 ++ S2 ++ S3, m :: R3, ?_, ?_, ?_, ?_⟩
                  · rcases hres with ⟨h1, h2, h3⟩ | ⟨e, t, p, h1, h2, h3⟩
                    · exact Or.inl ⟨h1, by rw [hcnt]; exact h2, hMn.mpr h3⟩
                    · refine Or.inr ⟨e, t, p, h1, by rw [hcnt]; exact h2, ?_⟩
                      rcases h3 with ⟨a, b, c⟩ | ⟨a, b, c⟩ | ⟨a, b, c⟩
                      · refine Or.inl ⟨a, hMn.mpr b, Or.inl ?_⟩
                        rcases c with c | ⟨c, -⟩
                        · exact c
                        · exact absurd c ht
                      · exact Or.inr (Or.inl ⟨a, b, hMn.mpr c⟩)
                      · exact Or.inr (Or.inr ⟨a, b, List.mem_cons_of_mem _ c⟩)
                  · rw [hs5]; simp only [hsent, List.append_assoc]
                  · rw [hr5]; simp only [hrep, List.append_assoc, List.singleton_append]
                  · simp only [List.mem_append, not_or] at hb12 ⊢
                    exact ⟨⟨hb12.1, hb12.2⟩, hb5⟩

/-- The PIN entry of `main`, for a card number of 8 bytes and the array
`pin[5]`, whatever keys are pressed and whatever lines arrive, comes to an end
or waits for a line, and then: the count of `@ERR:WRONG$` among the replies to
`#V` it compared is at most `MAX_TRYS`; `#A:BLK:<rfid>$` has been sent exactly
when that count is `MAX_TRYS`; it has not been sent when `@OK:MATCHED$` was
among the replies; and when the entry ends, `trys` is `MAX_TRYS` less that
count (no other reply, time-out or cancel costs a try), it ends blocked exactly
when the count is `MAX_TRYS` and goes on to the menu exactly when
`@OK:MATCHED$` was received. -/
theorem pinPhase_counts (rfid : CStr) (errNo0 : Int) (pin : List Char) (w : TC.World)
    (hr : rfid.length = 8) (hp : pin.length = 5) :
    ∃ r w1 S R, TC.pinPhase rfid errNo0 pin w = some r ∧
      (r = .hang w1 ∨ ∃ out, r = .ok out w1
        ∧ out.2.1 + R.count "@ERR:WRONG$".toList = TC.MAX_TRYS
        ∧ (out.1 = .blocked ↔ R.count "@ERR:WRONG$".toList = TC.MAX_TRYS)
        ∧ (out.1 = .menu ↔ "@OK:MATCHED$".toList ∈ R)) ∧
      w1.sent = w.sent ++ S ∧ w1.replies = w.replies ++ R ∧
      R.count "@ERR:WRONG$".toList ≤ TC.MAX_TRYS ∧
      (TC.frameBLK rfid ∈ S ↔ R.count "@ERR:WRONG$".toList = TC.MAX_TRYS) ∧
      ("@OK:MATCHED$".toList ∈ R → TC.frameBLK rfid ∉ S) := by
  obtain ⟨w1, S, R, hres, hs, hrp, hb⟩ :=
    pinLoop_spec rfid hr (w.msgs.length + 1) TC.MAX_TRYS errNo0 pin w (Nat.lt_succ_self _) hp
  have h3 : TC.MAX_TRYS = 3 := rfl
  unfold TC.pinPhase
  rcases hres with ⟨h1, h2, hM⟩ | ⟨e, t, p, h1, h2, h3c⟩
  · rw [h1]
    refine ⟨_, w1, S, R, rfl, Or.inl rfl, hs, hrp, le_of_lt h2, ?_, fun _ => hb⟩
    exact ⟨fun h => absurd h hb, fun h => absurd h (Nat.ne_of_lt h2)⟩
  · rw [h1]
    dsimp only
    rcases h3c with ⟨a, b, c⟩ | ⟨a, b, c⟩ | ⟨a, b, c⟩
    · have he : e = 1 := by
        rcases c with c | ⟨c, -⟩
        · exact c
        · exact absurd c (by decide)
      have hcnt : R.count "@ERR:WRONG$".toList = TC.MAX_TRYS := by omega
      rw [if_neg (by simp [he]), if_pos a]
      obtain ⟨w2, S2, hbl, hs2, hb2, -, hr2⟩ := blockLoop_spec rfid w1 w1.msgs w1.sent
      have hmem : TC.frameBLK rfid ∈ S ++ S2 := List.mem_append_right _ hb2
      rcases hbl with hbl | hbl
      · rw [hbl]
        refine ⟨_, w2, S ++ S2, R, rfl, Or.inl rfl, by rw [hs2, hs, List.append_assoc],
          by rw [hr2, hrp], le_of_eq hcnt, ⟨fun _ => hcnt, fun _ => hmem⟩, fun h => absurd h b⟩
      · rw [hbl]
        refine ⟨_, w2, S ++ S2, R, rfl, Or.inr ⟨_, rfl, by simpa [a] using hcnt, ?_, ?_⟩,
          by rw [hs2, hs, List.append_assoc], by rw [hr2, hrp], le_of_eq hcnt,
          ⟨fun _ => hcnt, fun _ => hmem⟩, fun h => absurd h b⟩
        · exact ⟨fun _ => hcnt, fun _ => rfl⟩
        · exact ⟨fun h => (by cases h), fun h => absurd h b⟩
    · have hcnt : R.count "@ERR:WRONG$".toList < TC.MAX_TRYS := by omega
      rw [if_pos a]
      refine ⟨_, w1, S, R, rfl, Or.inr ⟨_, rfl, h2, ?_, ?_⟩, hs, hrp, le_of_lt hcnt,
        ⟨fun h => absurd h hb, fun h => absurd h (Nat.ne_of_lt hcnt)⟩, fun _ => hb⟩
      · exact ⟨fun h => (by cases h), fun h => absurd h (Nat.ne_of_lt hcnt)⟩
      · exact ⟨fun h => (by cases h), fun h => absurd h c⟩
    · have hcnt : R.count "@ERR:WRONG$".toList < TC.MAX_TRYS := by omega
      rw [if_neg (by simp [a]), if_neg (Nat.pos_iff_ne_zero.mp b)]
      refine ⟨_, w1, S, R, rfl, Or.inr ⟨_, rfl, h2, ?_, ?_⟩, hs, hrp, le_of_lt hcnt,
        ⟨fun h => absurd h hb, fun h => absurd h (Nat.ne_of_lt hcnt)⟩, fun _ => hb⟩
      · exact ⟨fun h => (by cases h), fun h => absurd h (Nat.ne_of_lt hcnt)⟩
      · exact ⟨fun _ => c, fun _ => rfl⟩

/-- The run of `lockoutWorld`: three wrong PINs, then the block request, sent
again after the malformed line, until `@OK:DONE$`. -/
theorem pin_lockout_run :
    TC.pinPhase "11111111".toList 0 ("1111".toList ++ [NUL]) TC.lockoutWorld
      = some (.ok (.blocked, 0, "1236".toList ++ [NUL])
          { keys := [], msgs := []
            sent := ["#X:LINEOK$".toList, "#V:11111111:1234$".toList, "#X:LINEOK$".toList,
                     "#V:11111111:1235$".toList, "#X:LINEOK$".toList,
                     "#V:11111111:1236$".toList, "#A:BLK:11111111$".toList,
                     "#A:BLK:11111111$".toList]
            replies := ["@ERR:WRONG$".toList, "@ERR:WRONG$".toList, "@ERR:WRONG$".toList]
            time := TC.ATM_TIME }) := by
  decide

/-! ## Time-out during the amount entry, PIN change refused by the server -/

/-- C28 (code bug): the user types `500` and presses no other key; `str_KPM`
reports the time-out (value 1, countdown 0), and `atm_wtd` and `atm_dep` go on:
they send `#A:WTD:11111111:500$` and `#A:DEP:11111111:500$` for an amount that
was never confirmed. -/
theorem timeout_amount_is_sent :
    (TC.str_KPM (List.replicate 20 NUL) TC.timeoutWorld).map (fun r => (r.1, r.2.2.time))
      = some (1, 0) ∧
    TC.atm_wtd "11111111".toList (List.replicate 20 NUL) TC.timeoutWorld
      = .ok () { keys := [], msgs := []
                 sent := ["#X:LINEOK$".toList, "#A:WTD:11111111:500$".toList]
                 replies := [], time := 0 } ∧
    TC.atm_dep "11111111".toList (List.replicate 20 NUL) TC.timeoutWorld
      = .ok () { keys := [], msgs := []
                 sent := ["#X:LINEOK$".toList, "#A:DEP:11111111:500$".toList]
                 replies := [], time := 0 } := by
  decide

/-- C30 (code bug): the old PIN `1111` is right, the new PIN `2222` is typed
twice, and the server answers `@ERR:WRONG$`: `atm_pin` returns 0 and the PIN
the terminal holds is `2222`, no longer `1111`. -/
theorem refused_pin_change_keeps_new_pin :
    TC.atm_pin "11111111".toList ("1111".toList ++ [NUL]) (List.replicate TC.BUF_MAX NUL)
        TC.refusedWorld
      = .ok (0, "2222".toList ++ [NUL])
          { keys := [], msgs := []
            sent := ["#X:LINEOK$".toList, "#A:PIN:11111111:2222$".toList]
            replies := [], time := TC.ATM_TIME } := by
  decide

/-! ## PIN entry of the terminal on given keys and lines -/

theorem checkPCLoop_pre (w : TC.World) : ∀ (pre rest sent : List CStr),
    (∀ m ∈ pre, m ≠ "@X:LINEOK$".toList) →
    TC.checkPCLoop w (pre ++ "@X:LINEOK$".toList :: rest) sent
      = .ok () { w with msgs := rest
                        sent := sent ++ List.replicate (pre.length + 1) "#X:LINEOK$".toList } := by
  intro pre
  induction pre with
  | nil => intro rest sent _; simp [TC.checkPCLoop]
  | cons m pre ih =>
    intro rest sent h
    rw [List.cons_append]
    unfold TC.checkPCLoop
    rw [if_neg (h m (List.mem_cons_self _ _)), ih rest _ fun x hx => h x (List.mem_cons_of_mem _ hx)]
    simp [List.replicate_succ]

theorem checkPCLoop_hang (w : TC.World) : ∀ (pre sent : List CStr),
    (∀ m ∈ pre, m ≠ "@X:LINEOK$".toList) →
    TC.checkPCLoop w pre sent
      = .hang { w with msgs := []
                       sent := sent ++ List.replicate (pre.length + 1) "#X:LINEOK$".toList } := by
  intro pre
  induction pre with
  | nil => intro sent _; simp [TC.checkPCLoop]
  | cons m pre ih =>
    intro sent h
    unfold TC.checkPCLoop
    rw [if_neg (h m (List.mem_cons_self _ _)), ih _ fun x hx => h x (List.mem_cons_of_mem _ hx)]
    simp [List.replicate_succ]

theorem exchangeLoop_bad (frame : CStr) (w : TC.World) : ∀ (bad : List CStr) (reply : CStr)
    (rest sent : List CStr), (∀ m ∈ bad, TC.isMsgOk m = false) → TC.isMsgOk reply = true →
    TC.exchangeLoop frame w (bad ++ reply :: rest) sent
      = .ok reply { w with msgs := rest
                           sent := sent ++ List.replicate (bad.length + 1) frame } := by
  intro bad
  induction bad with
  | nil => intro reply rest sent _ h; simp [TC.exchangeLoop, h]
  | cons m bad ih =>
    intro reply rest sent h hr
    rw [List.cons_append]
    unfold TC.exchangeLoop
    rw [if_neg (by simp [h m (List.mem_cons_self _ _)]),
      ih reply rest _ (fun x hx => h x (List.mem_cons_of_mem _ hx)) hr]
    simp [List.replicate_succ]

theorem exchangeLoop_hang (frame : CStr) (w : TC.World) : ∀ (bad sent : List CStr),
    (∀ m ∈ bad, TC.isMsgOk m = false) →
    TC.exchangeLoop frame w bad sent
      = .hang { w with msgs := [], sent := sent ++ List.replicate (bad.length + 1) frame } := by
  intro bad
  induction bad with
  | nil => intro sent _; simp [TC.exchangeLoop]
  | cons m bad ih =>
    intro sent h
    unfold TC.exchangeLoop
    rw [if_neg (by simp [h m (List.mem_cons_self _ _)]),
      ih _ (fun x hx => h x (List.mem_cons_of_mem _ hx))]
    simp [List.replicate_succ]

theorem blockLoop_junk (rfid : CStr) (w : TC.World) : ∀ (junk rest sent : List CStr),
    (∀ m ∈ junk, m ≠ "@OK:DONE$".toList) →
    TC.blockLoop rfid w (junk ++ "@OK:DONE$".toList :: rest) sent
      = .ok () { w with msgs := rest
                        sent := sent ++ List.replicate (junk.length + 1) (TC.frameBLK rfid) } := by
  intro junk
  induction junk with
  | nil =>
    intro rest sent _
    have hd : TC.isMsgOk "@OK:DONE$".toList = true := by decide
    rw [List.nil_append]
    unfold TC.blockLoop
    rw [if_pos ⟨hd, rfl⟩]
    simp
  | cons m junk ih =>
    intro rest sent h
    rw [List.cons_append]
    unfold TC.blockLoop
    rw [if_neg (fun hc => h m (List.mem_cons_self _ _) hc.2),
      ih rest _ (fun x hx => h x (List.mem_cons_of_mem _ hx))]
    simp [List.replicate_succ]

theorem blockLoop_hang (rfid : CStr) (w : TC.World) : ∀ (junk sent : List CStr),
    (∀ m ∈ junk, m ≠ "@OK:DONE$".toList) →
    TC.blockLoop rfid w junk sent
      = .hang { w with msgs := []
                       sent := sent ++ List.replicate (junk.length + 1) (TC.frameBLK rfid) } := by
  intro junk
  induction junk with
  | nil => intro sent _; simp [TC.blockLoop]
  | cons m junk ih =>
    intro sent h
    unfold TC.blockLoop
    rw [if_neg (fun hc => h m (List.mem_cons_self _ _) hc.2),
      ih _ (fun x hx => h x (List.mem_cons_of_mem _ hx))]
    simp [List.replicate_succ]

/-- Keys that follow a PIN typed in full are left for the next call. -/
theorem getPinLoop_append : ∀ (keys k2 : List Char) (i time : Nat) (str : List Char),
    (TC.getPinLoop keys i time str).1 = 1 →
    TC.getPinLoop (keys ++ k2) i time str
      = (1, (TC.getPinLoop keys i time str).2.1, (TC.getPinLoop keys i time str).2.2 ++ k2) := by
  intro keys
  induction keys with
  | nil => intro k2 i time str h; simp [TC.getPinLoop] at h
  | cons k rest ih =>
    intro k2 i time str h
    rw [List.cons_append]
    unfold TC.getPinLoop at h ⊢
    split_ifs at h ⊢
    · exact ih _ _ _ _ h
    · simp at h
    · exact ih _ _ _ _ h
    · rfl
    · exact ih _ _ _ _ h
    · simp at h
    · exact ih _ _ _ _ h
    · simp at h

/-- A PIN typed in full leaves in an array of 5 bytes the same bytes whatever
the array held. -/
theorem getPinLoop_indep : ∀ (keys : List Char) (i time : Nat) (s1 s2 : List Char),
    s1.length = 5 → s2.length = 5 → i ≤ 3 → (∀ j, j < i → s1[j]? = s2[j]?) →
    (TC.getPinLoop keys i time s1).1 = 1 →
    TC.getPinLoop keys i time s2 = TC.getPinLoop keys i time s1 := by
  intro keys
  induction keys with
  | nil => intro i time s1 s2 _ _ _ _ h; simp [TC.getPinLoop] at h
  | cons k rest ih =>
    intro i time s1 s2 h1 h2 hi hag h
    unfold TC.getPinLoop at h ⊢
    split_ifs at h ⊢ with c1 c2 c3 c4 c5 c6 c7
    · exact ih _ _ _ _ h1 h2 hi hag h
    · simp at h
    · refine ih _ _ _ _ (by simpa using h1) (by simpa using h2) (by omega) ?_ h
      intro j hj
      by_cases hji : i = j
      · subst hji
        rw [List.getElem?_set_self (by omega), List.getElem?_set_self (by omega)]
      · rw [List.getElem?_set_ne hji, List.getElem?_set_ne hji]
        exact hag j (by omega)
    · have hi3 : i = 3 := by omega
      subst hi3
      have e0 := hag 0 (by decide)
      have e1 := hag 1 (by decide)
      have e2 := hag 2 (by decide)
      rcases s1 with _ | ⟨a1, _ | ⟨b1, _ | ⟨c1, _ | ⟨d1, _ | ⟨e1, _ | ⟨f1, t1⟩⟩⟩⟩⟩⟩ <;>
        simp at h1
      rcases s2 with _ | ⟨a2, _ | ⟨b2, _ | ⟨c2, _ | ⟨d2, _ | ⟨e2, _ | ⟨f2, t2⟩⟩⟩⟩⟩⟩ <;>
        simp at h2
      simp at e0 e1 e2
      simp [e0, e1, e2]
    · exact ih _ _ _ _ h1 h2 (by omega) (fun j hj => hag j (by omega)) h
    · simp at h
    · exact ih _ _ _ _ h1 h2 hi hag h
    · simp at h

/-- The call of `getPin` at the start of a pass: the PIN is typed in full, the
array holds it and the keys of the pass are used up. -/
theorem getPin_attempt (a : TC.Attempt) (ha : a.Wf) (pin kr : List Char) (hp : pin.length = 5) :
    TC.getPin pin (a.keys ++ kr) = (1, a.arr, kr) ∧ a.arr.length = 5 := by
  obtain ⟨h1, h2, -⟩ := ha
  unfold TC.getPin at h1 h2 ⊢
  have hz : (List.replicate 5 NUL).length = 5 := by simp
  have e := getPinLoop_indep a.keys 0 TC.ATM_TIME (List.replicate 5 NUL) pin hz hp (by decide)
    (fun j hj => absurd hj (by omega)) h1
  have e1 : (TC.getPinLoop a.keys 0 TC.ATM_TIME pin).1 = 1 := by rw [e]; exact h1
  constructor
  · rw [getPinLoop_append a.keys kr 0 TC.ATM_TIME pin e1, e, h2]
    rfl
  · unfold TC.Attempt.arr TC.getPin
    rw [(getPinLoop_spec a.keys 0 TC.ATM_TIME (List.replicate 5 NUL)).2]
    exact hz

theorem frameV_fits (rfid : CStr) (hr : rfid.length = 8) (arr : List Char) (h : arr.length = 5) :
    (TC.frameV rfid (cstr arr)).length < TC.BUF_MAX := by
  have := cstr_length_le arr
  simp only [TC.frameV, TC.BUF_MAX, List.length_cons, List.length_append, hr, List.length_nil]
  omega

/-- One pass of the loop `while(trys)` on the inputs of an attempt. -/
theorem pinLoop_attempt (rfid : CStr) (hr : rfid.length = 8) (a : TC.Attempt) (ha : a.Wf)
    (fuel trys : Nat) (errNo : Int) (pin : List Char) (hp : pin.length = 5) (ht : trys ≠ 0)
    (kr : List Char) (mr sent replies : List CStr) (time : Nat) :
    TC.pinLoop rfid (fuel + 1) trys errNo pin
        { keys := a.keys ++ kr, msgs := a.lines ++ mr, sent := sent, replies := replies,
          time := time }
      = if a.reply = "@OK:MATCHED$".toList then
          some (.ok (1, trys, a.arr)
            { keys := kr, msgs := mr, sent := sent ++ a.frames rfid,
              replies := replies ++ [a.reply], time := time })
        else if a.reply = "@ERR:WRONG$".toList then
          TC.pinLoop rfid fuel (trys - 1) 1 a.arr
            { keys := kr, msgs := mr, sent := sent ++ a.frames rfid,
              replies := replies ++ [a.reply], time := time }
        else
          TC.pinLoop rfid fuel trys 1 a.arr
            { keys := kr, msgs := mr, sent := sent ++ a.frames rfid,
              replies := replies ++ [a.reply], time := time } := by
  obtain ⟨hg, hlen⟩ := getPin_attempt a ha pin kr hp
  obtain ⟨-, -, hpre, hbad, hrep⟩ := ha
  have hl : a.lines ++ mr = a.pre ++ "@X:LINEOK$".toList :: (a.bad ++ a.reply :: mr) := by
    simp [TC.Attempt.lines]
  rw [TC.pinLoop, if_neg ht]
  simp only [hg, hl]
  rw [if_neg (by decide), if_neg (by decide)]
  unfold TC.checkPC
  simp only
  rw [checkPCLoop_pre _ a.pre _ _ hpre]
  simp only
  unfold TC.exchange
  rw [if_pos (frameV_fits rfid hr a.arr hlen)]
  simp only
  rw [exchangeLoop_bad _ _ a.bad a.reply mr _ hbad hrep]
  simp only [TC.Attempt.frames, List.append_assoc]

theorem linesOf_length (as : List TC.Attempt) : 2 * as.length ≤ (TC.linesOf as).length := by
  induction as with
  | nil => simp [TC.linesOf]
  | cons a as ih =>
    simp only [TC.linesOf, TC.Attempt.lines, List.length_append, List.length_cons,
      List.length_nil]
    omega

/-- No pass sends a block request. -/
theorem framesOf_no_block (rfid : CStr) : ∀ as : List TC.Attempt,
    TC.frameBLK rfid ∉ TC.framesOf rfid as := by
  intro as
  induction as with
  | nil => simp [TC.framesOf]
  | cons a as ih =>
    simp only [TC.framesOf, TC.Attempt.frames, List.mem_append, not_or]
    refine ⟨⟨?_, ?_⟩, ih⟩
    · exact not_mem_of_all_eq (fun x hx => List.eq_of_mem_replicate hx) (lineok_ne_frameBLK rfid)
    · exact not_mem_of_all_eq (fun x hx => List.eq_of_mem_replicate hx)
        (frameV_ne_frameBLK rfid _)

/-- The loop `while(trys)` over passes none of which is answered
`@OK:MATCHED$` and fewer than `trys` of which are answered `@ERR:WRONG$`: the
loop goes on after them, `trys` lowered by the number of `@ERR:WRONG$`. -/
theorem pinLoop_script (rfid : CStr) (hr : rfid.length = 8) : ∀ (as : List TC.Attempt)
    (fuel trys : Nat) (errNo : Int) (pin kr : List Char) (mr sent replies : List CStr)
    (time : Nat), (∀ a ∈ as, a.Wf) → pin.length = 5 →
    "@OK:MATCHED$".toList ∉ TC.repliesOf as →
    (TC.repliesOf as).count "@ERR:WRONG$".toList < trys →
    (TC.pinAfter pin as).length = 5 ∧
    ∃ e, TC.pinLoop rfid (fuel + as.length) trys errNo pin
        { keys := TC.keysOf as ++ kr, msgs := TC.linesOf as ++ mr, sent := sent,
          replies := replies, time := time }
      = TC.pinLoop rfid fuel (trys - (TC.repliesOf as).count "@ERR:WRONG$".toList) e
          (TC.pinAfter pin as)
          { keys := kr, msgs := mr, sent := sent ++ TC.framesOf rfid as,
            replies := replies ++ TC.repliesOf as, time := time } := by
  intro as
  induction as with
  | nil =>
    intro fuel trys errNo pin kr mr sent replies time _ hp _ _
    exact ⟨hp, errNo, by simp [TC.keysOf, TC.linesOf, TC.framesOf, TC.repliesOf, TC.pinAfter]⟩
  | cons a as ih =>
    intro fuel trys errNo pin kr mr sent replies time hwf hp hM hW
    have ha : a.Wf := hwf a (List.mem_cons_self _ _)
    have hwf2 : ∀ b ∈ as, b.Wf := fun b hb => hwf b (List.mem_cons_of_mem _ hb)
    have harr : a.arr.length = 5 := (getPin_attempt a ha pin [] hp).2
    simp only [TC.repliesOf, List.mem_cons, not_or] at hM
    have hk : TC.keysOf (a :: as) ++ kr = a.keys ++ (TC.keysOf as ++ kr) := by
      simp [TC.keysOf]
    have hl : TC.linesOf (a :: as) ++ mr = a.lines ++ (TC.linesOf as ++ mr) := by
      simp [TC.linesOf]
    have hf : fuel + (a :: as).length = (fuel + as.length) + 1 := rfl
    have ht : trys ≠ 0 := by omega
    rw [hk, hl, hf, pinLoop_attempt rfid hr a ha _ trys errNo pin hp ht, if_neg (Ne.symm hM.1)]
    by_cases hw : a.reply = "@ERR:WRONG$".toList
    · rw [if_pos hw]
      have hc : (TC.repliesOf (a :: as)).count "@ERR:WRONG$".toList
          = (TC.repliesOf as).count "@ERR:WRONG$".toList + 1 := by
        simp [TC.repliesOf, hw]
      rw [hc] at hW ⊢
      obtain ⟨h5, e, he⟩ := ih fuel (trys - 1) 1 a.arr kr mr (sent ++ a.frames rfid)
        (replies ++ [a.reply]) time hwf2 harr hM.2 (by omega)
      refine ⟨h5, e, ?_⟩
      rw [he]
      simp only [TC.framesOf, TC.repliesOf, TC.pinAfter, List.append_assoc,
        List.singleton_append, Nat.sub_sub, Nat.add_comm 1]
    · rw [if_neg hw]
      have hc : (TC.repliesOf (a :: as)).count "@ERR:WRONG$".toList
          = (TC.repliesOf as).count "@ERR:WRONG$".toList := by
        simp only [TC.repliesOf]
        rw [List.count_cons, if_neg (by simpa using hw)]
        rfl
      rw [hc] at hW ⊢
      obtain ⟨h5, e, he⟩ := ih fuel trys 1 a.arr kr mr (sent ++ a.frames rfid)
        (replies ++ [a.reply]) time hwf2 harr hM.2 hW
      refine ⟨h5, e, ?_⟩
      rw [he]
      simp only [TC.framesOf, TC.repliesOf, TC.pinAfter, List.append_assoc,
        List.singleton_append]

/-- The loop `while(trys)` of the PIN entry over the passes `as`, with the fuel
`pinPhase` gives it: more than one turn is left for what follows. -/
theorem pinPhase_script (rfid : CStr) (hr : rfid.length = 8) (as : List TC.Attempt)
    (errNo0 : Int) (pin kr : List Char) (mr s0 r0 : List CStr) (t : Nat)
    (hwf : ∀ a ∈ as, a.Wf) (hp : pin.length = 5)
    (hM : "@OK:MATCHED$".toList ∉ TC.repliesOf as)
    (hW : (TC.repliesOf as).count "@ERR:WRONG$".toList < TC.MAX_TRYS) :
    (TC.pinAfter pin as).length = 5 ∧
    ∃ e n, mr.length ≤ n ∧
      TC.pinLoop rfid ((TC.linesOf as ++ mr).length + 1) TC.MAX_TRYS errNo0 pin
        { keys := TC.keysOf as ++ kr, msgs := TC.linesOf as ++ mr, sent := s0, replies := r0,
          time := t }
      = TC.pinLoop rfid (n + 1)
          (TC.MAX_TRYS - (TC.repliesOf as).count "@ERR:WRONG$".toList) e (TC.pinAfter pin as)
          { keys := kr, msgs := mr, sent := s0 ++ TC.framesOf rfid as,
            replies := r0 ++ TC.repliesOf as, time := t } := by
  have hl := linesOf_length as
  obtain ⟨h5, e, he⟩ := pinLoop_script rfid hr as
    ((TC.linesOf as ++ mr).length - as.length + 1) TC.MAX_TRYS errNo0 pin kr mr s0 r0 t
    hwf hp hM hW
  refine ⟨h5, e, (TC.linesOf as ++ mr).length - as.length, ?_, ?_⟩
  · rw [List.length_append]
    omega
  · rw [← he]
    congr 1
    rw [List.length_append]
    omega

/-- PIN entry that ends on a time-out or a cancel after the passes `as`. -/
theorem pinPhase_idle (rfid : CStr) (hr : rfid.length = 8) (as : List TC.Attempt)
    (errNo0 : Int) (pin : List Char) (s0 r0 : List CStr) (t : Nat)
    (hwf : ∀ a ∈ as, a.Wf) (hp : pin.length = 5)
    (hM : "@OK:MATCHED$".toList ∉ TC.repliesOf as)
    (hW : (TC.repliesOf as).count "@ERR:WRONG$".toList < TC.MAX_TRYS)
    (kend : List Char) (mend : List CStr)
    (hk : (TC.getPin (TC.pinAfter pin as) kend).1 ≠ 1) :
    TC.pinPhase rfid errNo0 pin
        { keys := TC.keysOf as ++ kend, msgs := TC.linesOf as ++ mend, sent := s0,
          replies := r0, time := t }
      = some (.ok (.idle, TC.MAX_TRYS - (TC.repliesOf as).count "@ERR:WRONG$".toList,
            (TC.getPin (TC.pinAfter pin as) kend).2.1)
          { keys := (TC.getPin (TC.pinAfter pin as) kend).2.2, msgs := mend,
            sent := s0 ++ TC.framesOf rfid as, replies := r0 ++ TC.repliesOf as, time := t }) := by
  obtain ⟨h5, e, n, hn, he⟩ := pinPhase_script rfid hr as errNo0 pin kend mend s0 r0 t hwf hp hM hW
  have ht : TC.MAX_TRYS - (TC.repliesOf as).count "@ERR:WRONG$".toList ≠ 0 := by omega
  unfold TC.pinPhase
  dsimp only
  rw [he, TC.pinLoop, if_neg ht]
  dsimp only
  rcases (getPinLoop_spec kend 0 TC.ATM_TIME (TC.pinAfter pin as)).1 with h | h | h
  · have h0 : (TC.getPin (TC.pinAfter pin as) kend).1 = 0 := h
    rw [if_pos h0]
    dsimp only
    rw [if_pos hk]
  · exact absurd h hk
  · have h0 : (TC.getPin (TC.pinAfter pin as) kend).1 = -1 := h
    rw [if_neg (by rw [h0]; decide), if_pos h0]
    dsimp only
    rw [if_pos hk]

/-- PIN entry in which the pass after `as` is answered `@OK:MATCHED$`. -/
theorem pinPhase_menu (rfid : CStr) (hr : rfid.length = 8) (as : List TC.Attempt)
    (errNo0 : Int) (pin : List Char) (s0 r0 : List CStr) (t : Nat)
    (hwf : ∀ a ∈ as, a.Wf) (hp : pin.length = 5)
    (hM : "@OK:MATCHED$".toList ∉ TC.repliesOf as)
    (hW : (TC.repliesOf as).count "@ERR:WRONG$".toList < TC.MAX_TRYS)
    (a : TC.Attempt) (kend : List Char) (mend : List CStr) (ha : a.Wf)
    (hrep : a.reply = "@OK:MATCHED$".toList) :
    TC.pinPhase rfid errNo0 pin
        { keys := TC.keysOf as ++ (a.keys ++ kend), msgs := TC.linesOf as ++ (a.lines ++ mend),
          sent := s0, replies := r0, time := t }
      = some (.ok (.menu, TC.MAX_TRYS - (TC.repliesOf as).count "@ERR:WRONG$".toList, a.arr)
          { keys := kend, msgs := mend, sent := s0 ++ TC.framesOf rfid as ++ a.frames rfid,
            replies := r0 ++ TC.repliesOf as ++ ["@OK:MATCHED$".toList], time := t }) := by
  obtain ⟨h5, e, n, hn, he⟩ := pinPhase_script rfid hr as errNo0 pin (a.keys ++ kend)
    (a.lines ++ mend) s0 r0 t hwf hp hM hW
  have ht : TC.MAX_TRYS - (TC.repliesOf as).count "@ERR:WRONG$".toList ≠ 0 := by omega
  unfold TC.pinPhase
  dsimp only
  rw [he, pinLoop_attempt rfid hr a ha n _ e _ h5 ht, if_pos hrep]
  dsimp only
  rw [if_neg (by simp), if_neg ht, hrep]

/-- PIN entry in which the pass after `as` is the third answered
`@ERR:WRONG$`: the loop is left with `trys` 0. -/
theorem pinLoop_third_wrong (rfid : CStr) (hr : rfid.length = 8) (as : List TC.Attempt)
    (errNo0 : Int) (pin : List Char) (s0 r0 : List CStr) (t : Nat)
    (hwf : ∀ a ∈ as, a.Wf) (hp : pin.length = 5)
    (hM : "@OK:MATCHED$".toList ∉ TC.repliesOf as)
    (hW : (TC.repliesOf as).count "@ERR:WRONG$".toList = 2)
    (a : TC.Attempt) (kend : List Char) (mend : List CStr) (ha : a.Wf)
    (hrep : a.reply = "@ERR:WRONG$".toList) :
    TC.pinLoop rfid ((TC.linesOf as ++ (a.lines ++ mend)).length + 1) TC.MAX_TRYS errNo0 pin
        { keys := TC.keysOf as ++ (a.keys ++ kend), msgs := TC.linesOf as ++ (a.lines ++ mend),
          sent := s0, replies := r0, time := t }
      = some (.ok (1, 0, a.arr)
          { keys := kend, msgs := mend, sent := s0 ++ TC.framesOf rfid as ++ a.frames rfid,
            replies := r0 ++ TC.repliesOf as ++ ["@ERR:WRONG$".toList], time := t }) := by
  have h3 : TC.MAX_TRYS = 3 := rfl
  obtain ⟨h5, e, n, hn, he⟩ := pinPhase_script rfid hr as errNo0 pin (a.keys ++ kend)
    (a.lines ++ mend) s0 r0 t hwf hp hM (by omega)
  have hn1 : 1 ≤ n := by
    simp only [TC.Attempt.lines, List.length_append, List.length_cons] at hn
    omega
  obtain ⟨k, rfl⟩ : ∃ k, n = k + 1 := ⟨n - 1, by omega⟩
  rw [he, pinLoop_attempt rfid hr a ha _ _ e _ h5 (by omega),
    if_neg (by rw [hrep]; decide), if_pos hrep, hW, h3, TC.pinLoop, if_pos rfl, hrep]

theorem pinPhase_blocked (rfid : CStr) (hr : rfid.length = 8) (as : List TC.Attempt)
    (errNo0 : Int) (pin : List Char) (s0 r0 : List CStr) (t : Nat)
    (hwf : ∀ a ∈ as, a.Wf) (hp : pin.length = 5)
    (hM : "@OK:MATCHED$".toList ∉ TC.repliesOf as)
    (hW : (TC.repliesOf as).count "@ERR:WRONG$".toList = 2)
    (a : TC.Attempt) (kend : List Char) (junk rest : List CStr) (ha : a.Wf)
    (hrep : a.reply = "@ERR:WRONG$".toList) (hj : ∀ m ∈ junk, m ≠ "@OK:DONE$".toList) :
    TC.pinPhase rfid errNo0 pin
        { keys := TC.keysOf as ++ (a.keys ++ kend)
          msgs := TC.linesOf as ++ (a.lines ++ (junk ++ "@OK:DONE$".toList :: rest))
          sent := s0, replies := r0, time := t }
      = some (.ok (.blocked, 0, a.arr)
          { keys := kend, msgs := rest
            sent := s0 ++ TC.framesOf rfid as ++ a.frames rfid
              ++ List.replicate (junk.length + 1) (TC.frameBLK rfid)
            replies := r0 ++ TC.repliesOf as ++ ["@ERR:WRONG$".toList], time := t }) := by
  unfold TC.pinPhase
  dsimp only
  rw [pinLoop_third_wrong rfid hr as errNo0 pin s0 r0 t hwf hp hM hW a kend _ ha hrep]
  dsimp only
  rw [if_neg (by simp), if_pos rfl, blockLoop_junk rfid _ junk rest _ hj]

theorem pinPhase_blocked_wait (rfid : CStr) (hr : rfid.length = 8) (as : List TC.Attempt)
    (errNo0 : Int) (pin : List Char) (s0 r0 : List CStr) (t : Nat)
    (hwf : ∀ a ∈ as, a.Wf) (hp : pin.length = 5)
    (hM : "@OK:MATCHED$".toList ∉ TC.repliesOf as)
    (hW : (TC.repliesOf as).count "@ERR:WRONG$".toList = 2)
    (a : TC.Attempt) (kend : List Char) (junk : List CStr) (ha : a.Wf)
    (hrep : a.reply = "@ERR:WRONG$".toList) (hj : ∀ m ∈ junk, m ≠ "@OK:DONE$".toList) :
    TC.pinPhase rfid errNo0 pin
        { keys := TC.keysOf as ++ (a.keys ++ kend)
          msgs := TC.linesOf as ++ (a.lines ++ junk)
          sent := s0, replies := r0, time := t }
      = some (.hang
          { keys := kend, msgs := []
            sent := s0 ++ TC.framesOf rfid as ++ a.frames rfid
              ++ List.replicate (junk.length + 1) (TC.frameBLK rfid)
            replies := r0 ++ TC.repliesOf as ++ ["@ERR:WRONG$".toList], time := t }) := by
  unfold TC.pinPhase
  dsimp only
  rw [pinLoop_third_wrong rfid hr as errNo0 pin s0 r0 t hwf hp hM hW a kend _ ha hrep]
  dsimp only
  rw [if_neg (by simp), if_pos rfl, blockLoop_hang rfid _ junk _ hj]

/-- PIN entry in which, during the pass after `as`, no line arrives any more
before the answer to the line check. -/
theorem pinPhase_wait_check (rfid : CStr) (hr : rfid.length = 8) (as : List TC.Attempt)
    (errNo0 : Int) (pin : List Char) (s0 r0 : List CStr) (t : Nat)
    (hwf : ∀ a ∈ as, a.Wf) (hp : pin.length = 5)
    (hM : "@OK:MATCHED$".toList ∉ TC.repliesOf as)
    (hW : (TC.repliesOf as).count "@ERR:WRONG$".toList < TC.MAX_TRYS)
    (a : TC.Attempt) (kend : List Char) (ha : a.Wf) :
    TC.pinPhase rfid errNo0 pin
        { keys := TC.keysOf as ++ (a.keys ++ kend), msgs := TC.linesOf as ++ a.pre,
          sent := s0, replies := r0, time := t }
      = some (.hang
          { keys := kend, msgs := []
            sent := s0 ++ TC.framesOf rfid as
              ++ List.replicate (a.pre.length + 1) "#X:LINEOK$".toList
            replies := r0 ++ TC.repliesOf as, time := t }) := by
  obtain ⟨h5, e, n, hn, he⟩ := pinPhase_script rfid hr as errNo0 pin (a.keys ++ kend)
    a.pre s0 r0 t hwf hp hM hW
  have ht : TC.MAX_TRYS - (TC.repliesOf as).count "@ERR:WRONG$".toList ≠ 0 := by omega
  obtain ⟨hg, -⟩ := getPin_attempt a ha _ kend h5
  unfold TC.pinPhase
  dsimp only
  rw [he, TC.pinLoop, if_neg ht]
  simp only [hg]
  rw [if_neg (by decide), if_neg (by decide)]
  unfold TC.checkPC
  simp only
  rw [checkPCLoop_hang _ a.pre _ ha.2.2.1]

/-- PIN entry in which, during the pass after `as`, no line arrives any more
before a well-formed reply to `#V`. -/
theorem pinPhase_wait_reply (rfid : CStr) (hr : rfid.length = 8) (as : List TC.Attempt)
    (errNo0 : Int) (pin : List Char) (s0 r0 : List CStr) (t : Nat)
    (hwf : ∀ a ∈ as, a.Wf) (hp : pin.length = 5)
    (hM : "@OK:MATCHED$".toList ∉ TC.repliesOf as)
    (hW : (TC.repliesOf as).count "@ERR:WRONG$".toList < TC.MAX_TRYS)
    (a : TC.Attempt) (kend : List Char) (ha : a.Wf) :
    TC.pinPhase rfid errNo0 pin
        { keys := TC.keysOf as ++ (a.keys ++ kend)
          msgs := TC.linesOf as ++ (a.pre ++ "@X:LINEOK$".toList :: a.bad)
          sent := s0, replies := r0, time := t }
      = some (.hang
          { keys := kend, msgs := []
            sent := s0 ++ TC.framesOf rfid as ++ a.frames rfid
            replies := r0 ++ TC.repliesOf as, time := t }) := by
  obtain ⟨h5, e, n, hn, he⟩ := pinPhase_script rfid hr as errNo0 pin (a.keys ++ kend)
    (a.pre ++ "@X:LINEOK$".toList :: a.bad) s0 r0 t hwf hp hM hW
  have ht : TC.MAX_TRYS - (TC.repliesOf as).count "@ERR:WRONG$".toList ≠ 0 := by omega
  obtain ⟨hg, hlen⟩ := getPin_attempt a ha _ kend h5
  unfold TC.pinPhase
  dsimp only
  rw [he, TC.pinLoop, if_neg ht]
  simp only [hg]
  rw [if_neg (by decide), if_neg (by decide)]
  unfold TC.checkPC
  simp only
  rw [checkPCLoop_pre _ a.pre _ _ ha.2.2.1]
  simp only
  unfold TC.exchange
  rw [if_pos (frameV_fits rfid hr a.arr hlen)]
  simp only
  rw [exchangeLoop_hang _ _ a.bad _ ha.2.2.2.1]
  simp only [TC.Attempt.frames, List.append_assoc]

/-- C24: the PIN entry of `main`, for a card number of 8 bytes and the array
`pin[5]`.

On any keys and any lines the entry comes to an end or waits for a line;
the count of `@ERR:WRONG$` among the replies to `#V` is at most `MAX_TRYS`, and
`#A:BLK:<rfid>$` has been sent exactly when that count is `MAX_TRYS`, never
when `@OK:MATCHED$` was among the replies.

On the inputs themselves: let the keys and the lines begin with those of the
passes `as`, each a PIN typed in full, the line check answered and the request
`#V` answered by a well-formed line, none of these `@OK:MATCHED$` and fewer
than `MAX_TRYS` of them `@ERR:WRONG$`. The terminal sends the line checks and
the requests `#V` of these passes and nothing else, and then:
* if the next entry times out or is cancelled, the entry ends at the card
  prompt with `trys` equal to `MAX_TRYS` less the number of `@ERR:WRONG$`, no
  line taken and nothing more sent;
* if the next pass is answered `@OK:MATCHED$`, the entry goes on to the menu
  with the same `trys`, and nothing but the frames of that pass is sent;
* if the next pass is answered `@ERR:WRONG$` and two passes of `as` were, `trys`
  is 0 and `#A:BLK:<rfid>$` is sent, once for each line up to `@OK:DONE$`, after
  which the entry ends blocked; if `@OK:DONE$` never arrives the terminal
  waits, having sent it once more than lines arrived;
* if the lines stop during the next pass, the terminal waits, having sent only
  line checks and requests `#V`.
No pass sends `#A:BLK:<rfid>$`. -/
theorem pin_retry_budget (rfid : CStr) (errNo0 : Int) (pin : List Char) (as : List TC.Attempt)
    (s0 r0 : List CStr) (t : Nat) (hr : rfid.length = 8) (hp : pin.length = 5)
    (hwf : ∀ a ∈ as, a.Wf) (hM : "@OK:MATCHED$".toList ∉ TC.repliesOf as)
    (hW : (TC.repliesOf as).count "@ERR:WRONG$".toList < TC.MAX_TRYS) :
    (∀ w : TC.World, ∃ r w1 S R, TC.pinPhase rfid errNo0 pin w = some r ∧
      (r = .hang w1 ∨ ∃ out, r = .ok out w1
        ∧ out.2.1 + R.count "@ERR:WRONG$".toList = TC.MAX_TRYS
        ∧ (out.1 = .blocked ↔ R.count "@ERR:WRONG$".toList = TC.MAX_TRYS)
        ∧ (out.1 = .menu ↔ "@OK:MATCHED$".toList ∈ R)) ∧
      w1.sent = w.sent ++ S ∧ w1.replies = w.replies ++ R ∧
      R.count "@ERR:WRONG$".toList ≤ TC.MAX_TRYS ∧
      (TC.frameBLK rfid ∈ S ↔ R.count "@ERR:WRONG$".toList = TC.MAX_TRYS) ∧
      ("@OK:MATCHED$".toList ∈ R → TC.frameBLK rfid ∉ S)) ∧
    (∀ (kend : List Char) (mend : List CStr), (TC.getPin (TC.pinAfter pin as) kend).1 ≠ 1 →
      TC.pinPhase rfid errNo0 pin
          { keys := TC.keysOf as ++ kend, msgs := TC.linesOf as ++ mend, sent := s0,
            replies := r0, time := t }
        = some (.ok (.idle, TC.MAX_TRYS - (TC.repliesOf as).count "@ERR:WRONG$".toList,
              (TC.getPin (TC.pinAfter pin as) kend).2.1)
            { keys := (TC.getPin (TC.pinAfter pin as) kend).2.2, msgs := mend,
              sent := s0 ++ TC.framesOf rfid as, replies := r0 ++ TC.repliesOf as,
              time := t })) ∧
    (∀ (a : TC.Attempt) (kend : List Char) (mend : List CStr), a.Wf →
      a.reply = "@OK:MATCHED$".toList →
      TC.pinPhase rfid errNo0 pin
          { keys := TC.keysOf as ++ (a.keys ++ kend)
            msgs := TC.linesOf as ++ (a.lines ++ mend), sent := s0, replies := r0, time := t }
        = some (.ok (.menu, TC.MAX_TRYS - (TC.repliesOf as).count "@ERR:WRONG$".toList, a.arr)
            { keys := kend, msgs := mend, sent := s0 ++ TC.framesOf rfid as ++ a.frames rfid,
              replies := r0 ++ TC.repliesOf as ++ ["@OK:MATCHED$".toList], time := t })) ∧
    (∀ (a : TC.Attempt) (kend : List Char) (junk rest : List CStr), a.Wf →
      a.reply = "@ERR:WRONG$".toList → (TC.repliesOf as).count "@ERR:WRONG$".toList = 2 →
      (∀ m ∈ junk, m ≠ "@OK:DONE$".toList) →
      TC.pinPhase rfid errNo0 pin
          { keys := TC.keysOf as ++ (a.keys ++ kend)
            msgs := TC.linesOf as ++ (a.lines ++ (junk ++ "@OK:DONE$".toList :: rest))
            sent := s0, replies := r0, time := t }
        = some (.ok (.blocked, 0, a.arr)
            { keys := kend, msgs := rest
              sent := s0 ++ TC.framesOf rfid as ++ a.frames rfid
                ++ List.replicate (junk.length + 1) (TC.frameBLK rfid)
              replies := r0 ++ TC.repliesOf as ++ ["@ERR:WRONG$".toList], time := t })) ∧
    (∀ (a : TC.Attempt) (kend : List Char) (junk : List CStr), a.Wf →
      a.reply = "@ERR:WRONG$".toList → (TC.repliesOf as).count "@ERR:WRONG$".toList = 2 →
      (∀ m ∈ junk, m ≠ "@OK:DONE$".toList) →
      TC.pinPhase rfid errNo0 pin
          { keys := TC.keysOf as ++ (a.keys ++ kend)
            msgs := TC.linesOf as ++ (a.lines ++ junk), sent := s0, replies := r0, time := t }
        = some (.hang
            { keys := kend, msgs := []
              sent := s0 ++ TC.framesOf rfid as ++ a.frames rfid
                ++ List.replicate (junk.length + 1) (TC.frameBLK rfid)
              replies := r0 ++ TC.repliesOf as ++ ["@ERR:WRONG$".toList], time := t })) ∧
    (∀ (a : TC.Attempt) (kend : List Char), a.Wf →
      TC.pinPhase rfid errNo0 pin
          { keys := TC.keysOf as ++ (a.keys ++ kend), msgs := TC.linesOf as ++ a.pre,
            sent := s0, replies := r0, time := t }
        = some (.hang
            { keys := kend, msgs := []
              sent := s0 ++ TC.framesOf rfid as
                ++ List.replicate (a.pre.length + 1) "#X:LINEOK$".toList
              replies := r0 ++ TC.repliesOf as, time := t })) ∧
    (∀ (a : TC.Attempt) (kend : List Char), a.Wf →
      TC.pinPhase rfid errNo0 pin
          { keys := TC.keysOf as ++ (a.keys ++ kend)
            msgs := TC.linesOf as ++ (a.pre ++ "@X:LINEOK$".toList :: a.bad)
            sent := s0, replies := r0, time := t }
        = some (.hang
            { keys := kend, msgs := []
              sent := s0 ++ TC.framesOf rfid as ++ a.frames rfid
              replies := r0 ++ TC.repliesOf as, time := t })) ∧
    ∀ l : List TC.Attempt, TC.frameBLK rfid ∉ TC.framesOf rfid l :=
  ⟨fun w => pinPhase_counts rfid errNo0 pin w hr hp,
    fun kend mend hk => pinPhase_idle rfid hr as errNo0 pin s0 r0 t hwf hp hM hW kend mend hk,
    fun a kend mend ha hrep =>
      pinPhase_menu rfid hr as errNo0 pin s0 r0 t hwf hp hM hW a kend mend ha hrep,
    fun a kend junk rest ha hrep hc hj =>
      pinPhase_blocked rfid hr as errNo0 pin s0 r0 t hwf hp hM hc a kend junk rest ha hrep hj,
    fun a kend junk ha hrep hc hj =>
      pinPhase_blocked_wait rfid hr as errNo0 pin s0 r0 t hwf hp hM hc a kend junk ha hrep hj,
    fun a kend ha => pinPhase_wait_check rfid hr as errNo0 pin s0 r0 t hwf hp hM hW a kend ha,
    fun a kend ha => pinPhase_wait_reply rfid hr as errNo0 pin s0 r0 t hwf hp hM hW a kend ha,
    framesOf_no_block rfid⟩

theorem pin_retry_budget_witness :
    TC.pinPhase "11111111".toList 0 ("1111".toList ++ [NUL])
        { keys := TC.keysOf [TC.wrongPass "1234".toList, TC.busyPass,
                    TC.wrongPass "1235".toList]
            ++ ((TC.wrongPass "1236".toList).keys ++ [])
          msgs := TC.linesOf [TC.wrongPass "1234".toList, TC.busyPass,
                    TC.wrongPass "1235".toList]
            ++ ((TC.wrongPass "1236".toList).lines
              ++ (["junk".toList] ++ "@OK:DONE$".toList :: []))
          sent := [], replies := [], time := TC.ATM_TIME }
      = some (.ok (.blocked, 0, (TC.wrongPass "1236".toList).arr)
          { keys := [], msgs := []
            sent := [] ++ TC.framesOf "11111111".toList [TC.wrongPass "1234".toList,
                    TC.busyPass, TC.wrongPass "1235".toList]
              ++ (TC.wrongPass "1236".toList).frames "11111111".toList
              ++ List.replicate (["junk".toList].length + 1) (TC.frameBLK "11111111".toList)
            replies := [] ++ TC.repliesOf [TC.wrongPass "1234".toList, TC.busyPass,
                    TC.wrongPass "1235".toList] ++ ["@ERR:WRONG$".toList]
            time := TC.ATM_TIME }) :=
  (pin_retry_budget "11111111".toList 0 ("1111".toList ++ [NUL])
    [TC.wrongPass "1234".toList, TC.busyPass, TC.wrongPass "1235".toList] [] [] TC.ATM_TIME
    (by decide) (by decide)
    (by
      intro a ha
      simp only [List.mem_cons, List.mem_singleton, List.not_mem_nil, or_false] at ha
      rcases ha with rfl | rfl | rfl <;> (unfold TC.Attempt.Wf; decide))
    (by decide) (by decide)).2.2.2.1 (TC.wrongPass "1236".toList) [] ["junk".toList] []
    (by unfold TC.Attempt.Wf; decide) rfl (by decide) (by decide)

/-- A run evaluated: the PIN `1234` answered `@ERR:WRONG$`, the pass `busyPass`
answered `@ERR:BUSY$`, the PINs `1235` and `1236` answered `@ERR:WRONG$`, then a
malformed line and `@OK:DONE$`. The block request goes out after the third
`@ERR:WRONG$`, twice. -/
theorem pin_script_run :
    TC.pinPhase "11111111".toList 0 ("1111".toList ++ [NUL])
        { keys := "1234".toList ++ [NUL, '1', NUL, '2', '\x08', '2', '3', '5']
            ++ "12351236".toList
          msgs := ["@X:LINEOK$".toList, "@ERR:WRONG$".toList, "junk".toList,
                   "@X:LINEOK$".toList, "noise".toList, "@ERR:BUSY$".toList,
                   "@X:LINEOK$".toList, "@ERR:WRONG$".toList, "@X:LINEOK$".toList,
                   "@ERR:WRONG$".toList, "junk".toList, "@OK:DONE$".toList]
          sent := [], replies := [], time := TC.ATM_TIME }
      = some (.ok (.blocked, 0, "1236".toList ++ [NUL])
          { keys := [], msgs := []
            sent := ["#X:LINEOK$".toList, "#V:11111111:1234$".toList, "#X:LINEOK$".toList,
                     "#X:LINEOK$".toList, "#V:11111111:1235$".toList,
                     "#V:11111111:1235$".toList, "#X:LINEOK$".toList,
                     "#V:11111111:1235$".toList, "#X:LINEOK$".toList,
                     "#V:11111111:1236$".toList, "#A:BLK:11111111$".toList,
                     "#A:BLK:11111111$".toList]
            replies := ["@ERR:WRONG$".toList, "@ERR:BUSY$".toList, "@ERR:WRONG$".toList,
                        "@ERR:WRONG$".toList]
            time := TC.ATM_TIME }) := by
  decide

end ATM
